import Mathlib

/-!
# leptjson (tutorial02): a shallow embedding of `leptjson.c`

The parser of `src/tutorial02/leptjson.c` is embedded function by function.

* A character is its code as an `unsigned char`, a natural number (`'t'` is
  `116`, NUL is `0`).
* A pointer into the input (`const char*`) is the list of the bytes of the
  buffer from the pointed position on: `*p` is the head, `++p` the tail.  The
  buffer of a C string `s` is `s ++ [0]`.  A read from the empty list is a read
  past the end of the buffer; it is reported as `Fault.out_of_bounds`.
* `assert` failing is reported as `Fault.assert_failed`.
* `errno` is threaded through as an explicit component of the state.
* The C library (`strtod`, `HUGE_VAL`, `ERANGE`, comparison and negation of
  doubles) is a parameter, `Libc`; `isspace` is the one of the "C" locale.
  The theorems hold for every such library; `libc` is one with IEEE ranges,
  for the runs on concrete texts.
* The grammar of numbers is stated a second time, in the specification's
  words (`is_number`), to compare the validation of `lept_parse_number` with.
-/

namespace LeptJson

/-! ## Declarations of `leptjson.h` -/

/-- Modelled from the spec: the tag of a value, declared in `leptjson.h`, which is
not part of the sources.  The spec's value is a tagged union with the variants
Null, True, False and Number. -/
inductive lept_type where
  | LEPT_NULL
  | LEPT_FALSE
  | LEPT_TRUE
  | LEPT_NUMBER
  deriving DecidableEq, Repr

/-- Modelled from the spec: the result codes of `lept_parse`, declared in
`leptjson.h`, which is not part of the sources: success and the spec's four
error kinds ExpectValue, InvalidValue, RootNotSingular, NumberTooBig. -/
inductive lept_code where
  | LEPT_PARSE_OK
  | LEPT_PARSE_EXPECT_VALUE
  | LEPT_PARSE_INVALID_VALUE
  | LEPT_PARSE_ROOT_NOT_SINGULAR
  | LEPT_PARSE_NUMBER_TOO_BIG
  deriving DecidableEq, Repr

export lept_type (LEPT_NULL LEPT_FALSE LEPT_TRUE LEPT_NUMBER)
export lept_code (LEPT_PARSE_OK LEPT_PARSE_EXPECT_VALUE LEPT_PARSE_INVALID_VALUE
  LEPT_PARSE_ROOT_NOT_SINGULAR LEPT_PARSE_NUMBER_TOO_BIG)

/-- Modelled from the spec: `lept_value` of `leptjson.h`; the code reads and writes
its fields `n` (a double, here a value of the library's type `D`) and `type`. -/
structure lept_value (D : Type) where
  n : D
  type : lept_type
  deriving DecidableEq

/-! ## The C library, as far as the parser uses it -/

/-- The part of the C library `lept_parse_number` calls.  `strtod nptr errno` is
the call `strtod(nptr, NULL)` on the memory `nptr` entered with the given value
of `errno`; it yields the converted double and the value of `errno` afterwards.
`deq` is `==` on doubles and `neg` is unary minus. -/
structure Libc (D : Type) where
  strtod : List Nat → Nat → D × Nat
  HUGE_VAL : D
  ERANGE : Nat
  neg : D → D
  deq : D → D → Bool

/-- The function `isspace` of `<ctype.h>` in the "C" locale: space, `\t`, `\n`, `\v`, `\f`, `\r`. -/
def isspace (ch : Nat) : Bool :=
  ch = 32 || (9 ≤ ch && ch ≤ 13)

/-! ## Faults and state -/

/-- What stops a run other than a `return`. -/
inductive Fault where
  | assert_failed
  | out_of_bounds
  deriving DecidableEq, Repr

/-- The struct `lept_context`: the cursor `json`, the memory from the current position on. -/
structure lept_context where
  json : List Nat
  deriving DecidableEq

/-- The state the parsing functions work on: the context `*c`, the value `*v`
and the global `errno`. -/
structure State (D : Type) where
  c : lept_context
  v : lept_value D
  errno : Nat
  deriving DecidableEq

/-- Two runs are compared by comparing what they returned or the fault that
stopped them. -/
instance {ε α : Type} [DecidableEq ε] [DecidableEq α] : DecidableEq (Except ε α)
  | .ok a, .ok b => if h : a = b then isTrue (by rw [h]) else isFalse (by simp [h])
  | .error a, .error b => if h : a = b then isTrue (by rw [h]) else isFalse (by simp [h])
  | .ok _, .error _ => isFalse (by simp)
  | .error _, .ok _ => isFalse (by simp)

/-- The buffer of the C string with the characters `s`: `s` and its terminating NUL. -/
def cstr (s : List Nat) : List Nat :=
  s ++ [0]

/-- The character codes of a string literal. -/
def str (s : String) : List Nat :=
  s.toList.map Char.toNat

/-! ## The macros -/

/-- The macro `#define ISDIGIT(ch) ((ch) >= '0' && (ch) <= '9')` -/
def ISDIGIT (ch : Nat) : Bool :=
  ch ≥ '0'.toNat && ch ≤ '9'.toNat

/-- The macro `#define ISDIGIT1TO9(ch) ((ch) >= '1' && (ch) <= '9')` -/
def ISDIGIT1TO9 (ch : Nat) : Bool :=
  ch ≥ '1'.toNat && ch ≤ '9'.toNat

/-- The macro `#define EXPECT(c, ch) do { assert(*c->json == (ch)); c->json++; } while(0)` -/
def EXPECT (c : lept_context) (ch : Nat) : Except Fault lept_context :=
  match c.json with
  | [] => .error .out_of_bounds
  | x :: rest => if x = ch then .ok { json := rest } else .error .assert_failed

/-! ## The parsing functions -/

/-- The loop `while (isspace(*p)) p++;` of `lept_parse_whitespace`, from `p`;
the result is `p` after the loop. -/
def lept_parse_whitespace_loop : List Nat → Except Fault (List Nat)
  | [] => .error .out_of_bounds
  | ch :: p => if isspace ch then lept_parse_whitespace_loop p else .ok (ch :: p)

/-- The function `static void lept_parse_whitespace(lept_context* c)` -/
def lept_parse_whitespace (c : lept_context) : Except Fault lept_context :=
  match lept_parse_whitespace_loop c.json with
  | .error f => .error f
  | .ok p => .ok { json := p }

/-- The loop `for (i = 0; literal[i + 1]; ++i) if (c->json[i] != literal[i + 1])
return LEPT_PARSE_INVALID_VALUE;` of `lept_parse_literal`.  The first argument is
the memory at `literal + i + 1`, the second the memory at `c->json + i`.  The
result is `none` when the loop returns `LEPT_PARSE_INVALID_VALUE`, and
`some (c->json + i)` when it runs to its end. -/
def lept_parse_literal_loop : List Nat → List Nat → Except Fault (Option (List Nat))
  | [], _ => .error .out_of_bounds
  | l :: literal, json =>
    if l = 0 then .ok (some json)
    else
      match json with
      | [] => .error .out_of_bounds
      | x :: rest =>
        if x ≠ l then .ok none else lept_parse_literal_loop literal rest

/-- The function `static int lept_parse_literal(lept_context* c, lept_value* v, const char* literal,
lept_type type)`; `literal` is the memory of the literal, its NUL included. -/
def lept_parse_literal {D : Type} (st : State D) (literal : List Nat) (type : lept_type) :
    Except Fault (lept_code × State D) :=
  match literal with
  | [] => .error .out_of_bounds
  | l0 :: literal1 =>
    match EXPECT st.c l0 with
    | .error f => .error f
    | .ok c =>
      match lept_parse_literal_loop literal1 c.json with
      | .error f => .error f
      | .ok none => .ok (LEPT_PARSE_INVALID_VALUE, { st with c := c })
      | .ok (some p) =>
        .ok (LEPT_PARSE_OK, { st with c := { json := p }, v := { st.v with type := type } })

/-- The loop `do { ++p; } while (ISDIGIT(*p));` after its first `++p`: the argument
is `p` once incremented, the result is `p` after the loop. -/
def lept_parse_number_digits : List Nat → Except Fault (List Nat)
  | [] => .error .out_of_bounds
  | ch :: p => if ISDIGIT ch then lept_parse_number_digits p else .ok (ch :: p)

/-- The part `// negative` of `lept_parse_number`: `if (*p == '-') ++p;`. -/
def lept_parse_number_negative : List Nat → Except Fault (List Nat)
  | [] => .error .out_of_bounds
  | ch :: p => if ch = '-'.toNat then .ok p else .ok (ch :: p)

/-- The part `// int` of `lept_parse_number`; `none` is `goto invalid`. -/
def lept_parse_number_int : List Nat → Except Fault (Option (List Nat))
  | [] => .error .out_of_bounds
  | ch :: p =>
    if ch = '0'.toNat then .ok (some p)
    else if ISDIGIT1TO9 ch then
      match lept_parse_number_digits p with
      | .error f => .error f
      | .ok p => .ok (some p)
    else .ok none

/-- The block `if (!ISDIGIT(*p)) goto invalid; do { ++p; } while (ISDIGIT(*p));`
that ends the parts `// frac` and `// exp`; `none` is `goto invalid`. -/
def lept_parse_number_digits1 : List Nat → Except Fault (Option (List Nat))
  | [] => .error .out_of_bounds
  | d :: p =>
    if !ISDIGIT d then .ok none
    else
      match lept_parse_number_digits p with
      | .error f => .error f
      | .ok p => .ok (some p)

/-- The part `// frac` of `lept_parse_number`; `none` is `goto invalid`. -/
def lept_parse_number_frac : List Nat → Except Fault (Option (List Nat))
  | [] => .error .out_of_bounds
  | ch :: p =>
    if ch = '.'.toNat then lept_parse_number_digits1 p
    else .ok (some (ch :: p))

/-- The part `// exp` of `lept_parse_number`; `none` is `goto invalid`. -/
def lept_parse_number_exp : List Nat → Except Fault (Option (List Nat))
  | [] => .error .out_of_bounds
  | ch :: p =>
    if ch = 'e'.toNat || ch = 'E'.toNat then
      match p with
      | [] => .error .out_of_bounds
      | s :: p1 =>
        lept_parse_number_digits1 (if s = '-'.toNat || s = '+'.toNat then p1 else s :: p1)
    else .ok (some (ch :: p))

/-- The part `// validate number` of `lept_parse_number` (lines 44 to 76), from
`p = c->json`: `none` is `goto invalid`, `some p` the pointer `p` at line 78. -/
def lept_parse_number_validate (p : List Nat) : Except Fault (Option (List Nat)) :=
  match lept_parse_number_negative p with
  | .error f => .error f
  | .ok p =>
    match lept_parse_number_int p with
    | .error f => .error f
    | .ok none => .ok none
    | .ok (some p) =>
      match lept_parse_number_frac p with
      | .error f => .error f
      | .ok none => .ok none
      | .ok (some p) => lept_parse_number_exp p

/-- The function `static int lept_parse_number(lept_context* c, lept_value* v)` -/
def lept_parse_number {D : Type} (L : Libc D) (st : State D) :
    Except Fault (lept_code × State D) :=
  match lept_parse_number_validate st.c.json with
  | .error f => .error f
  | .ok none => .ok (LEPT_PARSE_INVALID_VALUE, st)
  | .ok (some p) =>
    let errno := 0
    let r := L.strtod st.c.json errno
    let res := r.1
    let errno := r.2
    if errno = L.ERANGE && (L.deq res L.HUGE_VAL || L.deq res (L.neg L.HUGE_VAL)) then
      .ok (LEPT_PARSE_NUMBER_TOO_BIG, { st with errno := errno })
    else
      .ok (LEPT_PARSE_OK,
        { c := { json := p }, v := { n := res, type := LEPT_NUMBER }, errno := errno })

/-- The function `static int lept_parse_value(lept_context* c, lept_value* v)` -/
def lept_parse_value {D : Type} (L : Libc D) (st : State D) :
    Except Fault (lept_code × State D) :=
  match st.c.json with
  | [] => .error .out_of_bounds
  | ch :: _ =>
    if ch = 't'.toNat then lept_parse_literal st (cstr (str "true")) LEPT_TRUE
    else if ch = 'f'.toNat then lept_parse_literal st (cstr (str "false")) LEPT_FALSE
    else if ch = 'n'.toNat then lept_parse_literal st (cstr (str "null")) LEPT_NULL
    else if ch = 0 then .ok (LEPT_PARSE_EXPECT_VALUE, st)
    else lept_parse_number L st

/-- The function `int lept_parse(lept_value* v, const char* json)`, entered with `*v = v`, the
memory `json` and the given `errno`; the result is the returned code and the
state at the `return` (the local context, `*v` and `errno`). -/
def lept_parse {D : Type} (L : Libc D) (v : lept_value D) (json : List Nat) (errno : Nat) :
    Except Fault (lept_code × State D) :=
  let c : lept_context := { json := json }
  let v : lept_value D := { v with type := LEPT_NULL }
  match lept_parse_whitespace c with
  | .error f => .error f
  | .ok c =>
    match lept_parse_value L { c := c, v := v, errno := errno } with
    | .error f => .error f
    | .ok (ret, st) =>
      if ret = LEPT_PARSE_OK then
        match lept_parse_whitespace st.c with
        | .error f => .error f
        | .ok c =>
          match c.json with
          | [] => .error .out_of_bounds
          | ch :: _ =>
            if ch ≠ 0 then
              .ok (LEPT_PARSE_ROOT_NOT_SINGULAR,
                { st with c := c, v := { st.v with type := LEPT_NULL } })
            else .ok (ret, { st with c := c })
      else .ok (ret, st)

/-- The function `lept_type lept_get_type(const lept_value* v)` -/
def lept_get_type {D : Type} (v : lept_value D) : lept_type :=
  v.type

/-- The function `double lept_get_number(const lept_value* v)` -/
def lept_get_number {D : Type} (v : lept_value D) : Except Fault D :=
  if v.type = LEPT_NUMBER then .ok v.n else .error .assert_failed

/-- The test of line 80 on the outcome of `errno = 0; res = strtod(json, NULL)`:
`errno == ERANGE && (res == HUGE_VAL || res == -HUGE_VAL)`. -/
def strtod_overflows {D : Type} (L : Libc D) (json : List Nat) : Bool :=
  (L.strtod json 0).2 = L.ERANGE &&
    (L.deq (L.strtod json 0).1 L.HUGE_VAL || L.deq (L.strtod json 0).1 (L.neg L.HUGE_VAL))

/-- Lines 109 to 113 of `lept_parse`, what follows a value parsed with success:
the trailing whitespace and the test for the end of the text, from the state
`st` that `lept_parse_value` left. -/
def lept_parse_trailing {D : Type} (st : State D) : Except Fault (lept_code × State D) :=
  match lept_parse_whitespace st.c with
  | .error f => .error f
  | .ok c =>
    match c.json with
    | [] => .error .out_of_bounds
    | ch :: _ =>
      if ch ≠ 0 then
        .ok (LEPT_PARSE_ROOT_NOT_SINGULAR,
          { st with c := c, v := { st.v with type := LEPT_NULL } })
      else .ok (LEPT_PARSE_OK, { st with c := c })

/-! ## The number grammar, as the specification words it -/

/-- A digit, `"0"`-`"9"`. -/
def is_digit (ch : Nat) : Prop :=
  '0'.toNat ≤ ch ∧ ch ≤ '9'.toNat

/-- A nonzero digit, `"1"`-`"9"`. -/
def is_digit1to9 (ch : Nat) : Prop :=
  '1'.toNat ≤ ch ∧ ch ≤ '9'.toNat

instance (ch : Nat) : Decidable (is_digit ch) := by
  unfold is_digit
  infer_instance

instance (ch : Nat) : Decidable (is_digit1to9 ch) := by
  unfold is_digit1to9
  infer_instance

/-- The rule `digit+`: one or more digits. -/
def is_digits (ds : List Nat) : Prop :=
  ds ≠ [] ∧ ∀ x ∈ ds, is_digit x

/-- The rule `int := "0" | digit1-9 digit*` -/
def is_int (i : List Nat) : Prop :=
  i = ['0'.toNat] ∨ ∃ d ds, i = d :: ds ∧ is_digit1to9 d ∧ ∀ x ∈ ds, is_digit x

/-- The rule `frac := "." digit+` -/
def is_frac (f : List Nat) : Prop :=
  ∃ ds, f = '.'.toNat :: ds ∧ is_digits ds

/-- The rule `exp := ("e" | "E") ["-" | "+"] digit+` -/
def is_exp (e : List Nat) : Prop :=
  ∃ m sg ds, e = m :: (sg ++ ds) ∧ (m = 'e'.toNat ∨ m = 'E'.toNat) ∧
    (sg = [] ∨ sg = ['-'.toNat] ∨ sg = ['+'.toNat]) ∧ is_digits ds

/-- The rule `number := ["-"] int [frac] [exp]` -/
def is_number (N : List Nat) : Prop :=
  ∃ sg i f e, N = sg ++ (i ++ (f ++ e)) ∧ (sg = [] ∨ sg = ['-'.toNat]) ∧ is_int i ∧
    (f = [] ∨ is_frac f) ∧ (e = [] ∨ is_exp e)

/-- A character at which a number of the grammar cannot go on: no digit, no
`.`, no `e`, no `E`. -/
def number_stop (y : Nat) : Prop :=
  ¬ is_digit y ∧ y ≠ '.'.toNat ∧ y ≠ 'e'.toNat ∧ y ≠ 'E'.toNat

/-- The three keywords, with the type each stands for. -/
def is_keyword (kw : List Nat) (ty : lept_type) : Prop :=
  (kw = str "true" ∧ ty = LEPT_TRUE) ∨ (kw = str "false" ∧ ty = LEPT_FALSE) ∨
    (kw = str "null" ∧ ty = LEPT_NULL)

/-- The text after an optional sign: `t` without its first character when that
is `+` or `-`, else `t`. -/
def after_sign (t : List Nat) : List Nat :=
  match t with
  | [] => []
  | s :: t1 => if s = '+'.toNat ∨ s = '-'.toNat then t1 else s :: t1

/-- A piece of memory that starts with a whitespace character or with the NUL:
what can follow a text in its buffer. -/
def inert (T : List Nat) : Prop :=
  ∃ y Y, T = y :: Y ∧ (isspace y = true ∨ y = 0)

/-! ## A C library to run the parser with -/

/-- A double, as far as its range goes: `fin neg m b e` is the finite value
`(-1)^neg * m * b^e` (`b` is `10` for a decimal and `2` for a hexadecimal
constant), `inf neg` an infinity.  Rounding to 53 bits is not modelled: a
finite value is kept as the exact number that was read. -/
inductive Dbl where
  | fin (neg : Bool) (m : Nat) (b : Nat) (e : Int)
  | inf (neg : Bool)
  deriving DecidableEq, Repr

namespace Dbl

/-- Whether `m * b^e ≥ n / d`, for positive `d`. -/
def scaled_ge (m b : Nat) (e : Int) (n d : Nat) : Bool :=
  if 0 ≤ e then m * b ^ e.toNat * d ≥ n else m * d ≥ n * b ^ (-e).toNat

/-- The magnitudes from `2^1024 - 2^970` on round to an infinity. -/
def overflows (m b : Nat) (e : Int) : Bool :=
  scaled_ge m b e (2 ^ 1024 - 2 ^ 970) 1

/-- The nonzero magnitudes below `DBL_MIN = 2^-1022` underflow. -/
def underflows (m b : Nat) (e : Int) : Bool :=
  m ≠ 0 && !scaled_ge m b e 1 (2 ^ 1022)

/-- Unary minus. -/
def neg : Dbl → Dbl
  | fin s m b e => fin (!s) m b e
  | inf s => inf (!s)

/-- The comparison `==`: equal numbers, `-0.0 == 0.0` included. -/
def deq : Dbl → Dbl → Bool
  | fin s1 m1 b1 e1, fin s2 m2 b2 e2 =>
    (m1 = 0 && m2 = 0) ||
      (s1 = s2 && m1 ≠ 0 && m2 ≠ 0 &&
        m1 * b1 ^ e1.toNat * b2 ^ (-e2).toNat = m2 * b2 ^ e2.toNat * b1 ^ (-e1).toNat)
  | inf s1, inf s2 => s1 = s2
  | _, _ => false

end Dbl

/-- The value of a digit of a number in base 10 or 16. -/
def digit_value (ch : Nat) : Nat :=
  if ISDIGIT ch then ch - '0'.toNat
  else if 'a'.toNat ≤ ch ∧ ch ≤ 'f'.toNat then ch - 'a'.toNat + 10
  else ch - 'A'.toNat + 10

/-- The number a run of digits denotes in base `b`. -/
def digits_value (b : Nat) (ds : List Nat) : Nat :=
  ds.foldl (fun a d => b * a + digit_value d) 0

/-- A hexadecimal digit. -/
def isxdigit (ch : Nat) : Bool :=
  ISDIGIT ch || ('a'.toNat ≤ ch && ch ≤ 'f'.toNat) || ('A'.toNat ≤ ch && ch ≤ 'F'.toNat)

/-- The exponent part of a floating constant, introduced by `lo` or `up`
(`e`, `E` or `p`, `P`), with an optional sign and decimal digits; `0` when there
is no such part. -/
def strtod_exponent (lo up : Nat) (p : List Nat) : Int :=
  match p with
  | m :: s :: p2 =>
    if m = lo ∨ m = up then
      if s = '-'.toNat then -(digits_value 10 (p2.takeWhile ISDIGIT) : Int)
      else if s = '+'.toNat then digits_value 10 (p2.takeWhile ISDIGIT)
      else digits_value 10 ((s :: p2).takeWhile ISDIGIT)
    else 0
  | _ => 0

/-- The double of the magnitude `m * b^e` with the sign `neg`, and `errno` after
the conversion: `ERANGE = 34` on overflow and on underflow. -/
def strtod_round (neg : Bool) (m b : Nat) (e : Int) (errno : Nat) : Dbl × Nat :=
  if Dbl.overflows m b e then (Dbl.inf neg, 34)
  else if Dbl.underflows m b e then (Dbl.fin neg m b e, 34)
  else (Dbl.fin neg m b e, errno)

/-- The mantissa `digits [. digits]` of a floating constant in base `b`, whose
digits after the point weigh `b^-1 = r^-k` each, and the exponent of `r` after
it (introduced by `lo` or `up`): `none` when the mantissa has no digit, else the
`m` and `e` of the magnitude `m * r^e` read. -/
def strtod_mantissa (isdig : Nat → Bool) (b k lo up : Nat) (p : List Nat) :
    Option (Nat × Int) :=
  let ip := p.takeWhile isdig
  let p1 := p.dropWhile isdig
  let fp := if p1.head? = some '.'.toNat then p1.tail.takeWhile isdig else []
  let p2 := if p1.head? = some '.'.toNat then p1.tail.dropWhile isdig else p1
  if ip = [] ∧ fp = [] then none
  else some (digits_value b (ip ++ fp), strtod_exponent lo up p2 - (k * fp.length : Nat))

/-- The call `strtod(nptr, NULL)` of a C library with IEEE doubles: leading
whitespace, an optional sign, then a hexadecimal (`0x`) or a decimal floating constant; the
texts `inf` and `nan` are not recognised.  When nothing converts the result is
zero and `errno` is as it was. -/
def strtod (nptr : List Nat) (errno : Nat) : Dbl × Nat :=
  let p := nptr.dropWhile isspace
  let neg := decide (p.head? = some '-'.toNat)
  let p := if p.head? = some '-'.toNat ∨ p.head? = some '+'.toNat then p.tail else p
  let hex :=
    match p with
    | z :: x :: p1 =>
      if z = '0'.toNat ∧ (x = 'x'.toNat ∨ x = 'X'.toNat) then
        strtod_mantissa isxdigit 16 4 'p'.toNat 'P'.toNat p1
      else none
    | _ => none
  match hex with
  | some (m, e) => strtod_round neg m 2 e errno
  | none =>
    match strtod_mantissa ISDIGIT 10 1 'e'.toNat 'E'.toNat p with
    | some (m, e) => strtod_round neg m 10 e errno
    | none => (Dbl.fin false 0 10 0, errno)

/-- The C library the examples run with. -/
def libc : Libc Dbl where
  strtod := strtod
  HUGE_VAL := Dbl.inf false
  ERANGE := 34
  neg := Dbl.neg
  deq := Dbl.deq

/-! ## The loops -/

theorem isspace_zero : isspace 0 = false := by decide

theorem ISDIGIT_zero : ISDIGIT 0 = false := by decide

/-- The whitespace loop skips a run of whitespace. -/
theorem whitespace_loop_append (w p : List Nat) (hw : ∀ x ∈ w, isspace x = true) :
    lept_parse_whitespace_loop (w ++ p) = lept_parse_whitespace_loop p := by
  induction w with
  | nil => rfl
  | cons x w ih =>
    have hx : isspace x = true := hw x (List.mem_cons_self _ _)
    have hw2 : ∀ y ∈ w, isspace y = true := fun y hy => hw y (List.mem_cons_of_mem _ hy)
    simp [lept_parse_whitespace_loop, hx, ih hw2]

theorem whitespace_loop_stop (c : Nat) (p : List Nat) (hc : isspace c = false) :
    lept_parse_whitespace_loop (c :: p) = .ok (c :: p) := by
  simp [lept_parse_whitespace_loop, hc]

/-- What the whitespace loop returns: it has skipped a run of whitespace and
stands on a character that is no whitespace. -/
theorem whitespace_loop_ok (p q : List Nat) (h : lept_parse_whitespace_loop p = .ok q) :
    ∃ w c r, p = w ++ q ∧ (∀ x ∈ w, isspace x = true) ∧ q = c :: r ∧ isspace c = false := by
  induction p with
  | nil => simp [lept_parse_whitespace_loop] at h
  | cons x p ih =>
    by_cases hx : isspace x = true
    · simp [lept_parse_whitespace_loop, hx] at h
      obtain ⟨w, c, r, hp, hw, hq, hc⟩ := ih h
      refine ⟨x :: w, c, r, by simp [hp], ?_, hq, hc⟩
      intro y hy
      rcases List.mem_cons.mp hy with rfl | hy
      · exact hx
      · exact hw y hy
    · simp [lept_parse_whitespace_loop, hx] at h
      refine ⟨[], x, p, by simp [h], by simp, h.symm, by simpa using hx⟩

/-- On memory that holds a NUL the whitespace loop returns. -/
theorem whitespace_loop_total (p : List Nat) (h : 0 ∈ p) :
    ∃ q, lept_parse_whitespace_loop p = .ok q ∧ 0 ∈ q := by
  induction p with
  | nil => simp at h
  | cons x p ih =>
    by_cases hx : isspace x = true
    · have hx0 : x ≠ 0 := by
        rintro rfl
        simp [isspace_zero] at hx
      have hp : 0 ∈ p := by
        rcases List.mem_cons.mp h with h0 | h0
        · exact absurd h0.symm hx0
        · exact h0
      obtain ⟨q, hq, h0⟩ := ih hp
      exact ⟨q, by simp [lept_parse_whitespace_loop, hx, hq], h0⟩
    · exact ⟨x :: p, by simp [lept_parse_whitespace_loop, hx], h⟩


theorem ISDIGIT_iff (ch : Nat) : ISDIGIT ch = true ↔ is_digit ch := by
  simp [ISDIGIT, is_digit]

theorem ISDIGIT_false_iff (ch : Nat) : ISDIGIT ch = false ↔ ¬ is_digit ch := by
  rw [← ISDIGIT_iff]; simp

theorem ISDIGIT1TO9_iff (ch : Nat) : ISDIGIT1TO9 ch = true ↔ is_digit1to9 ch := by
  simp [ISDIGIT1TO9, is_digit1to9]

theorem is_digit_of_1to9 {ch : Nat} (h : is_digit1to9 ch) : is_digit ch := by
  simp [is_digit, is_digit1to9] at *; omega

theorem not_digit_zero : ¬ is_digit 0 := by simp [is_digit]

/-! ## digits loop -/

theorem digits_append (ds p : List Nat) (hd : ∀ x ∈ ds, is_digit x) :
    lept_parse_number_digits (ds ++ p) = lept_parse_number_digits p := by
  induction ds with
  | nil => rfl
  | cons x ds ih =>
    have hx : ISDIGIT x = true := (ISDIGIT_iff x).mpr (hd x (List.mem_cons_self _ _))
    have hd2 : ∀ y ∈ ds, is_digit y := fun y hy => hd y (List.mem_cons_of_mem _ hy)
    simp [lept_parse_number_digits, hx, ih hd2]

theorem digits_stop (c : Nat) (p : List Nat) (hc : ¬ is_digit c) :
    lept_parse_number_digits (c :: p) = .ok (c :: p) := by
  simp [lept_parse_number_digits, (ISDIGIT_false_iff c).mpr hc]

theorem digits_ok (p q : List Nat) (h : lept_parse_number_digits p = .ok q) :
    ∃ ds, p = ds ++ q ∧ (∀ x ∈ ds, is_digit x) ∧ ∀ c ∈ q.head?, ¬ is_digit c := by
  induction p with
  | nil => simp [lept_parse_number_digits] at h
  | cons x p ih =>
    by_cases hx : ISDIGIT x = true
    · simp [lept_parse_number_digits, hx] at h
      obtain ⟨ds, hp, hd, hq⟩ := ih h
      refine ⟨x :: ds, by simp [hp], ?_, hq⟩
      intro y hy
      rcases List.mem_cons.mp hy with rfl | hy
      · exact (ISDIGIT_iff _).mp hx
      · exact hd y hy
    · simp [lept_parse_number_digits, hx] at h
      subst h
      refine ⟨[], by simp, by simp, ?_⟩
      simpa [← ISDIGIT_iff] using hx

theorem digits_total (p : List Nat) (h : 0 ∈ p) :
    ∃ q, lept_parse_number_digits p = .ok q ∧ 0 ∈ q := by
  induction p with
  | nil => simp at h
  | cons x p ih =>
    by_cases hx : ISDIGIT x = true
    · have hx0 : x ≠ 0 := by
        rintro rfl
        simp [ISDIGIT] at hx
      have hp : 0 ∈ p := by
        rcases List.mem_cons.mp h with h0 | h0
        · exact absurd h0.symm hx0
        · exact h0
      obtain ⟨q, hq, h0⟩ := ih hp
      exact ⟨q, by simp [lept_parse_number_digits, hx, hq], h0⟩
    · exact ⟨x :: p, by simp [lept_parse_number_digits, hx], h⟩

/-! ## The stages of the number validation: what an accepted span looks like -/

theorem digits1_ok (p q : List Nat) (h : lept_parse_number_digits1 p = .ok (some q)) :
    ∃ ds, p = ds ++ q ∧ is_digits ds ∧ ∀ c ∈ q.head?, ¬ is_digit c := by
  cases p with
  | nil => simp [lept_parse_number_digits1] at h
  | cons d p =>
    by_cases hd : ISDIGIT d = true
    · simp only [lept_parse_number_digits1, hd, Bool.not_true] at h
      cases hl : lept_parse_number_digits p with
      | error f => simp [hl] at h
      | ok p2 =>
        simp [hl] at h
        subst h
        obtain ⟨ds, hp, hds, hq⟩ := digits_ok p p2 hl
        refine ⟨d :: ds, by simp [hp], ⟨by simp, ?_⟩, hq⟩
        intro y hy
        rcases List.mem_cons.mp hy with rfl | hy
        · exact (ISDIGIT_iff _).mp hd
        · exact hds y hy
    · simp [lept_parse_number_digits1, hd] at h

theorem negative_ok (p q : List Nat) (h : lept_parse_number_negative p = .ok q) :
    ∃ sg, p = sg ++ q ∧ (sg = [] ∨ sg = ['-'.toNat]) := by
  cases p with
  | nil => simp [lept_parse_number_negative] at h
  | cons x p =>
    by_cases hx : x = 45
    · simp [lept_parse_number_negative, hx] at h
      exact ⟨['-'.toNat], by simp [hx, h], Or.inr rfl⟩
    · simp [lept_parse_number_negative, hx] at h
      exact ⟨[], by simp [h], Or.inl rfl⟩

theorem int_ok (p q : List Nat) (h : lept_parse_number_int p = .ok (some q)) :
    ∃ i, p = i ++ q ∧ is_int i := by
  cases p with
  | nil => simp [lept_parse_number_int] at h
  | cons x p =>
    by_cases hx : x = 48
    · simp [lept_parse_number_int, hx] at h
      exact ⟨['0'.toNat], by simp [hx, h], Or.inl rfl⟩
    · by_cases h19 : ISDIGIT1TO9 x = true
      · cases hd : lept_parse_number_digits p with
        | error f => simp [lept_parse_number_int, hx, h19, hd] at h
        | ok p2 =>
          simp [lept_parse_number_int, hx, h19, hd] at h
          subst h
          obtain ⟨ds, hp, hds, _⟩ := digits_ok p p2 hd
          exact ⟨x :: ds, by simp [hp],
            Or.inr ⟨x, ds, rfl, (ISDIGIT1TO9_iff x).mp h19, hds⟩⟩
      · simp [lept_parse_number_int, hx, h19] at h

theorem frac_ok (p q : List Nat) (h : lept_parse_number_frac p = .ok (some q)) :
    ∃ f, p = f ++ q ∧ (f = [] ∨ is_frac f) := by
  cases p with
  | nil => simp [lept_parse_number_frac] at h
  | cons x p =>
    by_cases hx : x = 46
    · simp [lept_parse_number_frac, hx] at h
      obtain ⟨ds, hp, hds, _⟩ := digits1_ok p q h
      exact ⟨'.'.toNat :: ds, by simp [hx, hp], Or.inr ⟨ds, rfl, hds⟩⟩
    · simp [lept_parse_number_frac, hx] at h
      exact ⟨[], by simp [h], Or.inl rfl⟩

theorem exp_ok (p q : List Nat) (h : lept_parse_number_exp p = .ok (some q)) :
    ∃ e, p = e ++ q ∧ (e = [] ∨ is_exp e) := by
  cases p with
  | nil => simp [lept_parse_number_exp] at h
  | cons x p =>
    by_cases hx : x = 101 ∨ x = 69
    · cases p with
      | nil => simp [lept_parse_number_exp, hx] at h
      | cons s p1 =>
        by_cases hs : s = 45 ∨ s = 43
        · simp [lept_parse_number_exp, hx, hs] at h
          obtain ⟨ds, hp, hds, _⟩ := digits1_ok p1 q h
          refine ⟨x :: ([s] ++ ds), by simp [hp], Or.inr ⟨x, [s], ds, rfl, by simpa using hx, ?_, hds⟩⟩
          rcases hs with hs | hs <;> simp [hs]
        · simp [lept_parse_number_exp, hx, hs] at h
          obtain ⟨ds, hp, hds, _⟩ := digits1_ok (s :: p1) q h
          exact ⟨x :: ([] ++ ds), by simp [hp], Or.inr ⟨x, [], ds, rfl, by simpa using hx, Or.inl rfl, hds⟩⟩
    · simp [lept_parse_number_exp, hx] at h
      exact ⟨[], by simp [h], Or.inl rfl⟩

/-- A span the validation accepts is a number of the grammar. -/
theorem validate_ok (p q : List Nat) (h : lept_parse_number_validate p = .ok (some q)) :
    ∃ N, p = N ++ q ∧ is_number N := by
  unfold lept_parse_number_validate at h
  cases h1 : lept_parse_number_negative p with
  | error f => simp [h1] at h
  | ok p1 =>
    simp only [h1] at h
    cases h2 : lept_parse_number_int p1 with
    | error f => simp [h2] at h
    | ok r2 =>
      cases r2 with
      | none => simp [h2] at h
      | some p2 =>
        simp only [h2] at h
        cases h3 : lept_parse_number_frac p2 with
        | error f => simp [h3] at h
        | ok r3 =>
          cases r3 with
          | none => simp [h3] at h
          | some p3 =>
            simp only [h3] at h
            obtain ⟨sg, e1, hsg⟩ := negative_ok p p1 h1
            obtain ⟨i, e2, hi⟩ := int_ok p1 p2 h2
            obtain ⟨f, e3, hf⟩ := frac_ok p2 p3 h3
            obtain ⟨e, e4, he⟩ := exp_ok p3 q h
            exact ⟨sg ++ (i ++ (f ++ e)), by simp [e1, e2, e3, e4], sg, i, f, e, rfl, hsg, hi, hf, he⟩

/-! ## The stages of the number validation return on NUL-terminated memory -/

theorem mem_tail_of_ne {x : Nat} {p : List Nat} (h : 0 ∈ x :: p) (hx : x ≠ 0) : 0 ∈ p := by
  rcases List.mem_cons.mp h with h0 | h0
  · exact absurd h0.symm hx
  · exact h0

theorem digits1_total (p : List Nat) (h : 0 ∈ p) :
    ∃ r, lept_parse_number_digits1 p = .ok r ∧ ∀ q, r = some q → 0 ∈ q := by
  cases p with
  | nil => simp at h
  | cons d p =>
    by_cases hd : ISDIGIT d = true
    · have hd0 : d ≠ 0 := by
        rintro rfl
        simp [ISDIGIT] at hd
      obtain ⟨q, hq, h0⟩ := digits_total p (mem_tail_of_ne h hd0)
      refine ⟨some q, by simp [lept_parse_number_digits1, hd, hq], ?_⟩
      intro q2 hq2
      cases hq2
      exact h0
    · exact ⟨none, by simp [lept_parse_number_digits1, hd], by simp⟩

theorem negative_total (p : List Nat) (h : 0 ∈ p) :
    ∃ q, lept_parse_number_negative p = .ok q ∧ 0 ∈ q := by
  cases p with
  | nil => simp at h
  | cons x p =>
    by_cases hx : x = 45
    · exact ⟨p, by simp [lept_parse_number_negative, hx], mem_tail_of_ne h (by omega)⟩
    · exact ⟨x :: p, by simp [lept_parse_number_negative, hx], h⟩

theorem int_total (p : List Nat) (h : 0 ∈ p) :
    ∃ r, lept_parse_number_int p = .ok r ∧ ∀ q, r = some q → 0 ∈ q := by
  cases p with
  | nil => simp at h
  | cons x p =>
    by_cases hx : x = 48
    · refine ⟨some p, by simp [lept_parse_number_int, hx], ?_⟩
      intro q hq
      cases hq
      exact mem_tail_of_ne h (by omega)
    · by_cases h19 : ISDIGIT1TO9 x = true
      · have hx0 : x ≠ 0 := by
          rintro rfl
          simp [ISDIGIT1TO9] at h19
        obtain ⟨q, hq, h0⟩ := digits_total p (mem_tail_of_ne h hx0)
        refine ⟨some q, by simp [lept_parse_number_int, hx, h19, hq], ?_⟩
        intro q2 hq2
        cases hq2
        exact h0
      · exact ⟨none, by simp [lept_parse_number_int, hx, h19], by simp⟩

theorem frac_total (p : List Nat) (h : 0 ∈ p) :
    ∃ r, lept_parse_number_frac p = .ok r ∧ ∀ q, r = some q → 0 ∈ q := by
  cases p with
  | nil => simp at h
  | cons x p =>
    by_cases hx : x = 46
    · obtain ⟨r, hr, h0⟩ := digits1_total p (mem_tail_of_ne h (by omega))
      exact ⟨r, by simp [lept_parse_number_frac, hx, hr], h0⟩
    · refine ⟨some (x :: p), by simp [lept_parse_number_frac, hx], ?_⟩
      intro q hq
      cases hq
      exact h

theorem exp_total (p : List Nat) (h : 0 ∈ p) :
    ∃ r, lept_parse_number_exp p = .ok r ∧ ∀ q, r = some q → 0 ∈ q := by
  cases p with
  | nil => simp at h
  | cons x p =>
    by_cases hx : x = 101 ∨ x = 69
    · have hp : 0 ∈ p := mem_tail_of_ne h (by omega)
      cases p with
      | nil => simp at hp
      | cons s p1 =>
        by_cases hs : s = 45 ∨ s = 43
        · obtain ⟨r, hr, h0⟩ := digits1_total p1 (mem_tail_of_ne hp (by omega))
          exact ⟨r, by simp [lept_parse_number_exp, hx, hs, hr], h0⟩
        · obtain ⟨r, hr, h0⟩ := digits1_total (s :: p1) hp
          exact ⟨r, by simp [lept_parse_number_exp, hx, hs, hr], h0⟩
    · refine ⟨some (x :: p), by simp [lept_parse_number_exp, hx], ?_⟩
      intro q hq
      cases hq
      exact h

/-- On memory that holds a NUL the validation of a number returns, and the
pointer it leaves still has a NUL ahead. -/
theorem validate_total (p : List Nat) (h : 0 ∈ p) :
    ∃ r, lept_parse_number_validate p = .ok r ∧ ∀ q, r = some q → 0 ∈ q := by
  obtain ⟨p1, h1, m1⟩ := negative_total p h
  obtain ⟨r2, h2, m2⟩ := int_total p1 m1
  cases r2 with
  | none => exact ⟨none, by simp [lept_parse_number_validate, h1, h2], by simp⟩
  | some p2 =>
    obtain ⟨r3, h3, m3⟩ := frac_total p2 (m2 p2 rfl)
    cases r3 with
    | none => exact ⟨none, by simp [lept_parse_number_validate, h1, h2, h3], by simp⟩
    | some p3 =>
      obtain ⟨r4, h4, m4⟩ := exp_total p3 (m3 p3 rfl)
      exact ⟨r4, by simp [lept_parse_number_validate, h1, h2, h3, h4], m4⟩

/-! ## The stages of the number validation accept the grammar -/

theorem digits1_complete (ds : List Nat) (y : Nat) (Y : List Nat) (hds : is_digits ds)
    (hy : ¬ is_digit y) :
    lept_parse_number_digits1 (ds ++ y :: Y) = .ok (some (y :: Y)) := by
  obtain ⟨hne, hd⟩ := hds
  cases ds with
  | nil => exact absurd rfl hne
  | cons d ds =>
    have hd1 : ISDIGIT d = true := (ISDIGIT_iff d).mpr (hd d (List.mem_cons_self _ _))
    have hd2 : ∀ x ∈ ds, is_digit x := fun x hx => hd x (List.mem_cons_of_mem _ hx)
    simp [lept_parse_number_digits1, hd1, digits_append ds (y :: Y) hd2, digits_stop y Y hy]

theorem int_complete (i : List Nat) (y : Nat) (Y : List Nat) (hi : is_int i)
    (hy : ¬ is_digit y) :
    lept_parse_number_int (i ++ y :: Y) = .ok (some (y :: Y)) := by
  rcases hi with rfl | ⟨d, ds, rfl, hd, hds⟩
  · simp [lept_parse_number_int]
  · have h19 : ISDIGIT1TO9 d = true := (ISDIGIT1TO9_iff d).mpr hd
    have hd0 : d ≠ 48 := by
      simp [is_digit1to9] at hd; omega
    simp [lept_parse_number_int, h19, hd0, digits_append ds (y :: Y) hds, digits_stop y Y hy]

theorem frac_complete (f : List Nat) (y : Nat) (Y : List Nat) (hf : is_frac f)
    (hy : ¬ is_digit y) :
    lept_parse_number_frac (f ++ y :: Y) = .ok (some (y :: Y)) := by
  obtain ⟨ds, rfl, hds⟩ := hf
  simp [lept_parse_number_frac, digits1_complete ds y Y hds hy]

theorem frac_skip (y : Nat) (Y : List Nat) (hy : y ≠ '.'.toNat) :
    lept_parse_number_frac (y :: Y) = .ok (some (y :: Y)) := by
  simp at hy
  simp [lept_parse_number_frac, hy]

theorem exp_complete (e : List Nat) (y : Nat) (Y : List Nat) (he : is_exp e)
    (hy : ¬ is_digit y) :
    lept_parse_number_exp (e ++ y :: Y) = .ok (some (y :: Y)) := by
  obtain ⟨m, sg, ds, rfl, hm, hsg, hds⟩ := he
  have hm2 : m = 101 ∨ m = 69 := by simpa using hm
  have hds2 := hds
  obtain ⟨hne, hd⟩ := hds
  cases ds with
  | nil => exact absurd rfl hne
  | cons d ds =>
    have hdd : is_digit d := hd d (List.mem_cons_self _ _)
    have hd45 : ¬ (d = 45 ∨ d = 43) := by
      simp [is_digit] at hdd; omega
    rcases hsg with rfl | rfl | rfl
    · have := digits1_complete (d :: ds) y Y hds2 hy
      simp at this
      simp [lept_parse_number_exp, hm2, hd45, this]
    · have := digits1_complete (d :: ds) y Y hds2 hy
      simp at this
      simp [lept_parse_number_exp, hm2, this]
    · have := digits1_complete (d :: ds) y Y hds2 hy
      simp at this
      simp [lept_parse_number_exp, hm2, this]

theorem exp_skip (y : Nat) (Y : List Nat) (hy : y ≠ 'e'.toNat ∧ y ≠ 'E'.toNat) :
    lept_parse_number_exp (y :: Y) = .ok (some (y :: Y)) := by
  simp at hy
  simp [lept_parse_number_exp, hy]

theorem negative_complete (sg : List Nat) (y : Nat) (Y : List Nat)
    (hsg : sg = [] ∨ sg = ['-'.toNat]) (hy : y ≠ '-'.toNat) :
    lept_parse_number_negative (sg ++ y :: Y) = .ok (y :: Y) := by
  simp at hy
  rcases hsg with rfl | rfl
  · simp [lept_parse_number_negative, hy]
  · simp [lept_parse_number_negative]

/-- The head of a text that starts with an integer part is a digit. -/
theorem is_int_head (i : List Nat) (hi : is_int i) :
    ∃ d ds, i = d :: ds ∧ is_digit d := by
  rcases hi with rfl | ⟨d, ds, rfl, hd, _⟩
  · exact ⟨'0'.toNat, [], rfl, by simp [is_digit]⟩
  · exact ⟨d, ds, rfl, is_digit_of_1to9 hd⟩

/-- The validation accepts a number of the grammar in full when the character
that follows it cannot continue a number. -/
theorem validate_complete (N : List Nat) (y : Nat) (Y : List Nat) (hN : is_number N)
    (hy : number_stop y) :
    lept_parse_number_validate (N ++ y :: Y) = .ok (some (y :: Y)) := by
  obtain ⟨sg, i, f, e, rfl, hsg, hi, hf, he⟩ := hN
  obtain ⟨hyd, hy1, hy2, hy3⟩ := hy
  -- the exponent part and what follows it
  have h4 : lept_parse_number_exp (e ++ y :: Y) = .ok (some (y :: Y)) := by
    rcases he with rfl | he
    · exact exp_skip y Y ⟨hy2, hy3⟩
    · exact exp_complete e y Y he hyd
  obtain ⟨z, Z, hZ, hz1, hz2⟩ : ∃ z Z, e ++ y :: Y = z :: Z ∧ ¬ is_digit z ∧ z ≠ '.'.toNat := by
    rcases he with rfl | ⟨m, sg2, ds, rfl, hm, _, _⟩
    · exact ⟨y, Y, rfl, hyd, hy1⟩
    · refine ⟨m, sg2 ++ ds ++ y :: Y, by simp, ?_, ?_⟩ <;>
        rcases hm with rfl | rfl <;> simp [is_digit]
  have h3 : lept_parse_number_frac (f ++ (e ++ y :: Y)) = .ok (some (e ++ y :: Y)) := by
    rw [hZ]
    rcases hf with rfl | hf
    · exact frac_skip z Z hz2
    · exact frac_complete f z Z hf hz1
  obtain ⟨u, U, hU, hu⟩ : ∃ u U, f ++ (e ++ y :: Y) = u :: U ∧ ¬ is_digit u := by
    rcases hf with rfl | ⟨ds, rfl, _⟩
    · exact ⟨z, Z, by simp [hZ], hz1⟩
    · exact ⟨'.'.toNat, ds ++ (e ++ y :: Y), by simp, by simp [is_digit]⟩
  have h2 : lept_parse_number_int (i ++ (f ++ (e ++ y :: Y))) =
      .ok (some (f ++ (e ++ y :: Y))) := by
    rw [hU]
    exact int_complete i u U hi hu
  obtain ⟨d, ds, hd, hdd⟩ := is_int_head i hi
  have h1 : lept_parse_number_negative (sg ++ (i ++ (f ++ (e ++ y :: Y)))) =
      .ok (i ++ (f ++ (e ++ y :: Y))) := by
    rw [hd, List.cons_append]
    refine negative_complete sg d _ hsg ?_
    simp [is_digit] at hdd ⊢
    omega
  have hassoc : (sg ++ (i ++ (f ++ e))) ++ y :: Y = sg ++ (i ++ (f ++ (e ++ y :: Y))) := by
    simp
  rw [hassoc]
  simp [lept_parse_number_validate, h1, h2, h3, h4]

/-! ## Literals -/

theorem literal_loop_total (lit json : List Nat) (h : 0 ∈ json) :
    ∃ r, lept_parse_literal_loop (lit ++ [0]) json = .ok r ∧ ∀ q, r = some q → 0 ∈ q := by
  induction lit generalizing json with
  | nil => exact ⟨some json, by simp [lept_parse_literal_loop], by simpa using h⟩
  | cons l lit ih =>
    by_cases hl : l = 0
    · exact ⟨some json, by simp [lept_parse_literal_loop, hl], by simpa using h⟩
    · cases json with
      | nil => simp at h
      | cons x rest =>
        by_cases hx : x = l
        · obtain ⟨r, hr, h0⟩ := ih rest (mem_tail_of_ne h (by omega))
          exact ⟨r, by simp [lept_parse_literal_loop, hl, hx, hr], h0⟩
        · exact ⟨none, by simp [lept_parse_literal_loop, hl, hx], by simp⟩

theorem literal_loop_match (lit rest : List Nat) (h : 0 ∉ lit) :
    lept_parse_literal_loop (lit ++ [0]) (lit ++ rest) = .ok (some rest) := by
  induction lit with
  | nil => simp [lept_parse_literal_loop]
  | cons l lit ih =>
    have hl : l ≠ 0 := fun h0 => h (by simp [h0])
    have h2 : 0 ∉ lit := fun h0 => h (List.mem_cons_of_mem _ h0)
    simp [lept_parse_literal_loop, hl, ih h2]

theorem literal_loop_mismatch (lit json : List Nat) (h : 0 ∉ lit) (h0 : 0 ∈ json)
    (hp : ¬ lit <+: json) :
    lept_parse_literal_loop (lit ++ [0]) json = .ok none := by
  induction lit generalizing json with
  | nil => exact absurd (List.nil_prefix) hp
  | cons l lit ih =>
    have hl : l ≠ 0 := fun h0 => h (by simp [h0])
    have h2 : 0 ∉ lit := fun h0 => h (List.mem_cons_of_mem _ h0)
    cases json with
    | nil => simp at h0
    | cons x rest =>
      by_cases hx : x = l
      · subst hx
        have hp2 : ¬ lit <+: rest := fun hh => hp ((List.prefix_cons_inj x).mpr hh)
        simp [lept_parse_literal_loop, hl, ih rest h2 (mem_tail_of_ne h0 hl) hp2]
      · simp [lept_parse_literal_loop, hl, hx]

theorem cstr_true : cstr (str "true") = 116 :: ([114, 117, 101] ++ [0]) := rfl
theorem cstr_false : cstr (str "false") = 102 :: ([97, 108, 115, 101] ++ [0]) := rfl
theorem cstr_null : cstr (str "null") = 110 :: ([117, 108, 108] ++ [0]) := rfl

theorem mem_cstr (s : List Nat) : 0 ∈ cstr s := by
  simp [cstr]

/-- On NUL-terminated memory whose first character is the literal's first,
`lept_parse_literal` returns; it fails only with `LEPT_PARSE_INVALID_VALUE`, and
then leaves the value alone. -/
theorem literal_total {D : Type} (st : State D) (l0 : Nat) (lit : List Nat) (ty : lept_type)
    (rest : List Nat) (hjson : st.c.json = l0 :: rest) (hl0 : l0 ≠ 0) (h0 : 0 ∈ st.c.json) :
    ∃ ret st', lept_parse_literal st (l0 :: (lit ++ [0])) ty = .ok (ret, st') ∧
      0 ∈ st'.c.json ∧ st'.errno = st.errno ∧
      ((ret = LEPT_PARSE_OK ∧ st'.v.type = ty) ∨
        (ret = LEPT_PARSE_INVALID_VALUE ∧ st'.v = st.v)) := by
  have hrest : 0 ∈ rest := by
    rw [hjson] at h0
    exact mem_tail_of_ne h0 hl0
  obtain ⟨r, hr, hq⟩ := literal_loop_total lit rest hrest
  cases r with
  | none =>
    exact ⟨LEPT_PARSE_INVALID_VALUE, { st with c := { json := rest } },
      by simp [lept_parse_literal, EXPECT, hjson, hr], hrest, rfl, Or.inr ⟨rfl, rfl⟩⟩
  | some q =>
    exact ⟨LEPT_PARSE_OK, { st with c := { json := q }, v := { st.v with type := ty } },
      by simp [lept_parse_literal, EXPECT, hjson, hr], hq q rfl, rfl, Or.inl ⟨rfl, rfl⟩⟩

/-- What `lept_parse_number` does once the validation has accepted a span. -/
theorem number_of_validate {D : Type} (L : Libc D) (st : State D) (q : List Nat)
    (hr : lept_parse_number_validate st.c.json = .ok (some q)) :
    lept_parse_number L st =
      if strtod_overflows L st.c.json then
        .ok (LEPT_PARSE_NUMBER_TOO_BIG, { st with errno := (L.strtod st.c.json 0).2 })
      else
        .ok (LEPT_PARSE_OK,
          { c := { json := q }, v := { n := (L.strtod st.c.json 0).1, type := LEPT_NUMBER },
            errno := (L.strtod st.c.json 0).2 }) := by
  simp [lept_parse_number, hr, strtod_overflows]

theorem number_of_invalid {D : Type} (L : Libc D) (st : State D)
    (hr : lept_parse_number_validate st.c.json = .ok none) :
    lept_parse_number L st = .ok (LEPT_PARSE_INVALID_VALUE, st) := by
  simp [lept_parse_number, hr]

/-- On NUL-terminated memory `lept_parse_number` returns; when it fails it
leaves the context and the value alone. -/
theorem number_total {D : Type} (L : Libc D) (st : State D) (h0 : 0 ∈ st.c.json) :
    ∃ ret st', lept_parse_number L st = .ok (ret, st') ∧ 0 ∈ st'.c.json ∧
      ((ret = LEPT_PARSE_OK ∧ st'.v.type = LEPT_NUMBER) ∨
        (ret = LEPT_PARSE_INVALID_VALUE ∧ st' = st) ∨
        (ret = LEPT_PARSE_NUMBER_TOO_BIG ∧ st'.v = st.v ∧ st'.c = st.c)) := by
  obtain ⟨r, hr, hq⟩ := validate_total st.c.json h0
  cases r with
  | none =>
    exact ⟨LEPT_PARSE_INVALID_VALUE, st, number_of_invalid L st hr, h0,
      Or.inr (Or.inl ⟨rfl, rfl⟩)⟩
  | some q =>
    by_cases hb : strtod_overflows L st.c.json = true
    · exact ⟨LEPT_PARSE_NUMBER_TOO_BIG, { st with errno := (L.strtod st.c.json 0).2 },
        by simp [number_of_validate L st q hr, hb], h0, Or.inr (Or.inr ⟨rfl, rfl, rfl⟩)⟩
    · exact ⟨LEPT_PARSE_OK,
        { c := { json := q }, v := { n := (L.strtod st.c.json 0).1, type := LEPT_NUMBER },
          errno := (L.strtod st.c.json 0).2 },
        by simp [number_of_validate L st q hr, hb], hq q rfl, Or.inl ⟨rfl, rfl⟩⟩

/-- The dispatch of `lept_parse_value` on the first character. -/
theorem value_of_t {D : Type} (L : Libc D) (st : State D) (rest : List Nat)
    (hj : st.c.json = 't'.toNat :: rest) :
    lept_parse_value L st = lept_parse_literal st (116 :: ([114, 117, 101] ++ [0])) LEPT_TRUE := by
  rw [← cstr_true]
  simp [lept_parse_value, hj]

theorem value_of_f {D : Type} (L : Libc D) (st : State D) (rest : List Nat)
    (hj : st.c.json = 'f'.toNat :: rest) :
    lept_parse_value L st =
      lept_parse_literal st (102 :: ([97, 108, 115, 101] ++ [0])) LEPT_FALSE := by
  rw [← cstr_false]
  simp [lept_parse_value, hj]

theorem value_of_n {D : Type} (L : Libc D) (st : State D) (rest : List Nat)
    (hj : st.c.json = 'n'.toNat :: rest) :
    lept_parse_value L st = lept_parse_literal st (110 :: ([117, 108, 108] ++ [0])) LEPT_NULL := by
  rw [← cstr_null]
  simp [lept_parse_value, hj]

theorem value_of_nul {D : Type} (L : Libc D) (st : State D) (rest : List Nat)
    (hj : st.c.json = 0 :: rest) :
    lept_parse_value L st = .ok (LEPT_PARSE_EXPECT_VALUE, st) := by
  simp [lept_parse_value, hj]

theorem value_of_other {D : Type} (L : Libc D) (st : State D) (ch : Nat) (rest : List Nat)
    (hj : st.c.json = ch :: rest) (ht : ch ≠ 't'.toNat) (hf : ch ≠ 'f'.toNat)
    (hn : ch ≠ 'n'.toNat) (hz : ch ≠ 0) :
    lept_parse_value L st = lept_parse_number L st := by
  simp at ht hf hn
  simp [lept_parse_value, hj, ht, hf, hn, hz]

/-- On NUL-terminated memory `lept_parse_value` returns; when it fails the type
of the value is the one it had. -/
theorem value_total {D : Type} (L : Libc D) (st : State D) (h0 : 0 ∈ st.c.json) :
    ∃ ret st', lept_parse_value L st = .ok (ret, st') ∧ 0 ∈ st'.c.json ∧
      (ret ≠ LEPT_PARSE_OK → st'.v.type = st.v.type) := by
  cases hj : st.c.json with
  | nil => simp [hj] at h0
  | cons ch rest =>
    by_cases ht : ch = 116
    · subst ht
      obtain ⟨ret, st', h, hm, _, hv⟩ :=
        literal_total st 116 [114, 117, 101] LEPT_TRUE rest hj (by decide) h0
      refine ⟨ret, st', by rw [value_of_t L st rest hj, h], hm, ?_⟩
      rcases hv with ⟨h1, _⟩ | ⟨_, h2⟩
      · exact fun hne => absurd h1 hne
      · exact fun _ => by rw [h2]
    by_cases hf : ch = 102
    · subst hf
      obtain ⟨ret, st', h, hm, _, hv⟩ :=
        literal_total st 102 [97, 108, 115, 101] LEPT_FALSE rest hj (by decide) h0
      refine ⟨ret, st', by rw [value_of_f L st rest hj, h], hm, ?_⟩
      rcases hv with ⟨h1, _⟩ | ⟨_, h2⟩
      · exact fun hne => absurd h1 hne
      · exact fun _ => by rw [h2]
    by_cases hn : ch = 110
    · subst hn
      obtain ⟨ret, st', h, hm, _, hv⟩ :=
        literal_total st 110 [117, 108, 108] LEPT_NULL rest hj (by decide) h0
      refine ⟨ret, st', by rw [value_of_n L st rest hj, h], hm, ?_⟩
      rcases hv with ⟨h1, _⟩ | ⟨_, h2⟩
      · exact fun hne => absurd h1 hne
      · exact fun _ => by rw [h2]
    by_cases hz : ch = 0
    · subst hz
      exact ⟨LEPT_PARSE_EXPECT_VALUE, st, value_of_nul L st rest hj, h0, fun _ => rfl⟩
    · obtain ⟨ret, st', h, hm, hv⟩ := number_total L st h0
      refine ⟨ret, st', ?_, hm, ?_⟩
      · rw [value_of_other L st ch rest hj (by simpa using ht) (by simpa using hf)
          (by simpa using hn) hz, h]
      rcases hv with ⟨h1, _⟩ | ⟨_, h2⟩ | ⟨_, h2, _⟩
      · exact fun hne => absurd h1 hne
      · exact fun _ => by rw [h2]
      · exact fun _ => by rw [h2]

/-- C1: for every NUL-terminated input text, `lept_parse` returns, and when the
code it returns is not `LEPT_PARSE_OK` the type of the output value is
`LEPT_NULL`, whatever value `v` the caller passed in. -/
theorem lept_parse_failure_null {D : Type} (L : Libc D) (v : lept_value D) (s : List Nat)
    (errno : Nat) :
    ∃ ret st, lept_parse L v (cstr s) errno = .ok (ret, st) ∧
      (ret ≠ LEPT_PARSE_OK → st.v.type = LEPT_NULL) := by
  obtain ⟨p, hp, hp0⟩ := whitespace_loop_total (cstr s) (mem_cstr s)
  obtain ⟨ret, st, hv, hst0, hty⟩ :=
    value_total L { c := { json := p }, v := { v with type := LEPT_NULL }, errno := errno } hp0
  by_cases hret : ret = LEPT_PARSE_OK
  · obtain ⟨q, hq, hq0⟩ := whitespace_loop_total st.c.json hst0
    cases q with
    | nil => simp at hq0
    | cons ch q =>
      by_cases hch : ch = 0
      · exact ⟨ret, { st with c := { json := ch :: q } },
          by simp [lept_parse, lept_parse_whitespace, hp, hv, hret, hq, hch],
          fun hne => absurd hret hne⟩
      · exact ⟨LEPT_PARSE_ROOT_NOT_SINGULAR,
          { st with c := { json := ch :: q }, v := { st.v with type := LEPT_NULL } },
          by simp [lept_parse, lept_parse_whitespace, hp, hv, hret, hq, hch], fun _ => rfl⟩
  · exact ⟨ret, st, by simp [lept_parse, lept_parse_whitespace, hp, hv, hret],
      fun _ => by simpa using hty hret⟩

/-- The characters of a C string without NUL are what stands before the first
NUL of its buffer. -/
theorem cstr_split (s A Y : List Nat) (hs : 0 ∉ s) (h : cstr s = A ++ 0 :: Y) : s = A := by
  induction s generalizing A with
  | nil =>
    cases A with
    | nil => rfl
    | cons a A => simp [cstr] at h
  | cons x s ih =>
    have hx : x ≠ 0 := fun h0 => hs (by simp [h0])
    have hs2 : 0 ∉ s := fun h0 => hs (List.mem_cons_of_mem _ h0)
    cases A with
    | nil =>
      simp [cstr] at h
      exact absurd h.1 hx
    | cons a A =>
      simp only [cstr, List.cons_append, List.cons.injEq] at h
      rw [h.1, ih A hs2 h.2]

/-- What a run of `lept_parse` that returns `LEPT_PARSE_OK` went through: leading
whitespace, a value parsed with success, trailing whitespace, the NUL. -/
theorem lept_parse_ok_inv {D : Type} (L : Libc D) (v : lept_value D) (json : List Nat)
    (errno : Nat) (st : State D)
    (h : lept_parse L v json errno = .ok (LEPT_PARSE_OK, st)) :
    ∃ w1 p st1 w2 Y, json = w1 ++ p ∧ (∀ x ∈ w1, isspace x = true) ∧
      lept_parse_value L { c := { json := p }, v := { v with type := LEPT_NULL }, errno := errno }
        = .ok (LEPT_PARSE_OK, st1) ∧
      st1.c.json = w2 ++ 0 :: Y ∧ (∀ x ∈ w2, isspace x = true) ∧
      st = { st1 with c := { json := 0 :: Y } } := by
  cases h1 : lept_parse_whitespace_loop json with
  | error f => simp [lept_parse, lept_parse_whitespace, h1] at h
  | ok p =>
    obtain ⟨w1, _, _, hw1, hws1, _, _⟩ := whitespace_loop_ok json p h1
    cases h2 : lept_parse_value L
        { c := { json := p }, v := { v with type := LEPT_NULL }, errno := errno } with
    | error f => simp [lept_parse, lept_parse_whitespace, h1, h2] at h
    | ok r =>
      obtain ⟨ret, st1⟩ := r
      by_cases hret : ret = LEPT_PARSE_OK
      · subst hret
        cases h3 : lept_parse_whitespace_loop st1.c.json with
        | error f => simp [lept_parse, lept_parse_whitespace, h1, h2, h3] at h
        | ok q =>
          obtain ⟨w2, y, Y, hw2, hws2, hq, _⟩ := whitespace_loop_ok st1.c.json q h3
          subst hq
          by_cases hy : y = 0
          · subst hy
            simp [lept_parse, lept_parse_whitespace, h1, h2, h3] at h
            exact ⟨w1, p, st1, w2, Y, hw1, hws1, h2, hw2, hws2, h.symm⟩
          · simp [lept_parse, lept_parse_whitespace, h1, h2, h3, hy] at h
      · simp [lept_parse, lept_parse_whitespace, h1, h2, hret] at h

/-- A value of type `LEPT_NUMBER` comes out of `lept_parse_value` only through
`lept_parse_number`, whose validation has accepted the span up to the cursor. -/
theorem value_ok_number {D : Type} (L : Libc D) (st st' : State D)
    (h : lept_parse_value L st = .ok (LEPT_PARSE_OK, st')) (hty : st'.v.type = LEPT_NUMBER) :
    lept_parse_number_validate st.c.json = .ok (some st'.c.json) := by
  have lit : ∀ (literal : List Nat) (ty : lept_type), ty ≠ LEPT_NUMBER →
      lept_parse_literal st literal ty ≠ .ok (LEPT_PARSE_OK, st') := by
    intro literal ty hne hl
    unfold lept_parse_literal at hl
    split at hl
    · simp at hl
    · split at hl
      · simp at hl
      · split at hl
        · simp at hl
        · simp at hl
        · simp at hl
          rw [← hl] at hty
          exact hne hty
  cases hj : st.c.json with
  | nil => simp [lept_parse_value, hj] at h
  | cons ch rest =>
    by_cases ht : ch = 116
    · subst ht
      rw [value_of_t L st rest hj] at h
      exact absurd h (lit _ _ (by decide))
    by_cases hf : ch = 102
    · subst hf
      rw [value_of_f L st rest hj] at h
      exact absurd h (lit _ _ (by decide))
    by_cases hn : ch = 110
    · subst hn
      rw [value_of_n L st rest hj] at h
      exact absurd h (lit _ _ (by decide))
    by_cases hz : ch = 0
    · subst hz
      rw [value_of_nul L st rest hj] at h
      simp at h
    · rw [value_of_other L st ch rest hj (by simpa using ht) (by simpa using hf)
        (by simpa using hn) hz] at h
      rw [← hj]
      cases hv : lept_parse_number_validate st.c.json with
      | error f => simp [lept_parse_number, hv] at h
      | ok r =>
        cases r with
        | none => simp [number_of_invalid L st hv] at h
        | some q =>
          rw [number_of_validate L st q hv] at h
          by_cases hb : strtod_overflows L st.c.json = true
          · simp [hb] at h
          · simp [hb] at h
            rw [← h]

/-- C2: `lept_parse` returns `LEPT_PARSE_OK` with a value of type `LEPT_NUMBER`
only if the input text is `w1 ++ N ++ w2` with `w1`, `w2` runs of whitespace and
`N` a number of the grammar `["-"] int [frac] [exp]`. -/
theorem lept_parse_number_only_if {D : Type} (L : Libc D) (v : lept_value D) (s : List Nat)
    (errno : Nat) (st : State D) (hs : 0 ∉ s)
    (h : lept_parse L v (cstr s) errno = .ok (LEPT_PARSE_OK, st))
    (hty : st.v.type = LEPT_NUMBER) :
    ∃ w1 N w2, s = w1 ++ N ++ w2 ∧ (∀ x ∈ w1, isspace x = true) ∧
      (∀ x ∈ w2, isspace x = true) ∧ is_number N := by
  obtain ⟨w1, p, st1, w2, Y, hjson, hw1, hval, hst1, hw2, hst⟩ :=
    lept_parse_ok_inv L v (cstr s) errno st h
  have hty1 : st1.v.type = LEPT_NUMBER := by
    rw [hst] at hty
    exact hty
  have hv := value_ok_number L _ st1 hval hty1
  obtain ⟨N, hN, hnum⟩ := validate_ok p st1.c.json hv
  refine ⟨w1, N, w2, ?_, hw1, hw2, hnum⟩
  apply cstr_split s (w1 ++ N ++ w2) Y hs
  rw [hjson, hN, hst1]
  simp

/-- Witness of C2 on the text `  42  `. -/
theorem lept_parse_number_only_if_witness :
    ∃ w1 N w2, str "  42  " = w1 ++ N ++ w2 ∧ (∀ x ∈ w1, isspace x = true) ∧
      (∀ x ∈ w2, isspace x = true) ∧ is_number N :=
  lept_parse_number_only_if libc ⟨Dbl.fin false 0 10 0, LEPT_TRUE⟩ (str "  42  ") 0
    ⟨⟨[0]⟩, ⟨Dbl.fin false 42 10 0, LEPT_NUMBER⟩, 0⟩ (by decide) (by decide!) rfl

/-! ## `lept_parse`, phase by phase -/

/-- Leading whitespace is skipped. -/
theorem parse_skip_ws {D : Type} (L : Libc D) (v : lept_value D) (w p : List Nat) (errno : Nat)
    (hw : ∀ x ∈ w, isspace x = true) :
    lept_parse L v (w ++ p) errno = lept_parse L v p errno := by
  simp [lept_parse, lept_parse_whitespace, whitespace_loop_append w p hw]

/-- From a character that is no whitespace, `lept_parse` is `lept_parse_value`
and then, after a success, the trailing phase. -/
theorem parse_at_value {D : Type} (L : Libc D) (v : lept_value D) (y : Nat) (Y : List Nat)
    (errno : Nat) (hy : isspace y = false) :
    lept_parse L v (y :: Y) errno =
      match lept_parse_value L
          { c := { json := y :: Y }, v := { v with type := LEPT_NULL }, errno := errno } with
      | .error f => .error f
      | .ok (ret, st) => if ret = LEPT_PARSE_OK then lept_parse_trailing st else .ok (ret, st) := by
  simp only [lept_parse, lept_parse_whitespace, whitespace_loop_stop y Y hy, lept_parse_trailing]
  cases lept_parse_value L
      { c := { json := y :: Y }, v := { v with type := LEPT_NULL }, errno := errno } with
  | error f => rfl
  | ok r =>
    obtain ⟨ret, st⟩ := r
    by_cases hret : ret = LEPT_PARSE_OK
    · subst hret
      cases lept_parse_whitespace_loop st.c.json with
      | error f => rfl
      | ok q =>
        cases q with
        | nil => rfl
        | cons ch q => simp
    · simp [hret]

/-- The trailing phase at the end of the text. -/
theorem trailing_end {D : Type} (st : State D) (w : List Nat) (Y : List Nat)
    (hj : st.c.json = w ++ 0 :: Y) (hw : ∀ x ∈ w, isspace x = true) :
    lept_parse_trailing st = .ok (LEPT_PARSE_OK, { st with c := { json := 0 :: Y } }) := by
  simp [lept_parse_trailing, lept_parse_whitespace, hj, whitespace_loop_append w _ hw,
    whitespace_loop_stop 0 Y isspace_zero]

/-- The trailing phase before further text. -/
theorem trailing_more {D : Type} (st : State D) (w : List Nat) (y : Nat) (Y : List Nat)
    (hj : st.c.json = w ++ y :: Y) (hw : ∀ x ∈ w, isspace x = true) (hy : isspace y = false)
    (hy0 : y ≠ 0) :
    lept_parse_trailing st = .ok (LEPT_PARSE_ROOT_NOT_SINGULAR,
      { st with c := { json := y :: Y }, v := { st.v with type := LEPT_NULL } }) := by
  simp [lept_parse_trailing, lept_parse_whitespace, hj, whitespace_loop_append w _ hw,
    whitespace_loop_stop y Y hy, hy0]

/-- A number of the grammar starts with `-` or a digit. -/
theorem is_number_head (N : List Nat) (hN : is_number N) :
    ∃ d N', N = d :: N' ∧ (is_digit d ∨ d = '-'.toNat) := by
  obtain ⟨sg, i, f, e, rfl, hsg, hi, _, _⟩ := hN
  obtain ⟨d, ds, rfl, hd⟩ := is_int_head i hi
  rcases hsg with rfl | rfl
  · exact ⟨d, ds ++ (f ++ e), by simp, Or.inl hd⟩
  · exact ⟨'-'.toNat, d :: ds ++ (f ++ e), by simp, Or.inr rfl⟩

/-- A digit or `-` is no whitespace and none of `t`, `f`, `n`, NUL. -/
theorem number_head_other (d : Nat) (hd : is_digit d ∨ d = '-'.toNat) :
    isspace d = false ∧ d ≠ 't'.toNat ∧ d ≠ 'f'.toNat ∧ d ≠ 'n'.toNat ∧ d ≠ 0 := by
  simp [is_digit, isspace] at hd ⊢
  omega

/-- Whitespace and NUL stop a number. -/
theorem number_stop_of_space (y : Nat) (hy : isspace y = true ∨ y = 0) : number_stop y := by
  simp [number_stop, is_digit, isspace] at hy ⊢
  omega

/-- The run of `lept_parse` from a digit or `-`, when the validation accepts a span. -/
theorem parse_at_validated {D : Type} (L : Libc D) (v : lept_value D) (d : Nat)
    (p q : List Nat) (errno : Nat) (hd : is_digit d ∨ d = '-'.toNat)
    (hval : lept_parse_number_validate (d :: p) = .ok (some q)) :
    lept_parse L v (d :: p) errno =
      if strtod_overflows L (d :: p) then
        .ok (LEPT_PARSE_NUMBER_TOO_BIG,
          { c := { json := d :: p }, v := { v with type := LEPT_NULL },
            errno := (L.strtod (d :: p) 0).2 })
      else
        lept_parse_trailing
          { c := { json := q },
            v := { n := (L.strtod (d :: p) 0).1, type := LEPT_NUMBER },
            errno := (L.strtod (d :: p) 0).2 } := by
  obtain ⟨h1, h2, h3, h4, h5⟩ := number_head_other d hd
  rw [parse_at_value L v d _ errno h1, value_of_other L _ d _ rfl h2 h3 h4 h5,
    number_of_validate L _ q hval]
  by_cases hb : strtod_overflows L (d :: p) = true
  · simp [hb]
  · simp [hb]

/-- The run of `lept_parse` from a digit or `-`, when the validation rejects the text. -/
theorem parse_at_invalid {D : Type} (L : Libc D) (v : lept_value D) (d : Nat)
    (p : List Nat) (errno : Nat) (hd : is_digit d ∨ d = '-'.toNat)
    (hval : lept_parse_number_validate (d :: p) = .ok none) :
    lept_parse L v (d :: p) errno =
      .ok (LEPT_PARSE_INVALID_VALUE,
        { c := { json := d :: p }, v := { v with type := LEPT_NULL }, errno := errno }) := by
  obtain ⟨h1, h2, h3, h4, h5⟩ := number_head_other d hd
  rw [parse_at_value L v d _ errno h1, value_of_other L _ d _ rfl h2 h3 h4 h5,
    number_of_invalid L _ hval]
  simp

/-- The run of `lept_parse` on a text that starts with a number of the grammar, followed
by a character that cannot continue it. -/
theorem parse_at_number {D : Type} (L : Libc D) (v : lept_value D) (N : List Nat) (y : Nat)
    (Y : List Nat) (errno : Nat) (hN : is_number N) (hy : number_stop y) :
    lept_parse L v (N ++ y :: Y) errno =
      if strtod_overflows L (N ++ y :: Y) then
        .ok (LEPT_PARSE_NUMBER_TOO_BIG,
          { c := { json := N ++ y :: Y }, v := { v with type := LEPT_NULL },
            errno := (L.strtod (N ++ y :: Y) 0).2 })
      else
        lept_parse_trailing
          { c := { json := y :: Y },
            v := { n := (L.strtod (N ++ y :: Y) 0).1, type := LEPT_NUMBER },
            errno := (L.strtod (N ++ y :: Y) 0).2 } := by
  obtain ⟨d, N', hd, hdd⟩ := is_number_head N hN
  have hval := validate_complete N y Y hN hy
  have hcons : N ++ y :: Y = d :: (N' ++ y :: Y) := by simp [hd]
  rw [hcons] at hval ⊢
  exact parse_at_validated L v d _ (y :: Y) errno hdd hval

/-- C3: for every number `N` of the grammar and all runs of whitespace `w1`,
`w2`, `lept_parse` on `w1 ++ N ++ w2` returns, and it returns either
`LEPT_PARSE_OK` with a value of type `LEPT_NUMBER` or `LEPT_PARSE_NUMBER_TOO_BIG`
(so none of ExpectValue, InvalidValue, RootNotSingular). -/
theorem lept_parse_number_accepts {D : Type} (L : Libc D) (v : lept_value D) (errno : Nat)
    (w1 N w2 : List Nat) (hN : is_number N) (hw1 : ∀ x ∈ w1, isspace x = true)
    (hw2 : ∀ x ∈ w2, isspace x = true) :
    ∃ ret st, lept_parse L v (cstr (w1 ++ N ++ w2)) errno = .ok (ret, st) ∧
      ((ret = LEPT_PARSE_OK ∧ st.v.type = LEPT_NUMBER) ∨ ret = LEPT_PARSE_NUMBER_TOO_BIG) := by
  obtain ⟨y, Y, hyY, hy⟩ : ∃ y Y, w2 ++ [0] = y :: Y ∧ (isspace y = true ∨ y = 0) := by
    cases w2 with
    | nil => exact ⟨0, [], rfl, Or.inr rfl⟩
    | cons x w => exact ⟨x, w ++ [0], by simp, Or.inl (hw2 x (List.mem_cons_self _ _))⟩
  have hmem : cstr (w1 ++ N ++ w2) = w1 ++ (N ++ y :: Y) := by
    simp [cstr, ← hyY]
  rw [hmem, parse_skip_ws L v w1 _ errno hw1,
    parse_at_number L v N y Y errno hN (number_stop_of_space y hy)]
  by_cases hb : strtod_overflows L (N ++ y :: Y) = true
  · exact ⟨LEPT_PARSE_NUMBER_TOO_BIG,
      { c := { json := N ++ y :: Y }, v := { v with type := LEPT_NULL },
        errno := (L.strtod (N ++ y :: Y) 0).2 }, by simp [hb], Or.inr rfl⟩
  · refine ⟨LEPT_PARSE_OK,
      { c := { json := [0] },
        v := { n := (L.strtod (N ++ y :: Y) 0).1, type := LEPT_NUMBER },
        errno := (L.strtod (N ++ y :: Y) 0).2 }, ?_, Or.inl ⟨rfl, rfl⟩⟩
    simp only [hb]
    exact trailing_end _ w2 [] (by simp [← hyY]) hw2

/-- Witness of C3 on the text `  1e10 ` (the number `1e10`). -/
theorem lept_parse_number_accepts_witness :
    ∃ ret st, lept_parse libc ⟨Dbl.fin false 0 10 0, LEPT_TRUE⟩
        (cstr (str "  " ++ str "1e10" ++ str " ")) 0 = .ok (ret, st) ∧
      ((ret = LEPT_PARSE_OK ∧ st.v.type = LEPT_NUMBER) ∨ ret = LEPT_PARSE_NUMBER_TOO_BIG) :=
  lept_parse_number_accepts libc ⟨Dbl.fin false 0 10 0, LEPT_TRUE⟩ 0 (str "  ") (str "1e10")
    (str " ")
    ⟨[], str "1", [], str "e10", rfl, Or.inl rfl, Or.inr ⟨49, [], rfl, by decide, by simp⟩,
      Or.inl rfl, Or.inr ⟨101, [], str "10", rfl, Or.inl rfl, Or.inl rfl, by decide, by decide⟩⟩
    (by decide) (by decide)

/-! ## A leading zero -/

/-- After a `0` the integer part is over: the validation accepts `["-"] "0"` and
stops, whatever follows that is none of `.`, `e`, `E`. -/
theorem validate_zero (sg : List Nat) (y : Nat) (Y : List Nat)
    (hsg : sg = [] ∨ sg = ['-'.toNat])
    (hy : y ≠ '.'.toNat ∧ y ≠ 'e'.toNat ∧ y ≠ 'E'.toNat) :
    lept_parse_number_validate (sg ++ '0'.toNat :: y :: Y) = .ok (some (y :: Y)) := by
  have h1 := negative_complete sg '0'.toNat (y :: Y) hsg (by decide)
  have h3 := frac_skip y Y hy.1
  have h4 := exp_skip y Y hy.2
  have h2 : lept_parse_number_int ('0'.toNat :: y :: Y) = .ok (some (y :: Y)) := by
    simp [lept_parse_number_int]
  simp only [lept_parse_number_validate, h1, h2, h3, h4]

/-- C4, as amended: on a text whose first characters after the whitespace are an
optional `-` and a `0` followed by a digit, the validation accepts the `0` as the
number and stops on the digit; so, when `strtod` reports no overflow for the
text, `lept_parse` fails with `LEPT_PARSE_ROOT_NOT_SINGULAR` (not
`LEPT_PARSE_INVALID_VALUE`) and the type of the value is `LEPT_NULL`. -/
theorem lept_parse_leading_zero {D : Type} (L : Libc D) (v : lept_value D) (errno : Nat)
    (w1 sg : List Nat) (d : Nat) (rest : List Nat) (hw1 : ∀ x ∈ w1, isspace x = true)
    (hsg : sg = [] ∨ sg = ['-'.toNat]) (hd : is_digit d)
    (hov : strtod_overflows L (cstr (sg ++ '0'.toNat :: d :: rest)) = false) :
    lept_parse_number_validate (cstr (sg ++ '0'.toNat :: d :: rest)) =
        .ok (some (cstr (d :: rest))) ∧
      ∃ st, lept_parse L v (cstr (w1 ++ sg ++ '0'.toNat :: d :: rest)) errno =
        .ok (LEPT_PARSE_ROOT_NOT_SINGULAR, st) ∧ st.v.type = LEPT_NULL := by
  have hdn : d ≠ '.'.toNat ∧ d ≠ 'e'.toNat ∧ d ≠ 'E'.toNat := by
    simp [is_digit] at hd ⊢
    omega
  have hval := validate_zero sg d (rest ++ [0]) hsg hdn
  obtain ⟨c0, p, hp, hc⟩ : ∃ c0 p, sg ++ '0'.toNat :: d :: (rest ++ [0]) = c0 :: p ∧
      (is_digit c0 ∨ c0 = '-'.toNat) := by
    rcases hsg with rfl | rfl
    · exact ⟨'0'.toNat, d :: (rest ++ [0]), rfl, Or.inl (by decide)⟩
    · exact ⟨'-'.toNat, '0'.toNat :: d :: (rest ++ [0]), rfl, Or.inr rfl⟩
  have hmem : cstr (w1 ++ sg ++ '0'.toNat :: d :: rest) =
      w1 ++ (sg ++ '0'.toNat :: d :: (rest ++ [0])) := by
    simp [cstr]
  have hmem2 : cstr (sg ++ '0'.toNat :: d :: rest) = sg ++ '0'.toNat :: d :: (rest ++ [0]) := by
    simp [cstr]
  have hmem3 : cstr (d :: rest) = d :: (rest ++ [0]) := rfl
  refine ⟨by rw [hmem2, hmem3]; exact hval, ?_⟩
  rw [hmem2, hp] at hov
  rw [hp] at hval
  rw [hmem, parse_skip_ws L v w1 _ errno hw1, hp,
    parse_at_validated L v c0 p (d :: (rest ++ [0])) errno hc hval]
  have hds : isspace d = false ∧ d ≠ 0 := by
    simp [is_digit, isspace] at hd ⊢
    omega
  refine ⟨
    { c := { json := d :: (rest ++ [0]) },
      v := { n := (L.strtod (c0 :: p) 0).1, type := LEPT_NULL },
      errno := (L.strtod (c0 :: p) 0).2 }, ?_, rfl⟩
  simp only [hov]
  exact trailing_more _ [] d (rest ++ [0]) rfl (by simp) hds.1 hds.2

/-- Witness of C4 as amended, on the text ` -012`. -/
theorem lept_parse_leading_zero_witness :
    lept_parse_number_validate (cstr (str "-" ++ '0'.toNat :: '1'.toNat :: str "2")) =
        .ok (some (cstr ('1'.toNat :: str "2"))) ∧
      ∃ st, lept_parse libc ⟨Dbl.fin false 0 10 0, LEPT_TRUE⟩
        (cstr (str " " ++ str "-" ++ '0'.toNat :: '1'.toNat :: str "2")) 0 =
        .ok (LEPT_PARSE_ROOT_NOT_SINGULAR, st) ∧ st.v.type = LEPT_NULL :=
  lept_parse_leading_zero libc ⟨Dbl.fin false 0 10 0, LEPT_TRUE⟩ 0 (str " ") (str "-")
    '1'.toNat (str "2") (by decide) (Or.inr rfl) (by decide) (by decide!)

/-- Counterexample to C4 as stated: on the text `0123`, with a value that was
`LEPT_TRUE` before the call, `lept_parse` returns `LEPT_PARSE_ROOT_NOT_SINGULAR`
with the cursor on `123`, and so not `LEPT_PARSE_INVALID_VALUE`. -/
theorem lept_parse_leading_zero_counterexample :
    lept_parse libc ⟨Dbl.fin false 0 10 0, LEPT_TRUE⟩ (cstr (str "0123")) 0 =
        .ok (LEPT_PARSE_ROOT_NOT_SINGULAR,
          ⟨⟨cstr (str "123")⟩, ⟨Dbl.fin false 123 10 0, LEPT_NULL⟩, 0⟩) ∧
      ∀ st, lept_parse libc ⟨Dbl.fin false 0 10 0, LEPT_TRUE⟩ (cstr (str "0123")) 0 ≠
        .ok (LEPT_PARSE_INVALID_VALUE, st) := by
  have h : lept_parse libc ⟨Dbl.fin false 0 10 0, LEPT_TRUE⟩ (cstr (str "0123")) 0 =
      .ok (LEPT_PARSE_ROOT_NOT_SINGULAR,
        ⟨⟨cstr (str "123")⟩, ⟨Dbl.fin false 123 10 0, LEPT_NULL⟩, 0⟩) := by decide!
  refine ⟨h, ?_⟩
  intro st hst
  rw [h] at hst
  simp at hst

/-! ## Literals, from `lept_parse` -/

/-- The run of `lept_parse_literal` on a text that starts with the literal. -/
theorem literal_match {D : Type} (st : State D) (l0 : Nat) (lit rest : List Nat)
    (ty : lept_type) (hj : st.c.json = l0 :: (lit ++ rest)) (h0 : 0 ∉ lit) :
    lept_parse_literal st (l0 :: (lit ++ [0])) ty =
      .ok (LEPT_PARSE_OK, { st with c := { json := rest }, v := { st.v with type := ty } }) := by
  simp [lept_parse_literal, EXPECT, hj, literal_loop_match lit rest h0]

/-- The run of `lept_parse_literal` on a text that starts with the literal's first
character and does not go on with the rest of the literal. -/
theorem literal_mismatch {D : Type} (st : State D) (l0 : Nat) (lit json : List Nat)
    (ty : lept_type) (hj : st.c.json = l0 :: json) (h0 : 0 ∉ lit) (hjson : 0 ∈ json)
    (hp : ¬ lit <+: json) :
    lept_parse_literal st (l0 :: (lit ++ [0])) ty =
      .ok (LEPT_PARSE_INVALID_VALUE, { st with c := { json := json } }) := by
  simp [lept_parse_literal, EXPECT, hj, literal_loop_mismatch lit json h0 hjson hp]

/-- The run of `lept_parse_value` on a text that starts with a keyword. -/
theorem value_keyword {D : Type} (L : Libc D) (st : State D) (kw : List Nat) (ty : lept_type)
    (rest : List Nat) (hk : is_keyword kw ty) (hj : st.c.json = kw ++ rest) :
    lept_parse_value L st =
      .ok (LEPT_PARSE_OK, { st with c := { json := rest }, v := { st.v with type := ty } }) := by
  rcases hk with ⟨rfl, rfl⟩ | ⟨rfl, rfl⟩ | ⟨rfl, rfl⟩
  · have hj2 : st.c.json = 't'.toNat :: ([114, 117, 101] ++ rest) := by rw [hj]; rfl
    rw [value_of_t L st _ hj2]
    exact literal_match st _ _ rest _ hj2 (by decide)
  · have hj2 : st.c.json = 'f'.toNat :: ([97, 108, 115, 101] ++ rest) := by rw [hj]; rfl
    rw [value_of_f L st _ hj2]
    exact literal_match st _ _ rest _ hj2 (by decide)
  · have hj2 : st.c.json = 'n'.toNat :: ([117, 108, 108] ++ rest) := by rw [hj]; rfl
    rw [value_of_n L st _ hj2]
    exact literal_match st _ _ rest _ hj2 (by decide)

/-- A keyword starts with a character that is no whitespace. -/
theorem keyword_head (kw : List Nat) (ty : lept_type) (hk : is_keyword kw ty) :
    ∃ c k, kw = c :: k ∧ isspace c = false := by
  rcases hk with ⟨rfl, _⟩ | ⟨rfl, _⟩ | ⟨rfl, _⟩
  · exact ⟨116, [114, 117, 101], rfl, by decide⟩
  · exact ⟨102, [97, 108, 115, 101], rfl, by decide⟩
  · exact ⟨110, [117, 108, 108], rfl, by decide⟩

/-- The run of `lept_parse` on a text that starts with a keyword. -/
theorem parse_at_keyword {D : Type} (L : Libc D) (v : lept_value D) (errno : Nat)
    (kw : List Nat) (ty : lept_type) (rest : List Nat) (hk : is_keyword kw ty) :
    lept_parse L v (kw ++ rest) errno =
      lept_parse_trailing
        { c := { json := rest }, v := { v with type := ty }, errno := errno } := by
  obtain ⟨c0, k, hkw, hc⟩ := keyword_head kw ty hk
  have hv := value_keyword L
    { c := { json := c0 :: (k ++ rest) }, v := { v with type := LEPT_NULL }, errno := errno }
    kw ty rest hk (by simp [hkw])
  have hcons : kw ++ rest = c0 :: (k ++ rest) := by simp [hkw]
  rw [hcons, parse_at_value L v c0 _ errno hc, hv]
  simp

/-- C5: for every literal `true`, `false`, `null` and all runs of whitespace
`w1`, `w2`, `lept_parse` on `w1 ++ literal ++ w2` returns `LEPT_PARSE_OK` and the
type of the value is `LEPT_TRUE`, `LEPT_FALSE`, `LEPT_NULL` respectively. -/
theorem lept_parse_literal_accepts {D : Type} (L : Libc D) (v : lept_value D) (errno : Nat)
    (w1 w2 kw : List Nat) (ty : lept_type) (hw1 : ∀ x ∈ w1, isspace x = true)
    (hw2 : ∀ x ∈ w2, isspace x = true)
    (hk : (kw = str "true" ∧ ty = LEPT_TRUE) ∨ (kw = str "false" ∧ ty = LEPT_FALSE) ∨
      (kw = str "null" ∧ ty = LEPT_NULL)) :
    ∃ st, lept_parse L v (cstr (w1 ++ kw ++ w2)) errno = .ok (LEPT_PARSE_OK, st) ∧
      st.v.type = ty := by
  have hmem : cstr (w1 ++ kw ++ w2) = w1 ++ (kw ++ (w2 ++ [0])) := by
    simp [cstr]
  rw [hmem, parse_skip_ws L v w1 _ errno hw1, parse_at_keyword L v errno kw ty _ hk]
  exact ⟨_, trailing_end _ w2 [] rfl hw2, rfl⟩

/-- Witness of C5 on the text ` false  `. -/
theorem lept_parse_literal_accepts_witness :
    ∃ st, lept_parse libc ⟨Dbl.fin false 0 10 0, LEPT_NUMBER⟩
        (cstr (str " " ++ str "false" ++ str "  ")) 0 = .ok (LEPT_PARSE_OK, st) ∧
      st.v.type = LEPT_FALSE :=
  lept_parse_literal_accepts libc ⟨Dbl.fin false 0 10 0, LEPT_NUMBER⟩ 0 (str " ") (str "  ")
    (str "false") LEPT_FALSE (by decide) (by decide) (Or.inr (Or.inl ⟨rfl, rfl⟩))

/-! ## The codes each function returns -/

theorem literal_codes {D : Type} (st st' : State D) (literal : List Nat) (ty : lept_type)
    (ret : lept_code) (h : lept_parse_literal st literal ty = .ok (ret, st')) :
    ret = LEPT_PARSE_OK ∨ ret = LEPT_PARSE_INVALID_VALUE := by
  unfold lept_parse_literal at h
  split at h
  · simp at h
  · split at h
    · simp at h
    · split at h
      · simp at h
      · simp at h
        exact Or.inr h.1.symm
      · simp at h
        exact Or.inl h.1.symm

theorem number_codes {D : Type} (L : Libc D) (st st' : State D) (ret : lept_code)
    (h : lept_parse_number L st = .ok (ret, st')) :
    ret = LEPT_PARSE_OK ∨ ret = LEPT_PARSE_INVALID_VALUE ∨ ret = LEPT_PARSE_NUMBER_TOO_BIG := by
  unfold lept_parse_number at h
  split at h
  · simp at h
  · simp at h
    exact Or.inr (Or.inl h.1.symm)
  · simp only at h
    split at h
    · simp at h
      exact Or.inr (Or.inr h.1.symm)
    · simp at h
      exact Or.inl h.1.symm

theorem trailing_codes {D : Type} (st st' : State D) (ret : lept_code)
    (h : lept_parse_trailing st = .ok (ret, st')) :
    ret = LEPT_PARSE_OK ∨ ret = LEPT_PARSE_ROOT_NOT_SINGULAR := by
  unfold lept_parse_trailing at h
  split at h
  · simp at h
  · split at h
    · simp at h
    · split at h
      · simp at h
        exact Or.inr h.1.symm
      · simp at h
        exact Or.inl h.1.symm

/-- The function `lept_parse_value` returns `LEPT_PARSE_EXPECT_VALUE` only at the NUL. -/
theorem value_expect {D : Type} (L : Libc D) (st st' : State D)
    (h : lept_parse_value L st = .ok (LEPT_PARSE_EXPECT_VALUE, st')) :
    ∃ rest, st.c.json = 0 :: rest := by
  cases hj : st.c.json with
  | nil => simp [lept_parse_value, hj] at h
  | cons ch rest =>
    by_cases ht : ch = 116
    · subst ht
      rw [value_of_t L st rest hj] at h
      rcases literal_codes _ _ _ _ _ h with h1 | h1 <;> simp at h1
    by_cases hf : ch = 102
    · subst hf
      rw [value_of_f L st rest hj] at h
      rcases literal_codes _ _ _ _ _ h with h1 | h1 <;> simp at h1
    by_cases hn : ch = 110
    · subst hn
      rw [value_of_n L st rest hj] at h
      rcases literal_codes _ _ _ _ _ h with h1 | h1 <;> simp at h1
    by_cases hz : ch = 0
    · exact ⟨rest, by rw [hz]⟩
    · rw [value_of_other L st ch rest hj (by simpa using ht) (by simpa using hf)
        (by simpa using hn) hz] at h
      rcases number_codes _ _ _ _ h with h1 | h1 | h1 <;> simp at h1

/-- C6: for a text without NUL, `lept_parse` returns `LEPT_PARSE_EXPECT_VALUE`
exactly when the text is empty or made of whitespace only (the class of
`isspace`: space, `\t`, `\n`, `\v`, `\f`, `\r`). -/
theorem lept_parse_expect_value_iff {D : Type} (L : Libc D) (v : lept_value D) (s : List Nat)
    (errno : Nat) (hs : 0 ∉ s) :
    (∃ st, lept_parse L v (cstr s) errno = .ok (LEPT_PARSE_EXPECT_VALUE, st)) ↔
      ∀ x ∈ s, isspace x = true := by
  constructor
  · rintro ⟨st, h⟩
    obtain ⟨p, hp, _⟩ := whitespace_loop_total (cstr s) (mem_cstr s)
    obtain ⟨w, y, Y, hmem, hw, rfl, hy⟩ := whitespace_loop_ok (cstr s) p hp
    rw [hmem, parse_skip_ws L v w _ errno hw, parse_at_value L v y Y errno hy] at h
    cases hv : lept_parse_value L
        { c := { json := y :: Y }, v := { v with type := LEPT_NULL }, errno := errno } with
    | error f => simp [hv] at h
    | ok r =>
      obtain ⟨ret, st1⟩ := r
      simp only [hv] at h
      by_cases hret : ret = LEPT_PARSE_OK
      · simp only [hret, if_true] at h
        rcases trailing_codes _ _ _ h with h1 | h1 <;> simp at h1
      · simp only [hret, if_false] at h
        simp at h
        rw [h.1] at hv
        obtain ⟨rest, hrest⟩ := value_expect L _ _ hv
        simp at hrest
        rw [hrest.1] at hmem
        rw [cstr_split s w Y hs hmem]
        exact hw
  · intro hw
    have hmem : cstr s = s ++ 0 :: [] := rfl
    rw [hmem, parse_skip_ws L v s _ errno hw, parse_at_value L v 0 [] errno isspace_zero,
      value_of_nul L _ [] rfl]
    exact ⟨{ c := { json := [0] }, v := { v with type := LEPT_NULL }, errno := errno },
      by simp⟩

/-- Witness of C6 on the text of a space, a tab and a newline. -/
theorem lept_parse_expect_value_iff_witness :
    (∃ st, lept_parse libc ⟨Dbl.fin false 0 10 0, LEPT_TRUE⟩ (cstr [32, 9, 10]) 0 =
        .ok (LEPT_PARSE_EXPECT_VALUE, st)) ↔ ∀ x ∈ [32, 9, 10], isspace x = true :=
  lept_parse_expect_value_iff libc ⟨Dbl.fin false 0 10 0, LEPT_TRUE⟩ [32, 9, 10] 0 (by decide)

/-! ## Text after the value -/

/-- C7: on a text `w1 ++ V ++ w2 ++ r` where `w1`, `w2` are runs of whitespace,
`r` begins with a character of the text (not NUL) that is no whitespace, and `V`
is either a literal `true`, `false`, `null` or a number of the grammar followed
by whitespace (`w2` not empty) for which `strtod` reports no overflow,
`lept_parse` returns `LEPT_PARSE_ROOT_NOT_SINGULAR` and the type of the value is
`LEPT_NULL`. -/
theorem lept_parse_root_not_singular {D : Type} (L : Libc D) (v : lept_value D) (errno : Nat)
    (w1 V w2 : List Nat) (c : Nat) (r : List Nat) (hw1 : ∀ x ∈ w1, isspace x = true)
    (hw2 : ∀ x ∈ w2, isspace x = true) (hc : isspace c = false) (hc0 : c ≠ 0)
    (hV : (V = str "true" ∨ V = str "false" ∨ V = str "null") ∨
      (is_number V ∧ w2 ≠ [] ∧ strtod_overflows L (cstr (V ++ w2 ++ c :: r)) = false)) :
    ∃ st, lept_parse L v (cstr (w1 ++ V ++ w2 ++ c :: r)) errno =
        .ok (LEPT_PARSE_ROOT_NOT_SINGULAR, st) ∧ st.v.type = LEPT_NULL := by
  have hmem : cstr (w1 ++ V ++ w2 ++ c :: r) = w1 ++ (V ++ (w2 ++ c :: (r ++ [0]))) := by
    simp [cstr]
  rw [hmem, parse_skip_ws L v w1 _ errno hw1]
  rcases hV with hlit | ⟨hN, hne, hov⟩
  · obtain ⟨ty, hk⟩ : ∃ ty, is_keyword V ty := by
      rcases hlit with h | h | h
      · exact ⟨LEPT_TRUE, Or.inl ⟨h, rfl⟩⟩
      · exact ⟨LEPT_FALSE, Or.inr (Or.inl ⟨h, rfl⟩)⟩
      · exact ⟨LEPT_NULL, Or.inr (Or.inr ⟨h, rfl⟩)⟩
    rw [parse_at_keyword L v errno V ty _ hk]
    exact ⟨_, trailing_more _ w2 c (r ++ [0]) rfl hw2 hc hc0, rfl⟩
  · obtain ⟨y, Y, rfl⟩ : ∃ y Y, w2 = y :: Y := by
      cases w2 with
      | nil => exact absurd rfl hne
      | cons y Y => exact ⟨y, Y, rfl⟩
    have hy : isspace y = true := hw2 y (List.mem_cons_self _ _)
    have hY : ∀ x ∈ Y, isspace x = true := fun x hx => hw2 x (List.mem_cons_of_mem _ hx)
    have hmem2 : cstr (V ++ y :: Y ++ c :: r) = V ++ y :: (Y ++ c :: (r ++ [0])) := by
      simp [cstr]
    rw [hmem2] at hov
    have hcons : V ++ (y :: Y ++ c :: (r ++ [0])) = V ++ y :: (Y ++ c :: (r ++ [0])) := by
      simp
    rw [hcons, parse_at_number L v V y _ errno hN (number_stop_of_space y (Or.inl hy))]
    simp only [hov]
    exact ⟨_, trailing_more _ (y :: Y) c (r ++ [0]) rfl hw2 hc hc0, rfl⟩

/-- Witness of C7 on the text `1 2`. -/
theorem lept_parse_root_not_singular_witness :
    ∃ st, lept_parse libc ⟨Dbl.fin false 0 10 0, LEPT_TRUE⟩
        (cstr ([] ++ str "1" ++ str " " ++ '2'.toNat :: [])) 0 =
        .ok (LEPT_PARSE_ROOT_NOT_SINGULAR, st) ∧ st.v.type = LEPT_NULL :=
  lept_parse_root_not_singular libc ⟨Dbl.fin false 0 10 0, LEPT_TRUE⟩ 0 [] (str "1") (str " ")
    '2'.toNat [] (by decide) (by decide) (by decide) (by decide)
    (Or.inr ⟨⟨[], str "1", [], [], rfl, Or.inl rfl, Or.inr ⟨49, [], rfl, by decide, by simp⟩,
      Or.inl rfl, Or.inl rfl⟩, by decide, by decide!⟩)

/-! ## Broken literals -/

/-- A literal without NUL that is a prefix of a buffer up to its NUL is a prefix
of the text. -/
theorem prefix_of_prefix_cstr (lit r : List Nat) (h0 : 0 ∉ lit) (h : lit <+: r ++ [0]) :
    lit <+: r := by
  induction lit generalizing r with
  | nil => exact List.nil_prefix
  | cons l lit ih =>
    have hl : l ≠ 0 := fun h1 => h0 (by simp [h1])
    have h2 : 0 ∉ lit := fun h1 => h0 (List.mem_cons_of_mem _ h1)
    cases r with
    | nil =>
      obtain ⟨t, ht⟩ := h
      simp at ht
      exact absurd ht.1 hl
    | cons x r =>
      obtain ⟨t, ht⟩ := h
      simp only [List.cons_append, List.cons.injEq] at ht
      obtain ⟨rfl, ht2⟩ := ht
      exact (List.prefix_cons_inj l).mpr (ih r h2 ⟨t, ht2⟩)

/-- The run of `lept_parse` on a text that starts with the first character of a keyword
and is not the keyword. -/
theorem parse_at_broken_keyword {D : Type} (L : Libc D) (v : lept_value D) (errno : Nat)
    (kw : List Nat) (ty : lept_type) (c : Nat) (rest : List Nat) (hk : is_keyword kw ty)
    (hc : kw.head? = some c) (hp : ¬ kw <+: c :: rest) :
    lept_parse L v (cstr (c :: rest)) errno =
      .ok (LEPT_PARSE_INVALID_VALUE,
        { c := { json := cstr rest }, v := { v with type := LEPT_NULL }, errno := errno }) := by
  have hmem : cstr (c :: rest) = c :: (rest ++ [0]) := rfl
  have key : ∀ (k : List Nat), kw = c :: k → 0 ∉ k → isspace c = false →
      (∀ st : State D, st.c.json = c :: (rest ++ [0]) →
        lept_parse_value L st = lept_parse_literal st (c :: (k ++ [0])) ty) →
      lept_parse L v (cstr (c :: rest)) errno =
        .ok (LEPT_PARSE_INVALID_VALUE,
          { c := { json := cstr rest }, v := { v with type := LEPT_NULL }, errno := errno }) := by
    intro k hkw hk0 hsp hval
    have hpk : ¬ k <+: rest ++ [0] := by
      intro hh
      apply hp
      rw [hkw]
      exact (List.prefix_cons_inj c).mpr (prefix_of_prefix_cstr k rest hk0 hh)
    rw [hmem, parse_at_value L v c _ errno hsp, hval _ rfl,
      literal_mismatch _ c k (rest ++ [0]) ty rfl hk0 (by simp) hpk]
    simp [cstr]
  rcases hk with ⟨rfl, rfl⟩ | ⟨rfl, rfl⟩ | ⟨rfl, rfl⟩
  · have hc2 : c = 116 := by simpa [str] using hc.symm
    subst hc2
    exact key [114, 117, 101] rfl (by decide) (by decide)
      (fun st hst => value_of_t L st _ hst)
  · have hc2 : c = 102 := by simpa [str] using hc.symm
    subst hc2
    exact key [97, 108, 115, 101] rfl (by decide) (by decide)
      (fun st hst => value_of_f L st _ hst)
  · have hc2 : c = 110 := by simpa [str] using hc.symm
    subst hc2
    exact key [117, 108, 108] rfl (by decide) (by decide)
      (fun st hst => value_of_n L st _ hst)

/-- C8: on a text whose first character after the whitespace is `t`, `f` or `n`
and which does not go on, from that character, with the whole keyword `true`,
`false` or `null` respectively, `lept_parse` fails with
`LEPT_PARSE_INVALID_VALUE` (and the type of the value is `LEPT_NULL`). -/
theorem lept_parse_literal_rejects {D : Type} (L : Libc D) (v : lept_value D) (errno : Nat)
    (w1 rest : List Nat) (hw1 : ∀ x ∈ w1, isspace x = true)
    (h : (rest.head? = some 't'.toNat ∧ ¬ str "true" <+: rest) ∨
      (rest.head? = some 'f'.toNat ∧ ¬ str "false" <+: rest) ∨
      (rest.head? = some 'n'.toNat ∧ ¬ str "null" <+: rest)) :
    ∃ st, lept_parse L v (cstr (w1 ++ rest)) errno = .ok (LEPT_PARSE_INVALID_VALUE, st) ∧
      st.v.type = LEPT_NULL := by
  have hmem : cstr (w1 ++ rest) = w1 ++ cstr rest := by
    simp [cstr]
  rw [hmem, parse_skip_ws L v w1 _ errno hw1]
  cases rest with
  | nil => simp at h
  | cons c rest =>
    rcases h with ⟨hc, hp⟩ | ⟨hc, hp⟩ | ⟨hc, hp⟩
    · simp only [List.head?_cons, Option.some.injEq] at hc
      exact ⟨_, parse_at_broken_keyword L v errno (str "true") LEPT_TRUE c rest
        (Or.inl ⟨rfl, rfl⟩) (by rw [hc]; rfl) hp, rfl⟩
    · simp only [List.head?_cons, Option.some.injEq] at hc
      exact ⟨_, parse_at_broken_keyword L v errno (str "false") LEPT_FALSE c rest
        (Or.inr (Or.inl ⟨rfl, rfl⟩)) (by rw [hc]; rfl) hp, rfl⟩
    · simp only [List.head?_cons, Option.some.injEq] at hc
      exact ⟨_, parse_at_broken_keyword L v errno (str "null") LEPT_NULL c rest
        (Or.inr (Or.inr ⟨rfl, rfl⟩)) (by rw [hc]; rfl) hp, rfl⟩

/-- Witness of C8 on the text ` nul`. -/
theorem lept_parse_literal_rejects_witness :
    ∃ st, lept_parse libc ⟨Dbl.fin false 0 10 0, LEPT_TRUE⟩ (cstr (str " " ++ str "nul")) 0 =
        .ok (LEPT_PARSE_INVALID_VALUE, st) ∧ st.v.type = LEPT_NULL :=
  lept_parse_literal_rejects libc ⟨Dbl.fin false 0 10 0, LEPT_TRUE⟩ 0 (str " ") (str "nul")
    (by decide) (Or.inr (Or.inr ⟨rfl, by decide⟩))

/-! ## Broken numbers -/

theorem digits1_reject (y : Nat) (Y : List Nat) (hy : ¬ is_digit y) :
    lept_parse_number_digits1 (y :: Y) = .ok none := by
  simp [lept_parse_number_digits1, (ISDIGIT_false_iff y).mpr hy]

/-- The first character of a buffer, when the text has none, is the NUL. -/
theorem cstr_cons (rest : List Nat) (hrest : ∀ c ∈ rest.head?, ¬ is_digit c) :
    ∃ y Y, rest ++ [0] = y :: Y ∧ ¬ is_digit y := by
  cases rest with
  | nil => exact ⟨0, [], rfl, not_digit_zero⟩
  | cons y Y => exact ⟨y, Y ++ [0], by simp, hrest y (by simp)⟩

/-- The start `["-"] int` of a number, before a character that is no digit. -/
theorem validate_int_start (sg i : List Nat) (u : Nat) (U : List Nat)
    (hsg : sg = [] ∨ sg = ['-'.toNat]) (hi : is_int i) (hu : ¬ is_digit u) :
    lept_parse_number_validate (sg ++ (i ++ u :: U)) =
      match lept_parse_number_frac (u :: U) with
      | .error f => .error f
      | .ok none => .ok none
      | .ok (some p) => lept_parse_number_exp p := by
  obtain ⟨d, ds, hd, hdd⟩ := is_int_head i hi
  have h1 : lept_parse_number_negative (sg ++ (i ++ u :: U)) = .ok (i ++ u :: U) := by
    rw [hd, List.cons_append]
    refine negative_complete sg d _ hsg ?_
    simp [is_digit] at hdd ⊢
    omega
  have h2 := int_complete i u U hi hu
  simp only [lept_parse_number_validate, h1, h2]

/-- The validation rejects `["-"] int "."` before a character that is no digit. -/
theorem validate_reject_frac (sg i rest : List Nat) (hsg : sg = [] ∨ sg = ['-'.toNat])
    (hi : is_int i) (hrest : ∀ c ∈ rest.head?, ¬ is_digit c) :
    lept_parse_number_validate (sg ++ (i ++ '.'.toNat :: (rest ++ [0]))) = .ok none := by
  obtain ⟨y, Y, hyY, hy⟩ := cstr_cons rest hrest
  rw [validate_int_start sg i _ _ hsg hi (by decide), hyY]
  have h3 : lept_parse_number_frac ('.'.toNat :: y :: Y) = .ok none := by
    simp [lept_parse_number_frac, digits1_reject y Y hy]
  simp only [h3]

/-- The part `// exp` rejects `e` or `E`, an optional sign, and then a character
that is no digit. -/
theorem exp_reject (m : Nat) (t : List Nat) (hm : m = 'e'.toNat ∨ m = 'E'.toNat)
    (ht : ∀ c ∈ (after_sign t).head?, ¬ is_digit c) :
    lept_parse_number_exp (m :: (t ++ [0])) = .ok none := by
  have hm2 : m = 101 ∨ m = 69 := by simpa using hm
  cases t with
  | nil => simp [lept_parse_number_exp, hm2, lept_parse_number_digits1, ISDIGIT]
  | cons s t1 =>
    by_cases hs : s = 45 ∨ s = 43
    · have hs2 : s = '+'.toNat ∨ s = '-'.toNat := by
        simp
        omega
      simp only [after_sign, hs2, if_true] at ht
      obtain ⟨y, Y, hyY, hy⟩ := cstr_cons t1 ht
      simp [lept_parse_number_exp, hm2, hs, hyY, digits1_reject y Y hy]
    · have hs2 : ¬ (s = '+'.toNat ∨ s = '-'.toNat) := by
        simp
        omega
      simp only [after_sign, hs2, if_false] at ht
      have hsd : ¬ is_digit s := ht s (by simp)
      simp [lept_parse_number_exp, hm2, hs, digits1_reject s (t1 ++ [0]) hsd]

/-- The validation rejects `["-"] int [frac]`, `e` or `E`, an optional sign, and
then a character that is no digit. -/
theorem validate_reject_exp (sg i f : List Nat) (m : Nat) (t : List Nat)
    (hsg : sg = [] ∨ sg = ['-'.toNat]) (hi : is_int i) (hf : f = [] ∨ is_frac f)
    (hm : m = 'e'.toNat ∨ m = 'E'.toNat)
    (ht : ∀ c ∈ (after_sign t).head?, ¬ is_digit c) :
    lept_parse_number_validate (sg ++ (i ++ (f ++ m :: (t ++ [0])))) = .ok none := by
  have hmd : ¬ is_digit m ∧ m ≠ '.'.toNat := by
    rcases hm with rfl | rfl <;> simp [is_digit]
  have h4 := exp_reject m t hm ht
  rcases hf with rfl | hf
  · rw [List.nil_append, validate_int_start sg i m _ hsg hi hmd.1, frac_skip m _ hmd.2]
    simp only [h4]
  · obtain ⟨ds, hds, hdd⟩ := hf
    have h3 := frac_complete f m (t ++ [0]) ⟨ds, hds, hdd⟩ hmd.1
    rw [hds] at h3 ⊢
    rw [List.cons_append, validate_int_start sg i _ _ hsg hi (by decide)]
    rw [List.cons_append] at h3
    simp only [h3, h4]

/-- A text `["-"] int ...` starts with `-` or a digit. -/
theorem int_text_head (sg i p : List Nat) (hsg : sg = [] ∨ sg = ['-'.toNat]) (hi : is_int i) :
    ∃ d q, sg ++ (i ++ p) = d :: q ∧ (is_digit d ∨ d = '-'.toNat) := by
  obtain ⟨d, ds, rfl, hd⟩ := is_int_head i hi
  rcases hsg with rfl | rfl
  · exact ⟨d, ds ++ p, by simp, Or.inl hd⟩
  · exact ⟨'-'.toNat, d :: ds ++ p, by simp, Or.inr rfl⟩

/-- C9: on a text whose first characters after the whitespace are an optional
`-`, an integer part (`0`, or a digit `1`-`9` and digits) and a `.` that no digit
follows, `lept_parse` fails with `LEPT_PARSE_INVALID_VALUE` (and the type of the
value is `LEPT_NULL`). -/
theorem lept_parse_frac_rejects {D : Type} (L : Libc D) (v : lept_value D) (errno : Nat)
    (w1 sg i rest : List Nat) (hw1 : ∀ x ∈ w1, isspace x = true)
    (hsg : sg = [] ∨ sg = ['-'.toNat]) (hi : is_int i)
    (hrest : ∀ c ∈ rest.head?, ¬ is_digit c) :
    ∃ st, lept_parse L v (cstr (w1 ++ sg ++ i ++ '.'.toNat :: rest)) errno =
        .ok (LEPT_PARSE_INVALID_VALUE, st) ∧ st.v.type = LEPT_NULL := by
  have hmem : cstr (w1 ++ sg ++ i ++ '.'.toNat :: rest) =
      w1 ++ (sg ++ (i ++ '.'.toNat :: (rest ++ [0]))) := by
    simp [cstr]
  have hval := validate_reject_frac sg i rest hsg hi hrest
  obtain ⟨d, q, hdq, hd⟩ := int_text_head sg i ('.'.toNat :: (rest ++ [0])) hsg hi
  rw [hdq] at hval
  rw [hmem, parse_skip_ws L v w1 _ errno hw1, hdq, parse_at_invalid L v d q errno hd hval]
  exact ⟨_, rfl, rfl⟩

/-- Witness of C9 on the text `1.e5`. -/
theorem lept_parse_frac_rejects_witness :
    ∃ st, lept_parse libc ⟨Dbl.fin false 0 10 0, LEPT_TRUE⟩
        (cstr ([] ++ [] ++ str "1" ++ '.'.toNat :: str "e5")) 0 =
        .ok (LEPT_PARSE_INVALID_VALUE, st) ∧ st.v.type = LEPT_NULL :=
  lept_parse_frac_rejects libc ⟨Dbl.fin false 0 10 0, LEPT_TRUE⟩ 0 [] [] (str "1") (str "e5")
    (by decide) (Or.inl rfl) (Or.inr ⟨49, [], rfl, by decide, by simp⟩) (by decide)

/-- C10: on a text whose first characters after the whitespace are `["-"] int
[frac]`, then `e` or `E`, an optional `+` or `-`, and then a character that is no
digit (or the end of the text), `lept_parse` fails with
`LEPT_PARSE_INVALID_VALUE` (and the type of the value is `LEPT_NULL`). -/
theorem lept_parse_exp_rejects {D : Type} (L : Libc D) (v : lept_value D) (errno : Nat)
    (w1 sg i f : List Nat) (m : Nat) (t : List Nat) (hw1 : ∀ x ∈ w1, isspace x = true)
    (hsg : sg = [] ∨ sg = ['-'.toNat]) (hi : is_int i) (hf : f = [] ∨ is_frac f)
    (hm : m = 'e'.toNat ∨ m = 'E'.toNat)
    (ht : ∀ c ∈ (after_sign t).head?, ¬ is_digit c) :
    ∃ st, lept_parse L v (cstr (w1 ++ sg ++ i ++ f ++ m :: t)) errno =
        .ok (LEPT_PARSE_INVALID_VALUE, st) ∧ st.v.type = LEPT_NULL := by
  have hmem : cstr (w1 ++ sg ++ i ++ f ++ m :: t) =
      w1 ++ (sg ++ (i ++ (f ++ m :: (t ++ [0])))) := by
    simp [cstr]
  have hval := validate_reject_exp sg i f m t hsg hi hf hm ht
  obtain ⟨d, q, hdq, hd⟩ := int_text_head sg i (f ++ m :: (t ++ [0])) hsg hi
  rw [hdq] at hval
  rw [hmem, parse_skip_ws L v w1 _ errno hw1, hdq, parse_at_invalid L v d q errno hd hval]
  exact ⟨_, rfl, rfl⟩

/-- Witness of C10 on the text `1.5e-x`. -/
theorem lept_parse_exp_rejects_witness :
    ∃ st, lept_parse libc ⟨Dbl.fin false 0 10 0, LEPT_TRUE⟩
        (cstr ([] ++ [] ++ str "1" ++ str ".5" ++ 'e'.toNat :: str "-x")) 0 =
        .ok (LEPT_PARSE_INVALID_VALUE, st) ∧ st.v.type = LEPT_NULL :=
  lept_parse_exp_rejects libc ⟨Dbl.fin false 0 10 0, LEPT_TRUE⟩ 0 [] [] (str "1") (str ".5")
    'e'.toNat (str "-x") (by decide) (Or.inl rfl) (Or.inr ⟨49, [], rfl, by decide, by simp⟩)
    (Or.inr ⟨str "5", rfl, by decide, by decide⟩) (Or.inl rfl) (by decide)

/-! ## Text that is no number -/

/-- The validation rejects a text whose first character is neither `-` nor a
digit. -/
theorem validate_reject_head (c : Nat) (p : List Nat) (hc : c ≠ '-'.toNat)
    (hd : ¬ is_digit c) :
    lept_parse_number_validate (c :: p) = .ok none := by
  have h1 : c ≠ 45 := by simpa using hc
  have h2 : c ≠ 48 := by
    simp [is_digit] at hd
    omega
  have h3 : ISDIGIT1TO9 c = false := by
    simp [is_digit] at hd
    simp [ISDIGIT1TO9]
    omega
  simp [lept_parse_number_validate, lept_parse_number_negative, lept_parse_number_int,
    h1, h2, h3]

/-- The validation rejects a `-` that no digit follows. -/
theorem validate_reject_minus (d : Nat) (p : List Nat) (hd : ¬ is_digit d) :
    lept_parse_number_validate ('-'.toNat :: d :: p) = .ok none := by
  have h2 : d ≠ 48 := by
    simp [is_digit] at hd
    omega
  have h3 : ISDIGIT1TO9 d = false := by
    simp [is_digit] at hd
    simp [ISDIGIT1TO9]
    omega
  simp [lept_parse_number_validate, lept_parse_number_negative, lept_parse_number_int,
    h2, h3]

/-- C14: on a text whose first character after the whitespace is none of `t`,
`f`, `n`, `-`, a digit (and not the end of the text), and on a text where it is
a `-` that no digit follows, `lept_parse` fails with `LEPT_PARSE_INVALID_VALUE`.
The state it leaves is the same for every library and `errno` is as it was:
`strtod` is not called for a text that fails the grammar. -/
theorem lept_parse_not_a_number {D : Type} (L : Libc D) (v : lept_value D) (errno : Nat)
    (w1 : List Nat) (c : Nat) (rest : List Nat) (hw1 : ∀ x ∈ w1, isspace x = true)
    (hc : isspace c = false)
    (h : (c ≠ 0 ∧ c ≠ 't'.toNat ∧ c ≠ 'f'.toNat ∧ c ≠ 'n'.toNat ∧ c ≠ '-'.toNat ∧
        ¬ is_digit c) ∨
      (c = '-'.toNat ∧ ∀ d ∈ rest.head?, ¬ is_digit d)) :
    lept_parse L v (cstr (w1 ++ c :: rest)) errno =
      .ok (LEPT_PARSE_INVALID_VALUE,
        { c := { json := cstr (c :: rest) }, v := { v with type := LEPT_NULL },
          errno := errno }) := by
  have hmem : cstr (w1 ++ c :: rest) = w1 ++ c :: (rest ++ [0]) := by
    simp [cstr]
  have hmem2 : cstr (c :: rest) = c :: (rest ++ [0]) := rfl
  have hval : lept_parse_number_validate (c :: (rest ++ [0])) = .ok none := by
    rcases h with ⟨_, _, _, _, hm, hd⟩ | ⟨rfl, hd⟩
    · exact validate_reject_head c _ hm hd
    · cases rest with
      | nil => exact validate_reject_minus 0 [] not_digit_zero
      | cons d rest => exact validate_reject_minus d _ (hd d (by simp))
  have hother : c ≠ 't'.toNat ∧ c ≠ 'f'.toNat ∧ c ≠ 'n'.toNat ∧ c ≠ 0 := by
    rcases h with ⟨h0, ht, hf, hn, _, _⟩ | ⟨rfl, _⟩
    · exact ⟨ht, hf, hn, h0⟩
    · decide
  rw [hmem, hmem2, parse_skip_ws L v w1 _ errno hw1, parse_at_value L v c _ errno hc,
    value_of_other L _ c _ rfl hother.1 hother.2.1 hother.2.2.1 hother.2.2.2,
    number_of_invalid L _ hval]
  simp

/-- Witness of C14 on the text ` +1`. -/
theorem lept_parse_not_a_number_witness :
    lept_parse libc ⟨Dbl.fin false 0 10 0, LEPT_TRUE⟩ (cstr (str " " ++ '+'.toNat :: str "1")) 7 =
      .ok (LEPT_PARSE_INVALID_VALUE,
        { c := { json := cstr ('+'.toNat :: str "1") },
          v := { n := Dbl.fin false 0 10 0, type := LEPT_NULL }, errno := 7 }) :=
  lept_parse_not_a_number libc ⟨Dbl.fin false 0 10 0, LEPT_TRUE⟩ 7 (str " ") '+'.toNat (str "1")
    (by decide) (by decide) (Or.inl (by decide))

/-! ## What `lept_parse_number` leaves -/

/-- C18: on NUL-terminated memory `lept_parse_number` returns one of
`LEPT_PARSE_OK`, `LEPT_PARSE_INVALID_VALUE`, `LEPT_PARSE_NUMBER_TOO_BIG`.  With
one of the two failure codes the cursor `c->json` and the value (type and
number) are as they were; with `LEPT_PARSE_OK` the cursor stands where the
validation stopped, exactly past the validated span `N`. -/
theorem lept_parse_number_frame {D : Type} (L : Libc D) (st : State D)
    (h0 : 0 ∈ st.c.json) :
    ∃ ret st', lept_parse_number L st = .ok (ret, st') ∧
      (ret = LEPT_PARSE_OK ∨ ret = LEPT_PARSE_INVALID_VALUE ∨
        ret = LEPT_PARSE_NUMBER_TOO_BIG) ∧
      (ret = LEPT_PARSE_INVALID_VALUE ∨ ret = LEPT_PARSE_NUMBER_TOO_BIG →
        st'.c = st.c ∧ st'.v = st.v) ∧
      (ret = LEPT_PARSE_OK →
        ∃ N, is_number N ∧ st.c.json = N ++ st'.c.json ∧
          st'.c.json = st.c.json.drop N.length ∧
          lept_parse_number_validate st.c.json = .ok (some st'.c.json)) := by
  obtain ⟨r, hr, _⟩ := validate_total st.c.json h0
  cases r with
  | none =>
    refine ⟨LEPT_PARSE_INVALID_VALUE, st, number_of_invalid L st hr, Or.inr (Or.inl rfl),
      fun _ => ⟨rfl, rfl⟩, fun h => by simp at h⟩
  | some q =>
    obtain ⟨N, hN, hnum⟩ := validate_ok st.c.json q hr
    by_cases hb : strtod_overflows L st.c.json = true
    · refine ⟨LEPT_PARSE_NUMBER_TOO_BIG, { st with errno := (L.strtod st.c.json 0).2 },
        by simp [number_of_validate L st q hr, hb], Or.inr (Or.inr rfl),
        fun _ => ⟨rfl, rfl⟩, fun h => by simp at h⟩
    · refine ⟨LEPT_PARSE_OK,
        { c := { json := q }, v := { n := (L.strtod st.c.json 0).1, type := LEPT_NUMBER },
          errno := (L.strtod st.c.json 0).2 },
        by simp [number_of_validate L st q hr, hb], Or.inl rfl,
        fun h => by simp at h, fun _ => ⟨N, hnum, hN, ?_, hr⟩⟩
      simp [hN]

/-- Witness of C18 on the memory of the text `12.5x`, a value of type
`LEPT_TRUE` and `errno = 7`. -/
theorem lept_parse_number_frame_witness :
    ∃ ret st', lept_parse_number libc
        ⟨⟨cstr (str "12.5x")⟩, ⟨Dbl.fin false 0 10 0, LEPT_TRUE⟩, 7⟩ = .ok (ret, st') ∧
      (ret = LEPT_PARSE_OK ∨ ret = LEPT_PARSE_INVALID_VALUE ∨
        ret = LEPT_PARSE_NUMBER_TOO_BIG) ∧
      (ret = LEPT_PARSE_INVALID_VALUE ∨ ret = LEPT_PARSE_NUMBER_TOO_BIG →
        st'.c = (⟨cstr (str "12.5x")⟩ : lept_context) ∧
          st'.v = ⟨Dbl.fin false 0 10 0, LEPT_TRUE⟩) ∧
      (ret = LEPT_PARSE_OK →
        ∃ N, is_number N ∧ cstr (str "12.5x") = N ++ st'.c.json ∧
          st'.c.json = (cstr (str "12.5x")).drop N.length ∧
          lept_parse_number_validate (cstr (str "12.5x")) = .ok (some st'.c.json)) :=
  lept_parse_number_frame libc ⟨⟨cstr (str "12.5x")⟩, ⟨Dbl.fin false 0 10 0, LEPT_TRUE⟩, 7⟩
    (by decide)

/-! ## The cursor moves forward, within the buffer -/

theorem literal_loop_suffix (lit json q : List Nat)
    (h : lept_parse_literal_loop lit json = .ok (some q)) : q <:+ json := by
  induction lit generalizing json with
  | nil => simp [lept_parse_literal_loop] at h
  | cons l lit ih =>
    by_cases hl : l = 0
    · simp [lept_parse_literal_loop, hl] at h
      rw [h]
    · cases json with
      | nil => simp [lept_parse_literal_loop, hl] at h
      | cons x rest =>
        by_cases hx : x = l
        · simp [lept_parse_literal_loop, hl, hx] at h
          exact (ih rest h).trans (List.suffix_cons _ _)
        · simp [lept_parse_literal_loop, hl, hx] at h

theorem literal_suffix {D : Type} (st st' : State D) (literal : List Nat) (ty : lept_type)
    (ret : lept_code) (h : lept_parse_literal st literal ty = .ok (ret, st')) :
    st'.c.json <:+ st.c.json := by
  unfold lept_parse_literal at h
  split at h
  · simp at h
  · rename_i l0 literal1
    cases hj : st.c.json with
    | nil => simp [EXPECT, hj] at h
    | cons x rest =>
      by_cases hx : x = l0
      · simp only [EXPECT, hj, hx, if_true] at h
        cases hl : lept_parse_literal_loop literal1 rest with
        | error f => simp [hl] at h
        | ok r =>
          cases r with
          | none =>
            simp [hl] at h
            rw [← h.2]
            exact List.suffix_cons _ _
          | some q =>
            simp [hl] at h
            rw [← h.2]
            exact (literal_loop_suffix literal1 rest q hl).trans (List.suffix_cons _ _)
      · simp [EXPECT, hj, hx] at h

theorem number_suffix {D : Type} (L : Libc D) (st st' : State D) (ret : lept_code)
    (h : lept_parse_number L st = .ok (ret, st')) : st'.c.json <:+ st.c.json := by
  cases hv : lept_parse_number_validate st.c.json with
  | error f => simp [lept_parse_number, hv] at h
  | ok r =>
    cases r with
    | none =>
      rw [number_of_invalid L st hv] at h
      simp at h
      rw [← h.2]
    | some q =>
      obtain ⟨N, hN, _⟩ := validate_ok st.c.json q hv
      rw [number_of_validate L st q hv] at h
      by_cases hb : strtod_overflows L st.c.json = true
      · simp [hb] at h
        rw [← h.2]
      · simp [hb] at h
        rw [← h.2]
        exact ⟨N, hN.symm⟩

/-- The cursor that `lept_parse_value` leaves is a position of the memory it
was given, at or after the cursor it got. -/
theorem value_suffix {D : Type} (L : Libc D) (st st' : State D) (ret : lept_code)
    (h : lept_parse_value L st = .ok (ret, st')) : st'.c.json <:+ st.c.json := by
  cases hj : st.c.json with
  | nil => simp [lept_parse_value, hj] at h
  | cons ch rest =>
    rw [← hj]
    by_cases ht : ch = 116
    · subst ht
      rw [value_of_t L st rest hj] at h
      exact literal_suffix _ _ _ _ _ h
    by_cases hf : ch = 102
    · subst hf
      rw [value_of_f L st rest hj] at h
      exact literal_suffix _ _ _ _ _ h
    by_cases hn : ch = 110
    · subst hn
      rw [value_of_n L st rest hj] at h
      exact literal_suffix _ _ _ _ _ h
    by_cases hz : ch = 0
    · subst hz
      rw [value_of_nul L st rest hj] at h
      simp at h
      rw [← h.2]
    · rw [value_of_other L st ch rest hj (by simpa using ht) (by simpa using hf)
        (by simpa using hn) hz] at h
      exact number_suffix L _ _ _ h

theorem whitespace_loop_suffix (p q : List Nat) (h : lept_parse_whitespace_loop p = .ok q) :
    q <:+ p := by
  obtain ⟨w, _, _, hp, _, _, _⟩ := whitespace_loop_ok p q h
  exact ⟨w, hp.symm⟩

/-- C19: for every NUL-terminated text `s`, no read of `lept_parse` falls outside
the buffer `s ++ [0]` (the run returns, it does not stop on an out-of-bounds
read), and the cursor only moves forward: the cursor `c1` after the leading
whitespace, the cursor of `st2` after `lept_parse_value` and the final cursor of
`st` are each a position at or after the one before, and the final cursor is
still inside the buffer, at an index no greater than the length of `s`. -/
theorem lept_parse_cursor_in_bounds {D : Type} (L : Libc D) (v : lept_value D) (s : List Nat)
    (errno : Nat) :
    ∃ c1 ret2 st2 ret st,
      lept_parse_whitespace { json := cstr s } = .ok c1 ∧
      lept_parse_value L { c := c1, v := { v with type := LEPT_NULL }, errno := errno } =
        .ok (ret2, st2) ∧
      lept_parse L v (cstr s) errno = .ok (ret, st) ∧
      c1.json <:+ cstr s ∧ st2.c.json <:+ c1.json ∧ st.c.json <:+ st2.c.json ∧
      st.c.json ≠ [] ∧ (cstr s).length - st.c.json.length ≤ s.length := by
  obtain ⟨p, hp, hp0⟩ := whitespace_loop_total (cstr s) (mem_cstr s)
  obtain ⟨ret2, st2, hv, hst0, _⟩ :=
    value_total L { c := { json := p }, v := { v with type := LEPT_NULL }, errno := errno } hp0
  have hs1 := whitespace_loop_suffix _ _ hp
  have hs2 := value_suffix L _ _ _ hv
  have hlen : ∀ q : List Nat, q ≠ [] → (cstr s).length - q.length ≤ s.length := by
    intro q hq
    have : 0 < q.length := List.length_pos.mpr hq
    simp [cstr]
    omega
  by_cases hret : ret2 = LEPT_PARSE_OK
  · obtain ⟨q, hq, hq0⟩ := whitespace_loop_total st2.c.json hst0
    have hs3 := whitespace_loop_suffix _ _ hq
    cases q with
    | nil => simp at hq0
    | cons ch q =>
      by_cases hch : ch = 0
      · exact ⟨{ json := p }, ret2, st2, ret2, { st2 with c := { json := ch :: q } },
          by simp [lept_parse_whitespace, hp], hv,
          by simp [lept_parse, lept_parse_whitespace, hp, hv, hret, hq, hch],
          hs1, hs2, hs3, by simp, hlen _ (by simp)⟩
      · exact ⟨{ json := p }, ret2, st2, LEPT_PARSE_ROOT_NOT_SINGULAR,
          { st2 with c := { json := ch :: q }, v := { st2.v with type := LEPT_NULL } },
          by simp [lept_parse_whitespace, hp], hv,
          by simp [lept_parse, lept_parse_whitespace, hp, hv, hret, hq, hch],
          hs1, hs2, hs3, by simp, hlen _ (by simp)⟩
  · have hne : st2.c.json ≠ [] := by
      intro h
      rw [h] at hst0
      simp at hst0
    exact ⟨{ json := p }, ret2, st2, ret2, st2,
      by simp [lept_parse_whitespace, hp], hv,
      by simp [lept_parse, lept_parse_whitespace, hp, hv, hret],
      hs1, hs2, List.suffix_refl _, hne, hlen _ hne⟩

/-! ## The assertion of `EXPECT` -/

theorem whitespace_loop_fault (p : List Nat) (e : Fault)
    (h : lept_parse_whitespace_loop p = .error e) : e = .out_of_bounds := by
  induction p with
  | nil =>
    simp [lept_parse_whitespace_loop] at h
    exact h.symm
  | cons x p ih =>
    by_cases hx : isspace x = true
    · simp [lept_parse_whitespace_loop, hx] at h
      exact ih h
    · simp [lept_parse_whitespace_loop, hx] at h

theorem digits_fault (p : List Nat) (e : Fault)
    (h : lept_parse_number_digits p = .error e) : e = .out_of_bounds := by
  induction p with
  | nil =>
    simp [lept_parse_number_digits] at h
    exact h.symm
  | cons x p ih =>
    by_cases hx : ISDIGIT x = true
    · simp [lept_parse_number_digits, hx] at h
      exact ih h
    · simp [lept_parse_number_digits, hx] at h

theorem digits1_fault (p : List Nat) (e : Fault)
    (h : lept_parse_number_digits1 p = .error e) : e = .out_of_bounds := by
  cases p with
  | nil =>
    simp [lept_parse_number_digits1] at h
    exact h.symm
  | cons d p =>
    by_cases hd : ISDIGIT d = true
    · cases hl : lept_parse_number_digits p with
      | error f =>
        simp [lept_parse_number_digits1, hd, hl] at h
        rw [← h]
        exact digits_fault p f hl
      | ok q => simp [lept_parse_number_digits1, hd, hl] at h
    · simp [lept_parse_number_digits1, hd] at h

theorem negative_fault (p : List Nat) (e : Fault)
    (h : lept_parse_number_negative p = .error e) : e = .out_of_bounds := by
  cases p with
  | nil =>
    simp [lept_parse_number_negative] at h
    exact h.symm
  | cons x p =>
    by_cases hx : x = 45
    · simp [lept_parse_number_negative, hx] at h
    · simp [lept_parse_number_negative, hx] at h

theorem int_fault (p : List Nat) (e : Fault)
    (h : lept_parse_number_int p = .error e) : e = .out_of_bounds := by
  cases p with
  | nil =>
    simp [lept_parse_number_int] at h
    exact h.symm
  | cons x p =>
    by_cases hx : x = 48
    · simp [lept_parse_number_int, hx] at h
    · by_cases h19 : ISDIGIT1TO9 x = true
      · cases hl : lept_parse_number_digits p with
        | error f =>
          simp [lept_parse_number_int, hx, h19, hl] at h
          rw [← h]
          exact digits_fault p f hl
        | ok q => simp [lept_parse_number_int, hx, h19, hl] at h
      · simp [lept_parse_number_int, hx, h19] at h

theorem frac_fault (p : List Nat) (e : Fault)
    (h : lept_parse_number_frac p = .error e) : e = .out_of_bounds := by
  cases p with
  | nil =>
    simp [lept_parse_number_frac] at h
    exact h.symm
  | cons x p =>
    by_cases hx : x = 46
    · simp [lept_parse_number_frac, hx] at h
      exact digits1_fault p e h
    · simp [lept_parse_number_frac, hx] at h

theorem exp_fault (p : List Nat) (e : Fault)
    (h : lept_parse_number_exp p = .error e) : e = .out_of_bounds := by
  cases p with
  | nil =>
    simp [lept_parse_number_exp] at h
    exact h.symm
  | cons x p =>
    by_cases hx : x = 101 ∨ x = 69
    · cases p with
      | nil =>
        simp [lept_parse_number_exp, hx] at h
        exact h.symm
      | cons s p1 =>
        simp [lept_parse_number_exp, hx] at h
        exact digits1_fault _ e h
    · simp [lept_parse_number_exp, hx] at h

theorem validate_fault (p : List Nat) (e : Fault)
    (h : lept_parse_number_validate p = .error e) : e = .out_of_bounds := by
  unfold lept_parse_number_validate at h
  cases h1 : lept_parse_number_negative p with
  | error f =>
    simp [h1] at h
    rw [← h]
    exact negative_fault p f h1
  | ok p1 =>
    simp only [h1] at h
    cases h2 : lept_parse_number_int p1 with
    | error f =>
      simp [h2] at h
      rw [← h]
      exact int_fault p1 f h2
    | ok r2 =>
      cases r2 with
      | none => simp [h2] at h
      | some p2 =>
        simp only [h2] at h
        cases h3 : lept_parse_number_frac p2 with
        | error f =>
          simp [h3] at h
          rw [← h]
          exact frac_fault p2 f h3
        | ok r3 =>
          cases r3 with
          | none => simp [h3] at h
          | some p3 =>
            simp only [h3] at h
            exact exp_fault p3 e h

theorem number_fault {D : Type} (L : Libc D) (st : State D) (e : Fault)
    (h : lept_parse_number L st = .error e) : e = .out_of_bounds := by
  cases hv : lept_parse_number_validate st.c.json with
  | error f =>
    simp [lept_parse_number, hv] at h
    rw [← h]
    exact validate_fault _ f hv
  | ok r =>
    cases r with
    | none => simp [number_of_invalid L st hv] at h
    | some q =>
      rw [number_of_validate L st q hv] at h
      by_cases hb : strtod_overflows L st.c.json = true
      · simp [hb] at h
      · simp [hb] at h

theorem literal_loop_fault (lit json : List Nat) (e : Fault)
    (h : lept_parse_literal_loop lit json = .error e) : e = .out_of_bounds := by
  induction lit generalizing json with
  | nil =>
    simp [lept_parse_literal_loop] at h
    exact h.symm
  | cons l lit ih =>
    by_cases hl : l = 0
    · simp [lept_parse_literal_loop, hl] at h
    · cases json with
      | nil =>
        simp [lept_parse_literal_loop, hl] at h
        exact h.symm
      | cons x rest =>
        by_cases hx : x = l
        · simp [lept_parse_literal_loop, hl, hx] at h
          exact ih rest h
        · simp [lept_parse_literal_loop, hl, hx] at h

/-- When the current character is the first of the literal, the assertion of
`EXPECT` holds and `lept_parse_literal` goes on: it does not stop on it. -/
theorem literal_fault {D : Type} (st : State D) (l0 : Nat) (literal rest : List Nat)
    (ty : lept_type) (e : Fault) (hj : st.c.json = l0 :: rest)
    (h : lept_parse_literal st (l0 :: literal) ty = .error e) : e = .out_of_bounds := by
  have hE : EXPECT st.c l0 = .ok { json := rest } := by
    simp [EXPECT, hj]
  cases hl : lept_parse_literal_loop literal rest with
  | error f =>
    simp [lept_parse_literal, hE, hl] at h
    rw [← h]
    exact literal_loop_fault _ _ f hl
  | ok r =>
    cases r with
    | none => simp [lept_parse_literal, hE, hl] at h
    | some q => simp [lept_parse_literal, hE, hl] at h

theorem value_fault {D : Type} (L : Libc D) (st : State D) (e : Fault)
    (h : lept_parse_value L st = .error e) : e = .out_of_bounds := by
  cases hj : st.c.json with
  | nil =>
    simp [lept_parse_value, hj] at h
    exact h.symm
  | cons ch rest =>
    by_cases ht : ch = 116
    · subst ht
      rw [value_of_t L st rest hj] at h
      exact literal_fault st _ _ rest _ e hj h
    by_cases hf : ch = 102
    · subst hf
      rw [value_of_f L st rest hj] at h
      exact literal_fault st _ _ rest _ e hj h
    by_cases hn : ch = 110
    · subst hn
      rw [value_of_n L st rest hj] at h
      exact literal_fault st _ _ rest _ e hj h
    by_cases hz : ch = 0
    · subst hz
      rw [value_of_nul L st rest hj] at h
      simp at h
    · rw [value_of_other L st ch rest hj (by simpa using ht) (by simpa using hf)
        (by simpa using hn) hz] at h
      exact number_fault L st e h

theorem parse_fault {D : Type} (L : Libc D) (v : lept_value D) (json : List Nat) (errno : Nat)
    (e : Fault) (h : lept_parse L v json errno = .error e) : e = .out_of_bounds := by
  cases h1 : lept_parse_whitespace_loop json with
  | error f =>
    simp [lept_parse, lept_parse_whitespace, h1] at h
    rw [← h]
    exact whitespace_loop_fault _ f h1
  | ok p =>
    cases h2 : lept_parse_value L
        { c := { json := p }, v := { v with type := LEPT_NULL }, errno := errno } with
    | error f =>
      simp [lept_parse, lept_parse_whitespace, h1, h2] at h
      rw [← h]
      exact value_fault L _ f h2
    | ok r =>
      obtain ⟨ret, st1⟩ := r
      by_cases hret : ret = LEPT_PARSE_OK
      · subst hret
        cases h3 : lept_parse_whitespace_loop st1.c.json with
        | error f =>
          simp [lept_parse, lept_parse_whitespace, h1, h2, h3] at h
          rw [← h]
          exact whitespace_loop_fault _ f h3
        | ok q =>
          cases q with
          | nil =>
            simp [lept_parse, lept_parse_whitespace, h1, h2, h3] at h
            exact h.symm
          | cons y Y =>
            by_cases hy : y = 0
            · simp [lept_parse, lept_parse_whitespace, h1, h2, h3, hy] at h
            · simp [lept_parse, lept_parse_whitespace, h1, h2, h3, hy] at h
      · simp [lept_parse, lept_parse_whitespace, h1, h2, hret] at h

/-- What `lept_parse_literal` has matched when it returns `LEPT_PARSE_OK`: the
keyword stood at the cursor and the new cursor is exactly past it. -/
theorem literal_ok_inv {D : Type} (st st' : State D) (l0 : Nat) (lit : List Nat)
    (ty : lept_type) (h0 : 0 ∉ lit)
    (h : lept_parse_literal st (l0 :: (lit ++ [0])) ty = .ok (LEPT_PARSE_OK, st')) :
    st.c.json = l0 :: (lit ++ st'.c.json) ∧ st'.v.type = ty := by
  have loop : ∀ (lit json q : List Nat), 0 ∉ lit →
      lept_parse_literal_loop (lit ++ [0]) json = .ok (some q) → json = lit ++ q := by
    intro lit
    induction lit with
    | nil =>
      intro json q _ hq
      simp [lept_parse_literal_loop] at hq
      simp [hq]
    | cons l lit ih =>
      intro json q hl0 hq
      have hl : l ≠ 0 := fun h1 => hl0 (by simp [h1])
      have h2 : 0 ∉ lit := fun h1 => hl0 (List.mem_cons_of_mem _ h1)
      cases json with
      | nil => simp [lept_parse_literal_loop, hl] at hq
      | cons x rest =>
        by_cases hx : x = l
        · simp [lept_parse_literal_loop, hl, hx] at hq
          simp [hx, ih rest q h2 hq]
        · simp [lept_parse_literal_loop, hl, hx] at hq
  cases hj : st.c.json with
  | nil => simp [lept_parse_literal, EXPECT, hj] at h
  | cons x rest =>
    by_cases hx : x = l0
    · cases hl : lept_parse_literal_loop (lit ++ [0]) rest with
      | error f => simp [lept_parse_literal, EXPECT, hj, hx, hl] at h
      | ok r =>
        cases r with
        | none => simp [lept_parse_literal, EXPECT, hj, hx, hl] at h
        | some q =>
          simp [lept_parse_literal, EXPECT, hj, hx, hl] at h
          rw [← h]
          exact ⟨by simp [hx, loop lit rest q h0 hl], rfl⟩
    · simp [lept_parse_literal, EXPECT, hj, hx] at h

/-- C20: the assertion of `EXPECT` at the start of `lept_parse_literal` holds on
every call reachable from `lept_parse`: no run of `lept_parse_value` or of
`lept_parse`, on any memory, stops on a failed assertion, since
`lept_parse_value` passes `true`, `false`, `null` only with the cursor on `t`,
`f`, `n`.  And `lept_parse_literal` succeeds exactly past the keyword: with a
keyword at the cursor it returns `LEPT_PARSE_OK` with the cursor right after it,
and whenever it returns `LEPT_PARSE_OK` the keyword stood at the old cursor and
the new cursor is what followed it. -/
theorem expect_assertion_holds {D : Type} (L : Libc D) (v : lept_value D) (json : List Nat)
    (errno : Nat) (st st' : State D) (kw rest : List Nat) (ty : lept_type) :
    lept_parse L v json errno ≠ .error .assert_failed ∧
    lept_parse_value L st ≠ .error .assert_failed ∧
    (is_keyword kw ty → st.c.json = kw ++ rest →
      lept_parse_literal st (cstr kw) ty =
        .ok (LEPT_PARSE_OK,
          { st with c := { json := rest }, v := { st.v with type := ty } })) ∧
    (is_keyword kw ty → lept_parse_literal st (cstr kw) ty = .ok (LEPT_PARSE_OK, st') →
      st.c.json = kw ++ st'.c.json ∧ st'.v.type = ty) := by
  refine ⟨?_, ?_, ?_, ?_⟩
  · intro h
    have := parse_fault L v json errno _ h
    simp at this
  · intro h
    have := value_fault L st _ h
    simp at this
  · intro hk hj
    rcases hk with ⟨rfl, rfl⟩ | ⟨rfl, rfl⟩ | ⟨rfl, rfl⟩
    · rw [cstr_true]
      exact literal_match st 116 [114, 117, 101] rest _ hj (by decide)
    · rw [cstr_false]
      exact literal_match st 102 [97, 108, 115, 101] rest _ hj (by decide)
    · rw [cstr_null]
      exact literal_match st 110 [117, 108, 108] rest _ hj (by decide)
  · intro hk h
    rcases hk with ⟨rfl, rfl⟩ | ⟨rfl, rfl⟩ | ⟨rfl, rfl⟩
    · rw [cstr_true] at h
      exact literal_ok_inv st st' 116 [114, 117, 101] _ (by decide) h
    · rw [cstr_false] at h
      exact literal_ok_inv st st' 102 [97, 108, 115, 101] _ (by decide) h
    · rw [cstr_null] at h
      exact literal_ok_inv st st' 110 [117, 108, 108] _ (by decide) h

/-! ## The runs of `lept_parse_value`, case by case -/

/-- On NUL-terminated memory `lept_parse_value` returns, in one of five ways:
at the NUL; a literal matched; a literal or a number rejected; a number
validated for which `strtod` reports an overflow; a number validated and
stored. -/
theorem value_cases {D : Type} (L : Libc D) (st : State D) (h0 : 0 ∈ st.c.json) :
    ∃ ret st', lept_parse_value L st = .ok (ret, st') ∧ 0 ∈ st'.c.json ∧
      ((ret = LEPT_PARSE_EXPECT_VALUE ∧ st' = st) ∨
        (ret = LEPT_PARSE_OK ∧ st'.v.type ≠ LEPT_NUMBER ∧ st'.errno = st.errno) ∨
        (ret = LEPT_PARSE_INVALID_VALUE ∧ st'.v = st.v ∧ st'.errno = st.errno) ∨
        (ret = LEPT_PARSE_NUMBER_TOO_BIG ∧ st'.v = st.v ∧ st'.c = st.c ∧
          st'.errno = (L.strtod st.c.json 0).2 ∧ strtod_overflows L st.c.json = true) ∨
        (ret = LEPT_PARSE_OK ∧ st'.v = { n := (L.strtod st.c.json 0).1, type := LEPT_NUMBER } ∧
          st'.errno = (L.strtod st.c.json 0).2 ∧ strtod_overflows L st.c.json = false ∧
          lept_parse_number_validate st.c.json = .ok (some st'.c.json))) := by
  have lit : ∀ (l0 : Nat) (lit : List Nat) (ty : lept_type) (rest : List Nat),
      st.c.json = l0 :: rest → l0 ≠ 0 → ty ≠ LEPT_NUMBER →
      lept_parse_value L st = lept_parse_literal st (l0 :: (lit ++ [0])) ty →
      ∃ ret st', lept_parse_value L st = .ok (ret, st') ∧ 0 ∈ st'.c.json ∧
        ((ret = LEPT_PARSE_EXPECT_VALUE ∧ st' = st) ∨
          (ret = LEPT_PARSE_OK ∧ st'.v.type ≠ LEPT_NUMBER ∧ st'.errno = st.errno) ∨
          (ret = LEPT_PARSE_INVALID_VALUE ∧ st'.v = st.v ∧ st'.errno = st.errno) ∨
          (ret = LEPT_PARSE_NUMBER_TOO_BIG ∧ st'.v = st.v ∧ st'.c = st.c ∧
            st'.errno = (L.strtod st.c.json 0).2 ∧ strtod_overflows L st.c.json = true) ∨
          (ret = LEPT_PARSE_OK ∧
            st'.v = { n := (L.strtod st.c.json 0).1, type := LEPT_NUMBER } ∧
            st'.errno = (L.strtod st.c.json 0).2 ∧ strtod_overflows L st.c.json = false ∧
            lept_parse_number_validate st.c.json = .ok (some st'.c.json))) := by
    intro l0 lit ty rest hj hl0 hty heq
    obtain ⟨ret, st', h, hm, he, hv⟩ := literal_total st l0 lit ty rest hj hl0 h0
    refine ⟨ret, st', by rw [heq, h], hm, ?_⟩
    rcases hv with ⟨h1, h2⟩ | ⟨h1, h2⟩
    · exact Or.inr (Or.inl ⟨h1, by rw [h2]; exact hty, he⟩)
    · exact Or.inr (Or.inr (Or.inl ⟨h1, h2, he⟩))
  cases hj : st.c.json with
  | nil => simp [hj] at h0
  | cons ch rest =>
    rw [← hj]
    by_cases ht : ch = 116
    · subst ht
      exact lit 116 [114, 117, 101] LEPT_TRUE rest hj (by decide) (by decide)
        (value_of_t L st rest hj)
    by_cases hf : ch = 102
    · subst hf
      exact lit 102 [97, 108, 115, 101] LEPT_FALSE rest hj (by decide) (by decide)
        (value_of_f L st rest hj)
    by_cases hn : ch = 110
    · subst hn
      exact lit 110 [117, 108, 108] LEPT_NULL rest hj (by decide) (by decide)
        (value_of_n L st rest hj)
    by_cases hz : ch = 0
    · subst hz
      exact ⟨LEPT_PARSE_EXPECT_VALUE, st, value_of_nul L st rest hj, h0, Or.inl ⟨rfl, rfl⟩⟩
    · have hnum := value_of_other L st ch rest hj (by simpa using ht) (by simpa using hf)
        (by simpa using hn) hz
      obtain ⟨r, hr, hq⟩ := validate_total st.c.json h0
      cases r with
      | none =>
        exact ⟨LEPT_PARSE_INVALID_VALUE, st, by rw [hnum, number_of_invalid L st hr], h0,
          Or.inr (Or.inr (Or.inl ⟨rfl, rfl, rfl⟩))⟩
      | some q =>
        by_cases hb : strtod_overflows L st.c.json = true
        · exact ⟨LEPT_PARSE_NUMBER_TOO_BIG, { st with errno := (L.strtod st.c.json 0).2 },
            by simp [hnum, number_of_validate L st q hr, hb], h0,
            Or.inr (Or.inr (Or.inr (Or.inl ⟨rfl, rfl, rfl, rfl, hb⟩)))⟩
        · exact ⟨LEPT_PARSE_OK,
            { c := { json := q },
              v := { n := (L.strtod st.c.json 0).1, type := LEPT_NUMBER },
              errno := (L.strtod st.c.json 0).2 },
            by simp [hnum, number_of_validate L st q hr, hb], hq q rfl,
            Or.inr (Or.inr (Or.inr (Or.inr ⟨rfl, rfl, rfl, by simpa using hb, hr⟩)))⟩

/-- On NUL-terminated memory the trailing phase returns; it leaves the value's
number and `errno` alone. -/
theorem trailing_total {D : Type} (st : State D) (h0 : 0 ∈ st.c.json) :
    ∃ ret st', lept_parse_trailing st = .ok (ret, st') ∧ 0 ∈ st'.c.json ∧
      st'.errno = st.errno ∧
      ((ret = LEPT_PARSE_OK ∧ st'.v = st.v) ∨
        (ret = LEPT_PARSE_ROOT_NOT_SINGULAR ∧ st'.v = { st.v with type := LEPT_NULL })) := by
  obtain ⟨q, hq, hq0⟩ := whitespace_loop_total st.c.json h0
  cases q with
  | nil => simp at hq0
  | cons ch q =>
    by_cases hch : ch = 0
    · exact ⟨LEPT_PARSE_OK, { st with c := { json := ch :: q } },
        by simp [lept_parse_trailing, lept_parse_whitespace, hq, hch], hq0, rfl,
        Or.inl ⟨rfl, rfl⟩⟩
    · exact ⟨LEPT_PARSE_ROOT_NOT_SINGULAR,
        { st with c := { json := ch :: q }, v := { st.v with type := LEPT_NULL } },
        by simp [lept_parse_trailing, lept_parse_whitespace, hq, hch], hq0, rfl,
        Or.inr ⟨rfl, rfl⟩⟩

/-- The whitespace loop stops on the first character that is no whitespace. -/
theorem whitespace_loop_dropWhile (p q : List Nat) (h : lept_parse_whitespace_loop p = .ok q) :
    q = p.dropWhile isspace := by
  induction p with
  | nil => simp [lept_parse_whitespace_loop] at h
  | cons x p ih =>
    by_cases hx : isspace x = true
    · simp [lept_parse_whitespace_loop, hx] at h
      simp [List.dropWhile, hx, ih h]
    · simp [lept_parse_whitespace_loop, hx] at h
      simp [List.dropWhile, hx, h]

/-- The run of `lept_parse` on a buffer: the whitespace loop, `lept_parse_value`
and then, after a success, the trailing phase. -/
theorem parse_of_value {D : Type} (L : Libc D) (v : lept_value D) (json : List Nat)
    (errno : Nat) (h0 : 0 ∈ json) :
    0 ∈ json.dropWhile isspace ∧
    lept_parse L v json errno =
      match lept_parse_value L
          { c := { json := json.dropWhile isspace }, v := { v with type := LEPT_NULL },
            errno := errno } with
      | .error f => .error f
      | .ok (ret, st) => if ret = LEPT_PARSE_OK then lept_parse_trailing st else .ok (ret, st) := by
  obtain ⟨p, hp, hp0⟩ := whitespace_loop_total json h0
  obtain ⟨w, y, Y, hw, hws, rfl, hy⟩ := whitespace_loop_ok json _ hp
  have hd := whitespace_loop_dropWhile json _ hp
  rw [← hd]
  refine ⟨hp0, ?_⟩
  rw [hw, parse_skip_ws L v w _ errno hws]
  exact parse_at_value L v y Y errno hy

/-! ## Numbers too big -/

/-- C11: for every number `N` of the grammar, every run of whitespace `w1` and
every tail `t` that is empty or begins with a whitespace character, `lept_parse`
on `w1 ++ N ++ t` returns, and it returns `LEPT_PARSE_NUMBER_TOO_BIG` if and
only if the conversion overflows: the call of `strtod` with the cursor on `N`
leaves `errno == ERANGE` and yields `HUGE_VAL` or `-HUGE_VAL`.  This is so
whatever follows in `t` (the overflow is reported before the end of the text is
looked for), and a conversion whose value is neither `HUGE_VAL` nor `-HUGE_VAL`
is not reported, whatever it leaves in `errno` (an underflow sets `ERANGE`
too). -/
theorem lept_parse_too_big_iff {D : Type} (L : Libc D) (v : lept_value D) (errno : Nat)
    (w1 N t : List Nat) (hN : is_number N) (hw1 : ∀ x ∈ w1, isspace x = true)
    (ht : ∀ c ∈ t.head?, isspace c = true) :
    ∃ ret st, lept_parse L v (cstr (w1 ++ N ++ t)) errno = .ok (ret, st) ∧
      (ret = LEPT_PARSE_NUMBER_TOO_BIG ↔ strtod_overflows L (cstr (N ++ t)) = true) ∧
      (L.deq (L.strtod (cstr (N ++ t)) 0).1 L.HUGE_VAL = false →
        L.deq (L.strtod (cstr (N ++ t)) 0).1 (L.neg L.HUGE_VAL) = false →
        ret ≠ LEPT_PARSE_NUMBER_TOO_BIG) := by
  obtain ⟨y, Y, hyY, hy⟩ : ∃ y Y, t ++ [0] = y :: Y ∧ (isspace y = true ∨ y = 0) := by
    cases t with
    | nil => exact ⟨0, [], rfl, Or.inr rfl⟩
    | cons x t => exact ⟨x, t ++ [0], by simp, Or.inl (ht x (by simp))⟩
  have hmem : cstr (w1 ++ N ++ t) = w1 ++ (N ++ y :: Y) := by
    simp [cstr, ← hyY]
  have hmem2 : cstr (N ++ t) = N ++ y :: Y := by
    simp [cstr, ← hyY]
  have h0 : 0 ∈ y :: Y := by
    rw [← hyY]
    simp
  rw [hmem, hmem2, parse_skip_ws L v w1 _ errno hw1,
    parse_at_number L v N y Y errno hN (number_stop_of_space y hy)]
  by_cases hb : strtod_overflows L (N ++ y :: Y) = true
  · refine ⟨LEPT_PARSE_NUMBER_TOO_BIG,
      { c := { json := N ++ y :: Y }, v := { v with type := LEPT_NULL },
        errno := (L.strtod (N ++ y :: Y) 0).2 }, by simp [hb], by simp [hb], ?_⟩
    intro h1 h2
    simp [strtod_overflows, h1, h2] at hb
  · obtain ⟨ret, st', htr, _, _, hcodes⟩ := trailing_total
      ({ c := { json := y :: Y },
         v := { n := (L.strtod (N ++ y :: Y) 0).1, type := LEPT_NUMBER },
         errno := (L.strtod (N ++ y :: Y) 0).2 } : State D) h0
    have hne : ret ≠ LEPT_PARSE_NUMBER_TOO_BIG := by
      rcases hcodes with ⟨h1, _⟩ | ⟨h1, _⟩ <;> simp [h1]
    refine ⟨ret, st', by simp only [hb]; exact htr, ?_, fun _ _ => hne⟩
    constructor
    · intro h
      exact absurd h hne
    · intro h
      exact absurd h hb

/-- Witness of C11 on the text ` 1e400 x`: the number `1e400`, then whitespace
and further text. -/
theorem lept_parse_too_big_iff_witness :
    ∃ ret st, lept_parse libc ⟨Dbl.fin false 0 10 0, LEPT_TRUE⟩
        (cstr (str " " ++ str "1e400" ++ str " x")) 0 = .ok (ret, st) ∧
      (ret = LEPT_PARSE_NUMBER_TOO_BIG ↔
        strtod_overflows libc (cstr (str "1e400" ++ str " x")) = true) ∧
      (libc.deq (libc.strtod (cstr (str "1e400" ++ str " x")) 0).1 libc.HUGE_VAL = false →
        libc.deq (libc.strtod (cstr (str "1e400" ++ str " x")) 0).1
            (libc.neg libc.HUGE_VAL) = false →
        ret ≠ LEPT_PARSE_NUMBER_TOO_BIG) :=
  lept_parse_too_big_iff libc ⟨Dbl.fin false 0 10 0, LEPT_TRUE⟩ 0 (str " ") (str "1e400")
    (str " x")
    ⟨[], str "1", [], str "e400", rfl, Or.inl rfl, Or.inr ⟨49, [], rfl, by decide, by simp⟩,
      Or.inl rfl, Or.inr ⟨101, [], str "400", rfl, Or.inl rfl, Or.inl rfl, by decide, by decide⟩⟩
    (by decide) (by decide)

/-- The text `1e400` overflows and is reported, also before further text; the
text `1e-400` underflows (`errno` is `ERANGE` afterwards) and is accepted. -/
theorem lept_parse_too_big_examples :
    lept_parse libc ⟨Dbl.fin false 0 10 0, LEPT_TRUE⟩ (cstr (str "1e400")) 0 =
      .ok (LEPT_PARSE_NUMBER_TOO_BIG,
        ⟨⟨cstr (str "1e400")⟩, ⟨Dbl.fin false 0 10 0, LEPT_NULL⟩, 34⟩) ∧
    lept_parse libc ⟨Dbl.fin false 0 10 0, LEPT_TRUE⟩ (cstr (str "1e400 x")) 0 =
      .ok (LEPT_PARSE_NUMBER_TOO_BIG,
        ⟨⟨cstr (str "1e400 x")⟩, ⟨Dbl.fin false 0 10 0, LEPT_NULL⟩, 34⟩) ∧
    lept_parse libc ⟨Dbl.fin false 0 10 0, LEPT_TRUE⟩ (cstr (str "1e-400")) 0 =
      .ok (LEPT_PARSE_OK, ⟨⟨[0]⟩, ⟨Dbl.fin false 1 10 (-400), LEPT_NUMBER⟩, 34⟩) := by
  refine ⟨by decide!, by decide!, by decide!⟩

/-! ## The stored number -/

/-- The library `libc` returns an infinity only on an overflow, with `errno`
set to `ERANGE`. -/
theorem strtod_round_inf (neg : Bool) (m b : Nat) (e : Int) (errno : Nat) (d : Dbl)
    (h : Dbl.deq (strtod_round neg m b e errno).1 d = true) (hd : d = Dbl.inf false ∨ d = Dbl.inf true) :
    (strtod_round neg m b e errno).2 = 34 := by
  unfold strtod_round at h ⊢
  by_cases ho : Dbl.overflows m b e = true
  · simp [ho]
  · by_cases hu : Dbl.underflows m b e = true
    · simp [ho, hu]
    · rcases hd with rfl | rfl <;> simp [ho, hu, Dbl.deq] at h

/-- The shape of what `strtod` returns: a rounded magnitude, or zero with
`errno` as it was when nothing converts. -/
theorem strtod_shape (nptr : List Nat) (errno : Nat) :
    (∃ neg m b e, strtod nptr errno = strtod_round neg m b e errno) ∨
      strtod nptr errno = (Dbl.fin false 0 10 0, errno) := by
  unfold strtod
  dsimp only
  split
  · rename_i m e _
    exact Or.inl ⟨_, m, 2, e, rfl⟩
  · split
    · rename_i m e _
      exact Or.inl ⟨_, m, 10, e, rfl⟩
    · exact Or.inr rfl

theorem strtod_inf (nptr : List Nat) (errno : Nat) (d : Dbl)
    (h : Dbl.deq (strtod nptr errno).1 d = true) (hd : d = Dbl.inf false ∨ d = Dbl.inf true) :
    (strtod nptr errno).2 = 34 := by
  rcases strtod_shape nptr errno with ⟨neg, m, b, e, heq⟩ | heq
  · rw [heq] at h ⊢
    exact strtod_round_inf neg m b e errno d h hd
  · rw [heq] at h
    rcases hd with rfl | rfl <;> simp [Dbl.deq] at h

/-- The library `libc` reports every infinity it returns through `errno`. -/
theorem libc_inf_erange (json : List Nat)
    (h : libc.deq (libc.strtod json 0).1 libc.HUGE_VAL = true ∨
      libc.deq (libc.strtod json 0).1 (libc.neg libc.HUGE_VAL) = true) :
    (libc.strtod json 0).2 = libc.ERANGE := by
  rcases h with h | h
  · exact strtod_inf json 0 (Dbl.inf false) h (Or.inl rfl)
  · exact strtod_inf json 0 (Dbl.inf true) h (Or.inr rfl)

/-- What a run of `lept_parse` has stored when it returns `LEPT_PARSE_OK` with a
value of type `LEPT_NUMBER`: the result of `strtod` on a text the validation
accepted, for which line 80's test was false. -/
theorem parse_ok_number_stored {D : Type} (L : Libc D) (v : lept_value D) (s : List Nat)
    (errno : Nat) (st : State D)
    (h : lept_parse L v (cstr s) errno = .ok (LEPT_PARSE_OK, st))
    (hty : st.v.type = LEPT_NUMBER) :
    ∃ json q, lept_parse_number_validate json = .ok (some q) ∧
      st.v.n = (L.strtod json 0).1 ∧ strtod_overflows L json = false := by
  obtain ⟨hp0, hparse⟩ := parse_of_value L v (cstr s) errno (mem_cstr s)
  obtain ⟨ret2, st2, hv, hst0, hcases⟩ := value_cases L
    { c := { json := (cstr s).dropWhile isspace }, v := { v with type := LEPT_NULL },
      errno := errno } hp0
  rw [hparse, hv] at h
  simp only at h
  have key : ret2 = LEPT_PARSE_OK ∧ st.v = st2.v := by
    by_cases hret : ret2 = LEPT_PARSE_OK
    · simp only [hret, if_true] at h
      obtain ⟨ret3, st3, htr, _, _, hcodes⟩ := trailing_total st2 hst0
      rw [htr] at h
      simp at h
      rcases hcodes with ⟨h1, h2⟩ | ⟨h1, h2⟩
      · rw [← h.2, h2]
        exact ⟨hret, rfl⟩
      · rw [h1] at h
        simp at h
    · simp [hret] at h
  obtain ⟨hret, hvv⟩ := key
  rw [hvv] at hty ⊢
  rcases hcases with ⟨h1, _⟩ | ⟨_, h2, _⟩ | ⟨h1, _⟩ | ⟨h1, _⟩ | ⟨_, h2, _, h4, h5⟩
  · rw [h1] at hret
    simp at hret
  · exact absurd hty h2
  · rw [h1] at hret
    simp at hret
  · rw [h1] at hret
    simp at hret
  · exact ⟨_, _, h5, by rw [h2], h4⟩

/-- C15: when the library reports, on the texts that start with a number of
the grammar, every `HUGE_VAL` and `-HUGE_VAL` it returns through
`errno == ERANGE` (as the C standard has `strtod` do on overflow), a run of
`lept_parse` that returns `LEPT_PARSE_OK` with a value of type `LEPT_NUMBER` has
stored a number that is neither `HUGE_VAL` nor `-HUGE_VAL`: no infinity is
stored. -/
theorem lept_parse_number_finite {D : Type} (L : Libc D) (v : lept_value D) (s : List Nat)
    (errno : Nat) (st : State D)
    (hL : ∀ json q, lept_parse_number_validate json = .ok (some q) →
      L.deq (L.strtod json 0).1 L.HUGE_VAL = true ∨
        L.deq (L.strtod json 0).1 (L.neg L.HUGE_VAL) = true →
      (L.strtod json 0).2 = L.ERANGE)
    (h : lept_parse L v (cstr s) errno = .ok (LEPT_PARSE_OK, st))
    (hty : st.v.type = LEPT_NUMBER) :
    L.deq st.v.n L.HUGE_VAL = false ∧ L.deq st.v.n (L.neg L.HUGE_VAL) = false := by
  obtain ⟨json, q, hval, hn, hov⟩ := parse_ok_number_stored L v s errno st h hty
  have hnot := hL json q hval
  rw [hn]
  simp only [strtod_overflows, Bool.and_eq_false_iff, Bool.or_eq_false_iff,
    decide_eq_false_iff_not] at hov
  rcases hov with h4 | h4
  · constructor
    · by_contra hc
      exact h4 (hnot (Or.inl (by simpa using hc)))
    · by_contra hc
      exact h4 (hnot (Or.inr (by simpa using hc)))
  · exact h4

/-- Witness of C15 on the text ` 1e10 `, with the library `libc`. -/
theorem lept_parse_number_finite_witness :
    libc.deq (Dbl.fin false 1 10 10) libc.HUGE_VAL = false ∧
      libc.deq (Dbl.fin false 1 10 10) (libc.neg libc.HUGE_VAL) = false :=
  lept_parse_number_finite libc ⟨Dbl.fin false 0 10 0, LEPT_TRUE⟩ (str " 1e10 ") 0
    ⟨⟨[0]⟩, ⟨Dbl.fin false 1 10 10, LEPT_NUMBER⟩, 0⟩
    (fun json _ _ h => libc_inf_erange json h) (by decide!) rfl

/-- With the library `libc`, for every text: a run of `lept_parse` that returns
`LEPT_PARSE_OK` with a value of type `LEPT_NUMBER` has stored a finite number. -/
theorem lept_parse_libc_finite (v : lept_value Dbl) (s : List Nat) (errno : Nat)
    (st : State Dbl) (h : lept_parse libc v (cstr s) errno = .ok (LEPT_PARSE_OK, st))
    (hty : st.v.type = LEPT_NUMBER) :
    ∃ neg m b e, st.v.n = Dbl.fin neg m b e := by
  obtain ⟨json, q, _, hn, hov⟩ := parse_ok_number_stored libc v s errno st h hty
  cases hd : st.v.n with
  | fin neg m b e => exact ⟨neg, m, b, e, rfl⟩
  | inf neg =>
    exfalso
    rw [hn] at hd
    have hdeq : libc.deq (libc.strtod json 0).1 libc.HUGE_VAL = true ∨
        libc.deq (libc.strtod json 0).1 (libc.neg libc.HUGE_VAL) = true := by
      rw [hd]
      cases neg <;> simp [libc, Dbl.deq, Dbl.neg]
    have he := libc_inf_erange json hdeq
    simp only [strtod_overflows, Bool.and_eq_false_iff, Bool.or_eq_false_iff,
      decide_eq_false_iff_not] at hov
    rcases hov with h4 | h4
    · exact h4 he
    · rcases hdeq with h5 | h5
      · rw [h4.1] at h5
        simp at h5
      · rw [h4.2] at h5
        simp at h5

/-! ## The global `errno` -/

/-- On NUL-terminated memory `lept_parse_value` returns, and what it leaves in
`errno` goes by the validation of a number at the cursor.  When the validation
accepts (the text then starts with `-` or a digit, and line 78 is reached),
`errno` is what `strtod`, entered with `errno = 0`, left there; when it does not
(a literal, the NUL and a rejected number), `errno` is as it was. -/
theorem value_errno {D : Type} (L : Libc D) (st : State D) (h0 : 0 ∈ st.c.json) :
    ∃ ret st', lept_parse_value L st = .ok (ret, st') ∧ 0 ∈ st'.c.json ∧
      (((∃ q, lept_parse_number_validate st.c.json = .ok (some q)) ∧
          st'.errno = (L.strtod st.c.json 0).2 ∧
          ((ret = LEPT_PARSE_NUMBER_TOO_BIG ∧ strtod_overflows L st.c.json = true) ∨
            (ret = LEPT_PARSE_OK ∧ st'.v.type = LEPT_NUMBER ∧
              strtod_overflows L st.c.json = false))) ∨
        ((∀ q, lept_parse_number_validate st.c.json ≠ .ok (some q)) ∧
          st'.errno = st.errno ∧
          (ret = LEPT_PARSE_EXPECT_VALUE ∨ ret = LEPT_PARSE_INVALID_VALUE ∨
            (ret = LEPT_PARSE_OK ∧ st'.v.type ≠ LEPT_NUMBER)))) := by
  have lit : ∀ (l0 : Nat) (lit : List Nat) (ty : lept_type) (rest : List Nat),
      st.c.json = l0 :: rest → l0 ≠ 0 → l0 ≠ '-'.toNat → ¬ is_digit l0 → ty ≠ LEPT_NUMBER →
      lept_parse_value L st = lept_parse_literal st (l0 :: (lit ++ [0])) ty →
      ∃ ret st', lept_parse_value L st = .ok (ret, st') ∧ 0 ∈ st'.c.json ∧
        (((∃ q, lept_parse_number_validate st.c.json = .ok (some q)) ∧
            st'.errno = (L.strtod st.c.json 0).2 ∧
            ((ret = LEPT_PARSE_NUMBER_TOO_BIG ∧ strtod_overflows L st.c.json = true) ∨
              (ret = LEPT_PARSE_OK ∧ st'.v.type = LEPT_NUMBER ∧
                strtod_overflows L st.c.json = false))) ∨
          ((∀ q, lept_parse_number_validate st.c.json ≠ .ok (some q)) ∧
            st'.errno = st.errno ∧
            (ret = LEPT_PARSE_EXPECT_VALUE ∨ ret = LEPT_PARSE_INVALID_VALUE ∨
              (ret = LEPT_PARSE_OK ∧ st'.v.type ≠ LEPT_NUMBER)))) := by
    intro l0 lit ty rest hj hl0 hm hd hty heq
    obtain ⟨ret, st', h, hmem, he, hv⟩ := literal_total st l0 lit ty rest hj hl0 h0
    have hrej : ∀ q, lept_parse_number_validate st.c.json ≠ .ok (some q) := by
      intro q hq
      rw [hj, validate_reject_head l0 rest hm hd] at hq
      simp at hq
    refine ⟨ret, st', by rw [heq, h], hmem, Or.inr ⟨hrej, he, ?_⟩⟩
    rcases hv with ⟨h1, h2⟩ | ⟨h1, _⟩
    · exact Or.inr (Or.inr ⟨h1, by rw [h2]; exact hty⟩)
    · exact Or.inr (Or.inl h1)
  cases hj : st.c.json with
  | nil => simp [hj] at h0
  | cons ch rest =>
    rw [← hj]
    by_cases ht : ch = 116
    · subst ht
      exact lit 116 [114, 117, 101] LEPT_TRUE rest hj (by decide) (by decide)
        (by simp [is_digit]) (by decide) (value_of_t L st rest hj)
    by_cases hf : ch = 102
    · subst hf
      exact lit 102 [97, 108, 115, 101] LEPT_FALSE rest hj (by decide) (by decide)
        (by simp [is_digit]) (by decide) (value_of_f L st rest hj)
    by_cases hn : ch = 110
    · subst hn
      exact lit 110 [117, 108, 108] LEPT_NULL rest hj (by decide) (by decide)
        (by simp [is_digit]) (by decide) (value_of_n L st rest hj)
    by_cases hz : ch = 0
    · subst hz
      have hrej : ∀ q, lept_parse_number_validate st.c.json ≠ .ok (some q) := by
        intro q hq
        rw [hj, validate_reject_head 0 rest (by decide) (by simp [is_digit])] at hq
        simp at hq
      exact ⟨LEPT_PARSE_EXPECT_VALUE, st, value_of_nul L st rest hj, h0,
        Or.inr ⟨hrej, rfl, Or.inl rfl⟩⟩
    · have hnum := value_of_other L st ch rest hj (by simpa using ht) (by simpa using hf)
        (by simpa using hn) hz
      obtain ⟨r, hr, hq⟩ := validate_total st.c.json h0
      cases r with
      | none =>
        have hrej : ∀ q, lept_parse_number_validate st.c.json ≠ .ok (some q) := by
          intro q hq
          rw [hr] at hq
          simp at hq
        exact ⟨LEPT_PARSE_INVALID_VALUE, st, by rw [hnum, number_of_invalid L st hr], h0,
          Or.inr ⟨hrej, rfl, Or.inr (Or.inl rfl)⟩⟩
      | some q =>
        by_cases hb : strtod_overflows L st.c.json = true
        · exact ⟨LEPT_PARSE_NUMBER_TOO_BIG, { st with errno := (L.strtod st.c.json 0).2 },
            by simp [hnum, number_of_validate L st q hr, hb], h0,
            Or.inl ⟨⟨q, hr⟩, rfl, Or.inl ⟨rfl, hb⟩⟩⟩
        · exact ⟨LEPT_PARSE_OK,
            { c := { json := q },
              v := { n := (L.strtod st.c.json 0).1, type := LEPT_NUMBER },
              errno := (L.strtod st.c.json 0).2 },
            by simp [hnum, number_of_validate L st q hr, hb], hq q rfl,
            Or.inl ⟨⟨q, hr⟩, rfl, Or.inr ⟨rfl, rfl, by simpa using hb⟩⟩⟩

/-- C16, as amended: `errno` is the one global that a call of `lept_parse`
writes, and what the call leaves there goes by the validation of a number at
the first character that is no whitespace.  For every text the run returns.
When the validation accepts a span (line 78 is reached: `errno = 0`, then
`strtod`), `errno` is afterwards what `strtod`, entered with `errno = 0`, left
there, whatever the code returned: `LEPT_PARSE_NUMBER_TOO_BIG` (then it is
`ERANGE`), `LEPT_PARSE_OK` with a number, or `LEPT_PARSE_ROOT_NOT_SINGULAR`.
When the validation accepts nothing (the conversion is not reached), `errno` is
as it was on entry, whatever the code returned: `LEPT_PARSE_EXPECT_VALUE`,
`LEPT_PARSE_INVALID_VALUE`, `LEPT_PARSE_OK` with a literal, or
`LEPT_PARSE_ROOT_NOT_SINGULAR`. -/
theorem lept_parse_errno {D : Type} (L : Libc D) (v : lept_value D) (s : List Nat)
    (errno : Nat) :
    ∃ ret st, lept_parse L v (cstr s) errno = .ok (ret, st) ∧
      ((∃ q, lept_parse_number_validate ((cstr s).dropWhile isspace) = .ok (some q)) →
        st.errno = (L.strtod ((cstr s).dropWhile isspace) 0).2 ∧
          (ret = LEPT_PARSE_NUMBER_TOO_BIG ∨ (ret = LEPT_PARSE_OK ∧ st.v.type = LEPT_NUMBER) ∨
            ret = LEPT_PARSE_ROOT_NOT_SINGULAR)) ∧
      ((∀ q, lept_parse_number_validate ((cstr s).dropWhile isspace) ≠ .ok (some q)) →
        st.errno = errno ∧
          (ret = LEPT_PARSE_EXPECT_VALUE ∨ ret = LEPT_PARSE_INVALID_VALUE ∨
            (ret = LEPT_PARSE_OK ∧ st.v.type ≠ LEPT_NUMBER) ∨
            ret = LEPT_PARSE_ROOT_NOT_SINGULAR)) ∧
      (ret = LEPT_PARSE_EXPECT_VALUE ∨ ret = LEPT_PARSE_INVALID_VALUE ∨
          (ret = LEPT_PARSE_OK ∧ st.v.type ≠ LEPT_NUMBER) → st.errno = errno) ∧
      (ret = LEPT_PARSE_NUMBER_TOO_BIG ∨ (ret = LEPT_PARSE_OK ∧ st.v.type = LEPT_NUMBER) →
        st.errno = (L.strtod ((cstr s).dropWhile isspace) 0).2) ∧
      (ret = LEPT_PARSE_NUMBER_TOO_BIG → st.errno = L.ERANGE) := by
  obtain ⟨hp0, hparse⟩ := parse_of_value L v (cstr s) errno (mem_cstr s)
  obtain ⟨ret2, st2, hv, hst0, hcases⟩ := value_errno L
    { c := { json := (cstr s).dropWhile isspace }, v := { v with type := LEPT_NULL },
      errno := errno } hp0
  simp only at hcases
  rw [hparse, hv]
  simp only
  have herange : strtod_overflows L ((cstr s).dropWhile isspace) = true →
      (L.strtod ((cstr s).dropWhile isspace) 0).2 = L.ERANGE := by
    intro h
    simp [strtod_overflows] at h
    exact h.1
  by_cases hret : ret2 = LEPT_PARSE_OK
  · obtain ⟨ret3, st3, htr, _, he3, hcodes⟩ := trailing_total st2 hst0
    refine ⟨ret3, st3, by simp only [hret, if_true]; exact htr, ?_⟩
    rw [he3]
    rcases hcases with ⟨hacc, he, hr⟩ | ⟨hrej, he, hr⟩
    · have hty2 : st2.v.type = LEPT_NUMBER := by
        rcases hr with ⟨h1, _⟩ | ⟨_, h2, _⟩
        · rw [h1] at hret
          simp at hret
        · exact h2
      refine ⟨fun _ => ⟨he, ?_⟩, ?_, ?_, fun _ => he, ?_⟩
      · rcases hcodes with ⟨h4, h5⟩ | ⟨h4, _⟩
        · exact Or.inr (Or.inl ⟨h4, by rw [h5]; exact hty2⟩)
        · exact Or.inr (Or.inr h4)
      · intro h
        obtain ⟨q, hq⟩ := hacc
        exact absurd hq (h q)
      · rintro (h | h | ⟨h, hty⟩)
        · rcases hcodes with ⟨h4, _⟩ | ⟨h4, _⟩ <;> rw [h4] at h <;> simp at h
        · rcases hcodes with ⟨h4, _⟩ | ⟨h4, _⟩ <;> rw [h4] at h <;> simp at h
        · rcases hcodes with ⟨_, h5⟩ | ⟨h4, _⟩
          · rw [h5] at hty
            exact absurd hty2 hty
          · rw [h4] at h
            simp at h
      · intro h
        rcases hcodes with ⟨h4, _⟩ | ⟨h4, _⟩ <;> rw [h4] at h <;> simp at h
    · have hty2 : st2.v.type ≠ LEPT_NUMBER := by
        rcases hr with h1 | h1 | ⟨_, h2⟩
        · rw [h1] at hret
          simp at hret
        · rw [h1] at hret
          simp at hret
        · exact h2
      refine ⟨?_, fun _ => ⟨he, ?_⟩, fun _ => he, ?_, ?_⟩
      · rintro ⟨q, hq⟩
        exact absurd hq (hrej q)
      · rcases hcodes with ⟨h4, h5⟩ | ⟨h4, _⟩
        · exact Or.inr (Or.inr (Or.inl ⟨h4, by rw [h5]; exact hty2⟩))
        · exact Or.inr (Or.inr (Or.inr h4))
      · rintro (h | ⟨h, hty⟩)
        · rcases hcodes with ⟨h4, _⟩ | ⟨h4, _⟩ <;> rw [h4] at h <;> simp at h
        · rcases hcodes with ⟨_, h5⟩ | ⟨h4, _⟩
          · rw [h5] at hty
            exact absurd hty hty2
          · rw [h4] at h
            simp at h
      · intro h
        rcases hcodes with ⟨h4, _⟩ | ⟨h4, _⟩ <;> rw [h4] at h <;> simp at h
  · refine ⟨ret2, st2, by simp only [hret, if_false], ?_⟩
    rcases hcases with ⟨hacc, he, hr⟩ | ⟨hrej, he, hr⟩
    · have h1 : ret2 = LEPT_PARSE_NUMBER_TOO_BIG ∧
          strtod_overflows L ((cstr s).dropWhile isspace) = true := by
        rcases hr with h | ⟨h, _⟩
        · exact h
        · exact absurd h hret
      refine ⟨fun _ => ⟨he, Or.inl h1.1⟩, ?_, ?_, fun _ => he, fun _ => ?_⟩
      · intro h
        obtain ⟨q, hq⟩ := hacc
        exact absurd hq (h q)
      · rw [h1.1]
        simp
      · rw [he]
        exact herange h1.2
    · have h1 : ret2 = LEPT_PARSE_EXPECT_VALUE ∨ ret2 = LEPT_PARSE_INVALID_VALUE := by
        rcases hr with h | h | ⟨h, _⟩
        · exact Or.inl h
        · exact Or.inr h
        · exact absurd h hret
      refine ⟨?_, fun _ => ⟨he, ?_⟩, fun _ => he, ?_, ?_⟩
      · rintro ⟨q, hq⟩
        exact absurd hq (hrej q)
      · rcases h1 with h | h
        · exact Or.inl h
        · exact Or.inr (Or.inl h)
      · rcases h1 with h | h <;> rw [h] <;> simp
      · rcases h1 with h | h <;> rw [h] <;> simp

/-- Counterexample to C16 as stated: on the text `1`, entered with `errno = 5`,
`lept_parse` returns `LEPT_PARSE_OK` and `errno` is `0` afterwards. -/
theorem lept_parse_errno_counterexample :
    lept_parse libc ⟨Dbl.fin false 0 10 0, LEPT_NULL⟩ (cstr (str "1")) 5 =
        .ok (LEPT_PARSE_OK, ⟨⟨[0]⟩, ⟨Dbl.fin false 1 10 0, LEPT_NUMBER⟩, 0⟩) ∧
      (⟨⟨[0]⟩, ⟨Dbl.fin false 1 10 0, LEPT_NUMBER⟩, 0⟩ : State Dbl).errno ≠ 5 := by
  refine ⟨by decide!, by decide⟩

/-- The two ways to `LEPT_PARSE_ROOT_NOT_SINGULAR`, entered with `errno = 5`:
after the literal of `true x` the conversion was not reached and `errno` is
still `5`; after the number of `1 2` it was and `errno` is `0`. -/
theorem lept_parse_errno_examples :
    lept_parse libc ⟨Dbl.fin false 0 10 0, LEPT_NULL⟩ (cstr (str "true x")) 5 =
        .ok (LEPT_PARSE_ROOT_NOT_SINGULAR,
          ⟨⟨cstr (str "x")⟩, ⟨Dbl.fin false 0 10 0, LEPT_NULL⟩, 5⟩) ∧
      lept_parse libc ⟨Dbl.fin false 0 10 0, LEPT_NULL⟩ (cstr (str "1 2")) 5 =
        .ok (LEPT_PARSE_ROOT_NOT_SINGULAR,
          ⟨⟨cstr (str "2")⟩, ⟨Dbl.fin false 1 10 0, LEPT_NULL⟩, 0⟩) := by
  refine ⟨by decide!, by decide!⟩

/-! ## The conversion reads on after the validated span -/

/-- C12, at the failing input `0123e999`: the validation accepts the span `0`
and stops on `123e999`; the conversion of `0` is the finite `0.0`, with no
overflow; yet `strtod`, called on the whole text, converts `0123e999`, which
overflows, and `lept_parse` returns `LEPT_PARSE_NUMBER_TOO_BIG`. -/
theorem lept_parse_too_big_finite_span :
    lept_parse_number_validate (cstr (str "0123e999")) = .ok (some (cstr (str "123e999"))) ∧
    libc.strtod (cstr (str "0")) 0 = (Dbl.fin false 0 10 0, 0) ∧
    strtod_overflows libc (cstr (str "0")) = false ∧
    libc.strtod (cstr (str "0123e999")) 0 = (Dbl.inf false, 34) ∧
    lept_parse libc ⟨Dbl.fin false 0 10 0, LEPT_NULL⟩ (cstr (str "0123e999")) 0 =
      .ok (LEPT_PARSE_NUMBER_TOO_BIG,
        ⟨⟨cstr (str "0123e999")⟩, ⟨Dbl.fin false 0 10 0, LEPT_NULL⟩, 34⟩) := by
  refine ⟨by decide, by decide!, by decide!, by decide!, by decide!⟩

/-- C17, at the failing input `0123`: the validation accepts the span `0` (the
cursor advances by one character, onto `123`), and the number stored is `123`,
the conversion of the four characters `0123`, not the `0.0` that the span `0`
converts to. -/
theorem lept_parse_number_converts_more :
    lept_parse_number_validate (cstr (str "0123")) = .ok (some (cstr (str "123"))) ∧
    libc.strtod (cstr (str "0")) 0 = (Dbl.fin false 0 10 0, 0) ∧
    libc.strtod (cstr (str "0123")) 0 = (Dbl.fin false 123 10 0, 0) ∧
    lept_parse_number libc ⟨⟨cstr (str "0123")⟩, ⟨Dbl.fin false 0 10 0, LEPT_NULL⟩, 0⟩ =
      .ok (LEPT_PARSE_OK,
        ⟨⟨cstr (str "123")⟩, ⟨Dbl.fin false 123 10 0, LEPT_NUMBER⟩, 0⟩) := by
  refine ⟨by decide, by decide!, by decide!, by decide!⟩

/-! ## What follows the text does not matter, as long as it starts like an end -/

theorem inert_head (T : List Nat) (h : inert T) :
    ∃ y Y, T = y :: Y ∧ ISDIGIT y = false ∧ ISDIGIT1TO9 y = false ∧ y ≠ 45 ∧ y ≠ 43 ∧
      y ≠ 46 ∧ y ≠ 101 ∧ y ≠ 69 ∧ y ≠ 48 := by
  obtain ⟨y, Y, hT, hy⟩ := h
  refine ⟨y, Y, hT, ?_⟩
  simp [isspace] at hy
  simp [ISDIGIT, ISDIGIT1TO9]
  omega

theorem inert_cstr_ws (w : List Nat) (hw : ∀ x ∈ w, isspace x = true) : inert (w ++ [0]) := by
  cases w with
  | nil => exact ⟨0, [], rfl, Or.inr rfl⟩
  | cons x w => exact ⟨x, w ++ [0], by simp, Or.inl (hw x (by simp))⟩

theorem digits_tail (a T1 T2 : List Nat) (h1 : inert T1) (h2 : inert T2) :
    ∃ b, lept_parse_number_digits (a ++ T1) = .ok (b ++ T1) ∧
      lept_parse_number_digits (a ++ T2) = .ok (b ++ T2) := by
  induction a with
  | nil =>
    obtain ⟨y1, Y1, rfl, hd1, _⟩ := inert_head T1 h1
    obtain ⟨y2, Y2, rfl, hd2, _⟩ := inert_head T2 h2
    exact ⟨[], by simp [lept_parse_number_digits, hd1], by simp [lept_parse_number_digits, hd2]⟩
  | cons x a ih =>
    by_cases hx : ISDIGIT x = true
    · obtain ⟨b, hb1, hb2⟩ := ih
      exact ⟨b, by simp [lept_parse_number_digits, hx, hb1],
        by simp [lept_parse_number_digits, hx, hb2]⟩
    · exact ⟨x :: a, by simp [lept_parse_number_digits, hx],
        by simp [lept_parse_number_digits, hx]⟩

theorem digits1_tail (a T1 T2 : List Nat) (h1 : inert T1) (h2 : inert T2) :
    ∃ r : Option (List Nat),
      lept_parse_number_digits1 (a ++ T1) = .ok (r.map (fun b => b ++ T1)) ∧
      lept_parse_number_digits1 (a ++ T2) = .ok (r.map (fun b => b ++ T2)) := by
  cases a with
  | nil =>
    obtain ⟨y1, Y1, rfl, hd1, _⟩ := inert_head T1 h1
    obtain ⟨y2, Y2, rfl, hd2, _⟩ := inert_head T2 h2
    exact ⟨none, by simp [lept_parse_number_digits1, hd1],
      by simp [lept_parse_number_digits1, hd2]⟩
  | cons x a =>
    by_cases hx : ISDIGIT x = true
    · obtain ⟨b, hb1, hb2⟩ := digits_tail a T1 T2 h1 h2
      exact ⟨some b, by simp [lept_parse_number_digits1, hx, hb1],
        by simp [lept_parse_number_digits1, hx, hb2]⟩
    · exact ⟨none, by simp [lept_parse_number_digits1, hx],
        by simp [lept_parse_number_digits1, hx]⟩

theorem negative_tail (a T1 T2 : List Nat) (h1 : inert T1) (h2 : inert T2) :
    ∃ b, lept_parse_number_negative (a ++ T1) = .ok (b ++ T1) ∧
      lept_parse_number_negative (a ++ T2) = .ok (b ++ T2) := by
  cases a with
  | nil =>
    obtain ⟨y1, Y1, rfl, _, _, hm1, _⟩ := inert_head T1 h1
    obtain ⟨y2, Y2, rfl, _, _, hm2, _⟩ := inert_head T2 h2
    exact ⟨[], by simp [lept_parse_number_negative, hm1],
      by simp [lept_parse_number_negative, hm2]⟩
  | cons x a =>
    by_cases hx : x = 45
    · exact ⟨a, by simp [lept_parse_number_negative, hx],
        by simp [lept_parse_number_negative, hx]⟩
    · exact ⟨x :: a, by simp [lept_parse_number_negative, hx],
        by simp [lept_parse_number_negative, hx]⟩

theorem int_tail (a T1 T2 : List Nat) (h1 : inert T1) (h2 : inert T2) :
    ∃ r : Option (List Nat),
      lept_parse_number_int (a ++ T1) = .ok (r.map (fun b => b ++ T1)) ∧
      lept_parse_number_int (a ++ T2) = .ok (r.map (fun b => b ++ T2)) := by
  cases a with
  | nil =>
    obtain ⟨y1, Y1, rfl, _, hd1, _, _, _, _, _, hz1⟩ := inert_head T1 h1
    obtain ⟨y2, Y2, rfl, _, hd2, _, _, _, _, _, hz2⟩ := inert_head T2 h2
    exact ⟨none, by simp [lept_parse_number_int, hd1, hz1],
      by simp [lept_parse_number_int, hd2, hz2]⟩
  | cons x a =>
    by_cases hx : x = 48
    · exact ⟨some a, by simp [lept_parse_number_int, hx], by simp [lept_parse_number_int, hx]⟩
    · by_cases h19 : ISDIGIT1TO9 x = true
      · obtain ⟨b, hb1, hb2⟩ := digits_tail a T1 T2 h1 h2
        exact ⟨some b, by simp [lept_parse_number_int, hx, h19, hb1],
          by simp [lept_parse_number_int, hx, h19, hb2]⟩
      · exact ⟨none, by simp [lept_parse_number_int, hx, h19],
          by simp [lept_parse_number_int, hx, h19]⟩

theorem frac_tail (a T1 T2 : List Nat) (h1 : inert T1) (h2 : inert T2) :
    ∃ r : Option (List Nat),
      lept_parse_number_frac (a ++ T1) = .ok (r.map (fun b => b ++ T1)) ∧
      lept_parse_number_frac (a ++ T2) = .ok (r.map (fun b => b ++ T2)) := by
  cases a with
  | nil =>
    obtain ⟨y1, Y1, rfl, _, _, _, _, hp1, _⟩ := inert_head T1 h1
    obtain ⟨y2, Y2, rfl, _, _, _, _, hp2, _⟩ := inert_head T2 h2
    exact ⟨some [], by simp [lept_parse_number_frac, hp1],
      by simp [lept_parse_number_frac, hp2]⟩
  | cons x a =>
    by_cases hx : x = 46
    · obtain ⟨r, hr1, hr2⟩ := digits1_tail a T1 T2 h1 h2
      exact ⟨r, by simp [lept_parse_number_frac, hx, hr1],
        by simp [lept_parse_number_frac, hx, hr2]⟩
    · exact ⟨some (x :: a), by simp [lept_parse_number_frac, hx],
        by simp [lept_parse_number_frac, hx]⟩

theorem exp_tail (a T1 T2 : List Nat) (h1 : inert T1) (h2 : inert T2) :
    ∃ r : Option (List Nat),
      lept_parse_number_exp (a ++ T1) = .ok (r.map (fun b => b ++ T1)) ∧
      lept_parse_number_exp (a ++ T2) = .ok (r.map (fun b => b ++ T2)) := by
  cases a with
  | nil =>
    obtain ⟨y1, Y1, rfl, _, _, _, _, _, he1, hE1, _⟩ := inert_head T1 h1
    obtain ⟨y2, Y2, rfl, _, _, _, _, _, he2, hE2, _⟩ := inert_head T2 h2
    exact ⟨some [], by simp [lept_parse_number_exp, he1, hE1],
      by simp [lept_parse_number_exp, he2, hE2]⟩
  | cons x a =>
    by_cases hx : x = 101 ∨ x = 69
    · cases a with
      | nil =>
        obtain ⟨y1, Y1, rfl, hd1, _, hm1, hp1, _⟩ := inert_head T1 h1
        obtain ⟨y2, Y2, rfl, hd2, _, hm2, hp2, _⟩ := inert_head T2 h2
        exact ⟨none,
          by simp [lept_parse_number_exp, hx, hm1, hp1, lept_parse_number_digits1, hd1],
          by simp [lept_parse_number_exp, hx, hm2, hp2, lept_parse_number_digits1, hd2]⟩
      | cons s a =>
        by_cases hs : s = 45 ∨ s = 43
        · obtain ⟨r, hr1, hr2⟩ := digits1_tail a T1 T2 h1 h2
          exact ⟨r, by simp [lept_parse_number_exp, hx, hs, hr1],
            by simp [lept_parse_number_exp, hx, hs, hr2]⟩
        · obtain ⟨r, hr1, hr2⟩ := digits1_tail (s :: a) T1 T2 h1 h2
          simp only [List.cons_append] at hr1 hr2
          exact ⟨r, by simp [lept_parse_number_exp, hx, hs, hr1],
            by simp [lept_parse_number_exp, hx, hs, hr2]⟩
    · exact ⟨some (x :: a), by simp [lept_parse_number_exp, hx],
        by simp [lept_parse_number_exp, hx]⟩

/-- The validation of a number does the same on a text whatever follows it,
whitespace or the NUL. -/
theorem validate_tail (a T1 T2 : List Nat) (h1 : inert T1) (h2 : inert T2) :
    ∃ r : Option (List Nat),
      lept_parse_number_validate (a ++ T1) = .ok (r.map (fun b => b ++ T1)) ∧
      lept_parse_number_validate (a ++ T2) = .ok (r.map (fun b => b ++ T2)) := by
  obtain ⟨b1, hn1, hn2⟩ := negative_tail a T1 T2 h1 h2
  obtain ⟨r2, hi1, hi2⟩ := int_tail b1 T1 T2 h1 h2
  cases r2 with
  | none =>
    exact ⟨none, by simp [lept_parse_number_validate, hn1, hi1],
      by simp [lept_parse_number_validate, hn2, hi2]⟩
  | some b2 =>
    obtain ⟨r3, hf1, hf2⟩ := frac_tail b2 T1 T2 h1 h2
    cases r3 with
    | none =>
      exact ⟨none, by simp [lept_parse_number_validate, hn1, hi1, hf1],
        by simp [lept_parse_number_validate, hn2, hi2, hf2]⟩
    | some b3 =>
      obtain ⟨r4, he1, he2⟩ := exp_tail b3 T1 T2 h1 h2
      exact ⟨r4, by simp [lept_parse_number_validate, hn1, hi1, hf1, he1],
        by simp [lept_parse_number_validate, hn2, hi2, hf2, he2]⟩

theorem literal_loop_tail (lit a T1 T2 : List Nat) (h1 : inert T1) (h2 : inert T2)
    (hlit : ∀ x ∈ lit, isspace x = false ∧ x ≠ 0) :
    ∃ r : Option (List Nat),
      lept_parse_literal_loop (lit ++ [0]) (a ++ T1) = .ok (r.map (fun b => b ++ T1)) ∧
      lept_parse_literal_loop (lit ++ [0]) (a ++ T2) = .ok (r.map (fun b => b ++ T2)) := by
  induction lit generalizing a with
  | nil => exact ⟨some a, by simp [lept_parse_literal_loop], by simp [lept_parse_literal_loop]⟩
  | cons l lit ih =>
    obtain ⟨hl1, hl0⟩ := hlit l (by simp)
    have hlit2 : ∀ x ∈ lit, isspace x = false ∧ x ≠ 0 :=
      fun x hx => hlit x (List.mem_cons_of_mem _ hx)
    cases a with
    | nil =>
      obtain ⟨y1, Y1, rfl, hy1⟩ := h1
      obtain ⟨y2, Y2, rfl, hy2⟩ := h2
      have e1 : y1 ≠ l := by
        rintro rfl
        rcases hy1 with h | h
        · rw [h] at hl1
          simp at hl1
        · exact hl0 h
      have e2 : y2 ≠ l := by
        rintro rfl
        rcases hy2 with h | h
        · rw [h] at hl1
          simp at hl1
        · exact hl0 h
      exact ⟨none, by simp [lept_parse_literal_loop, hl0, e1],
        by simp [lept_parse_literal_loop, hl0, e2]⟩
    | cons x a =>
      by_cases hx : x = l
      · obtain ⟨r, hr1, hr2⟩ := ih a hlit2
        exact ⟨r, by simp [lept_parse_literal_loop, hl0, hx, hr1],
          by simp [lept_parse_literal_loop, hl0, hx, hr2]⟩
      · exact ⟨none, by simp [lept_parse_literal_loop, hl0, hx],
          by simp [lept_parse_literal_loop, hl0, hx]⟩

/-! ## Whitespace around the text -/

theorem literal_tail {D : Type} (v : lept_value D) (e : Nat) (l0 : Nat) (lit a T1 T2 : List Nat)
    (ty : lept_type) (h1 : inert T1) (h2 : inert T2)
    (hlit : ∀ x ∈ lit, isspace x = false ∧ x ≠ 0) :
    ∃ ret b v',
      lept_parse_literal { c := { json := l0 :: (a ++ T1) }, v := v, errno := e }
          (l0 :: (lit ++ [0])) ty =
        .ok (ret, { c := { json := b ++ T1 }, v := v', errno := e }) ∧
      lept_parse_literal { c := { json := l0 :: (a ++ T2) }, v := v, errno := e }
          (l0 :: (lit ++ [0])) ty =
        .ok (ret, { c := { json := b ++ T2 }, v := v', errno := e }) := by
  obtain ⟨r, hr1, hr2⟩ := literal_loop_tail lit a T1 T2 h1 h2 hlit
  cases r with
  | none =>
    exact ⟨LEPT_PARSE_INVALID_VALUE, a, v,
      by simp [lept_parse_literal, EXPECT, hr1], by simp [lept_parse_literal, EXPECT, hr2]⟩
  | some b =>
    exact ⟨LEPT_PARSE_OK, b, { v with type := ty },
      by simp [lept_parse_literal, EXPECT, hr1], by simp [lept_parse_literal, EXPECT, hr2]⟩

/-- The run of `lept_parse_value` on a text does the same whatever follows the
text, whitespace or the NUL, when `strtod` does. -/
theorem value_tail {D : Type} (L : Libc D) (v : lept_value D) (e : Nat) (c0 : Nat)
    (a T1 T2 : List Nat) (h1 : inert T1) (h2 : inert T2)
    (hL : L.strtod (c0 :: (a ++ T2)) 0 = L.strtod (c0 :: (a ++ T1)) 0) :
    ∃ ret b v' e',
      lept_parse_value L { c := { json := c0 :: (a ++ T1) }, v := v, errno := e } =
        .ok (ret, { c := { json := b ++ T1 }, v := v', errno := e' }) ∧
      lept_parse_value L { c := { json := c0 :: (a ++ T2) }, v := v, errno := e } =
        .ok (ret, { c := { json := b ++ T2 }, v := v', errno := e' }) := by
  by_cases ht : c0 = 116
  · subst ht
    obtain ⟨ret, b, v', hb1, hb2⟩ :=
      literal_tail v e 116 [114, 117, 101] a T1 T2 LEPT_TRUE h1 h2 (by decide)
    exact ⟨ret, b, v', e, by rw [value_of_t L _ _ rfl, hb1], by rw [value_of_t L _ _ rfl, hb2]⟩
  by_cases hf : c0 = 102
  · subst hf
    obtain ⟨ret, b, v', hb1, hb2⟩ :=
      literal_tail v e 102 [97, 108, 115, 101] a T1 T2 LEPT_FALSE h1 h2 (by decide)
    exact ⟨ret, b, v', e, by rw [value_of_f L _ _ rfl, hb1], by rw [value_of_f L _ _ rfl, hb2]⟩
  by_cases hn : c0 = 110
  · subst hn
    obtain ⟨ret, b, v', hb1, hb2⟩ :=
      literal_tail v e 110 [117, 108, 108] a T1 T2 LEPT_NULL h1 h2 (by decide)
    exact ⟨ret, b, v', e, by rw [value_of_n L _ _ rfl, hb1], by rw [value_of_n L _ _ rfl, hb2]⟩
  by_cases hz : c0 = 0
  · subst hz
    exact ⟨LEPT_PARSE_EXPECT_VALUE, 0 :: a, v, e, by rw [value_of_nul L _ _ rfl]; rfl,
      by rw [value_of_nul L _ _ rfl]; rfl⟩
  · have hn1 := value_of_other L
      ({ c := { json := c0 :: (a ++ T1) }, v := v, errno := e } : State D) c0 (a ++ T1) rfl
      (by simpa using ht) (by simpa using hf) (by simpa using hn) hz
    have hn2 := value_of_other L
      ({ c := { json := c0 :: (a ++ T2) }, v := v, errno := e } : State D) c0 (a ++ T2) rfl
      (by simpa using ht) (by simpa using hf) (by simpa using hn) hz
    obtain ⟨r, hr1, hr2⟩ := validate_tail (c0 :: a) T1 T2 h1 h2
    simp only [List.cons_append] at hr1 hr2
    cases r with
    | none =>
      simp only [Option.map_none'] at hr1 hr2
      exact ⟨LEPT_PARSE_INVALID_VALUE, c0 :: a, v, e,
        by rw [hn1, number_of_invalid L _ hr1]; rfl,
        by rw [hn2, number_of_invalid L _ hr2]; rfl⟩
    | some b =>
      simp only [Option.map_some'] at hr1 hr2
      have hov : strtod_overflows L (c0 :: (a ++ T2)) = strtod_overflows L (c0 :: (a ++ T1)) := by
        simp only [strtod_overflows, hL]
      by_cases hb : strtod_overflows L (c0 :: (a ++ T1)) = true
      · refine ⟨LEPT_PARSE_NUMBER_TOO_BIG, c0 :: a, v, (L.strtod (c0 :: (a ++ T1)) 0).2, ?_, ?_⟩
        · rw [hn1, number_of_validate L _ _ hr1]
          simp [hb]
        · rw [hn2, number_of_validate L _ _ hr2]
          simp [hov, hb, hL]
      · refine ⟨LEPT_PARSE_OK, b, { n := (L.strtod (c0 :: (a ++ T1)) 0).1, type := LEPT_NUMBER },
          (L.strtod (c0 :: (a ++ T1)) 0).2, ?_, ?_⟩
        · rw [hn1, number_of_validate L _ _ hr1]
          simp [hb]
        · rw [hn2, number_of_validate L _ _ hr2]
          simp [hov, hb, hL]

theorem whitespace_loop_tail (b w2 : List Nat) (hw2 : ∀ x ∈ w2, isspace x = true) :
    ∃ y Y1 Y2, lept_parse_whitespace_loop (b ++ [0]) = .ok (y :: Y1) ∧
      lept_parse_whitespace_loop (b ++ (w2 ++ [0])) = .ok (y :: Y2) := by
  induction b with
  | nil =>
    exact ⟨0, [], [], by simp [lept_parse_whitespace_loop, isspace_zero],
      by rw [List.nil_append, whitespace_loop_append w2 _ hw2]
         simp [lept_parse_whitespace_loop, isspace_zero]⟩
  | cons x b ih =>
    by_cases hx : isspace x = true
    · obtain ⟨y, Y1, Y2, hy1, hy2⟩ := ih
      exact ⟨y, Y1, Y2, by simp [lept_parse_whitespace_loop, hx, hy1],
        by simp [lept_parse_whitespace_loop, hx, hy2]⟩
    · exact ⟨x, b ++ [0], b ++ (w2 ++ [0]), by simp [lept_parse_whitespace_loop, hx],
        by simp [lept_parse_whitespace_loop, hx]⟩

/-- The trailing phase gives the same code and the same value with whitespace
added at the end of the text. -/
theorem trailing_tail {D : Type} (v : lept_value D) (e : Nat) (b w2 : List Nat)
    (hw2 : ∀ x ∈ w2, isspace x = true) :
    ∃ ret st st',
      lept_parse_trailing { c := { json := b ++ [0] }, v := v, errno := e } = .ok (ret, st) ∧
      lept_parse_trailing { c := { json := b ++ (w2 ++ [0]) }, v := v, errno := e } =
        .ok (ret, st') ∧
      st'.v = st.v ∧ st'.errno = st.errno := by
  obtain ⟨y, Y1, Y2, hy1, hy2⟩ := whitespace_loop_tail b w2 hw2
  by_cases hy : y = 0
  · exact ⟨LEPT_PARSE_OK, { c := { json := y :: Y1 }, v := v, errno := e },
      { c := { json := y :: Y2 }, v := v, errno := e },
      by simp [lept_parse_trailing, lept_parse_whitespace, hy1, hy],
      by simp [lept_parse_trailing, lept_parse_whitespace, hy2, hy], rfl, rfl⟩
  · exact ⟨LEPT_PARSE_ROOT_NOT_SINGULAR,
      { c := { json := y :: Y1 }, v := { v with type := LEPT_NULL }, errno := e },
      { c := { json := y :: Y2 }, v := { v with type := LEPT_NULL }, errno := e },
      by simp [lept_parse_trailing, lept_parse_whitespace, hy1, hy],
      by simp [lept_parse_trailing, lept_parse_whitespace, hy2, hy], rfl, rfl⟩

/-- The text after its leading whitespace is empty or starts with a character
that is no whitespace. -/
theorem dropWhile_isspace_head (s : List Nat) :
    s.dropWhile isspace = [] ∨
      ∃ c0 a, s.dropWhile isspace = c0 :: a ∧ isspace c0 = false := by
  induction s with
  | nil => exact Or.inl rfl
  | cons x s ih =>
    by_cases hx : isspace x = true
    · simpa [List.dropWhile, hx] using ih
    · exact Or.inr ⟨x, s, by simp [List.dropWhile, hx], by simpa using hx⟩

/-- C13: surrounding whitespace is ignored.  For every text `s` and all runs of
whitespace `w1`, `w2`, when `strtod` converts the text from its first character
that is no whitespace to the same result with `w2` after it as without,
`lept_parse` on `w1 ++ s ++ w2` and `lept_parse` on `s` both return, with the
same code and the same value (type and number). -/
theorem lept_parse_whitespace_ignored {D : Type} (L : Libc D) (v : lept_value D) (errno : Nat)
    (s w1 w2 : List Nat) (hw1 : ∀ x ∈ w1, isspace x = true)
    (hw2 : ∀ x ∈ w2, isspace x = true)
    (hL : L.strtod (cstr (s.dropWhile isspace ++ w2)) 0 =
      L.strtod (cstr (s.dropWhile isspace)) 0) :
    ∃ ret st st', lept_parse L v (cstr (w1 ++ s ++ w2)) errno = .ok (ret, st) ∧
      lept_parse L v (cstr s) errno = .ok (ret, st') ∧ st.v = st'.v := by
  have hw : ∀ x ∈ s.takeWhile isspace, isspace x = true :=
    fun x hx => List.mem_takeWhile_imp hx
  have hmem1 : cstr (w1 ++ s ++ w2) =
      w1 ++ (s.takeWhile isspace ++ (s.dropWhile isspace ++ (w2 ++ [0]))) := by
    simp only [cstr, List.append_assoc]
    rw [← List.append_assoc (s.takeWhile isspace), List.takeWhile_append_dropWhile]
  have hmem2 : cstr s = s.takeWhile isspace ++ (s.dropWhile isspace ++ [0]) := by
    simp only [cstr]
    rw [← List.append_assoc (s.takeWhile isspace), List.takeWhile_append_dropWhile]
  rw [hmem1, hmem2, parse_skip_ws L v w1 _ errno hw1, parse_skip_ws L v _ _ errno hw,
    parse_skip_ws L v _ _ errno hw]
  rcases dropWhile_isspace_head s with hnil | ⟨c0, a, hca, hc0⟩
  · rw [hnil, List.nil_append, List.nil_append, parse_skip_ws L v w2 _ errno hw2]
    have h : lept_parse L v [0] errno =
        .ok (LEPT_PARSE_EXPECT_VALUE,
          { c := { json := [0] }, v := { v with type := LEPT_NULL }, errno := errno }) := by
      rw [parse_at_value L v 0 [] errno isspace_zero, value_of_nul L _ [] rfl]
      simp
    exact ⟨_, _, _, h, h, rfl⟩
  · have hL2 : L.strtod (c0 :: (a ++ (w2 ++ [0]))) 0 = L.strtod (c0 :: (a ++ [0])) 0 := by
      rw [hca] at hL
      simpa [cstr] using hL
    obtain ⟨ret, b, v', e', hv1, hv2⟩ := value_tail L { v with type := LEPT_NULL } errno c0 a
      [0] (w2 ++ [0]) ⟨0, [], rfl, Or.inr rfl⟩ (inert_cstr_ws w2 hw2) hL2
    rw [hca]
    simp only [List.cons_append] at hv1 hv2 ⊢
    rw [parse_at_value L v c0 _ errno hc0, parse_at_value L v c0 _ errno hc0, hv1, hv2]
    simp only
    by_cases hret : ret = LEPT_PARSE_OK
    · simp only [hret, if_true]
      obtain ⟨ret3, st, st', ht1, ht2, hvv, _⟩ := trailing_tail v' e' b w2 hw2
      exact ⟨ret3, st', st, ht2, ht1, hvv⟩
    · simp only [hret, if_false]
      exact ⟨ret, _, _, rfl, rfl, rfl⟩

/-- Witness of C13 on the text `42`, with two spaces before and a space and a
newline after. -/
theorem lept_parse_whitespace_ignored_witness :
    ∃ ret st st', lept_parse libc ⟨Dbl.fin false 0 10 0, LEPT_TRUE⟩
        (cstr (str "  " ++ str "42" ++ [32, 10])) 0 = .ok (ret, st) ∧
      lept_parse libc ⟨Dbl.fin false 0 10 0, LEPT_TRUE⟩ (cstr (str "42")) 0 = .ok (ret, st') ∧
      st.v = st'.v :=
  lept_parse_whitespace_ignored libc ⟨Dbl.fin false 0 10 0, LEPT_TRUE⟩ 0 (str "42") (str "  ")
    [32, 10] (by decide) (by decide) (by decide!)

/-! ## The library `libc` and what follows the number -/

theorem takeWhile_tail (f : Nat → Bool) (a : List Nat) (y : Nat) (Y : List Nat)
    (h : f y = false) : (a ++ y :: Y).takeWhile f = a.takeWhile f := by
  induction a with
  | nil => simp [List.takeWhile, h]
  | cons x a ih => by_cases hx : f x = true <;> simp [List.takeWhile, hx, ih]

theorem dropWhile_tail (f : Nat → Bool) (a : List Nat) (y : Nat) (Y : List Nat)
    (h : f y = false) : (a ++ y :: Y).dropWhile f = a.dropWhile f ++ y :: Y := by
  induction a with
  | nil => simp [List.dropWhile, h]
  | cons x a ih => by_cases hx : f x = true <;> simp [List.dropWhile, hx, ih]

/-- A whitespace character and the NUL are no part of a floating constant. -/
theorem inert_char (y : Nat) (hy : isspace y = true ∨ y = 0) :
    ISDIGIT y = false ∧ isxdigit y = false ∧ y ≠ 45 ∧ y ≠ 43 ∧ y ≠ 46 ∧ y ≠ 101 ∧ y ≠ 69 ∧
      y ≠ 112 ∧ y ≠ 80 ∧ y ≠ 48 ∧ y ≠ 120 ∧ y ≠ 88 := by
  simp [isspace] at hy
  simp [ISDIGIT, isxdigit]
  omega

theorem strtod_exponent_tail (lo up : Nat) (a : List Nat) (y : Nat) (Y : List Nat)
    (hy : isspace y = true ∨ y = 0) (hlo : lo = 101 ∨ lo = 112) (hup : up = 69 ∨ up = 80) :
    strtod_exponent lo up (a ++ y :: Y) = strtod_exponent lo up (a ++ [0]) := by
  obtain ⟨hd, _, h45, h43, _, h101, h69, h112, h80, _⟩ := inert_char y hy
  have hylo : ¬ (y = lo ∨ y = up) := by omega
  have h0lo : ¬ ((0 : Nat) = lo ∨ 0 = up) := by omega
  match a with
  | [] =>
    cases Y with
    | nil => simp [strtod_exponent]
    | cons s p2 => simp [strtod_exponent, hylo]
  | [m] =>
    by_cases hm : m = lo ∨ m = up
    · simp [strtod_exponent, hm, h45, h43, hd, List.takeWhile, ISDIGIT_zero]
    · simp [strtod_exponent, hm]
  | m :: s :: a2 =>
    by_cases hm : m = lo ∨ m = up
    · have e1 := takeWhile_tail ISDIGIT a2 y Y hd
      have e2 := takeWhile_tail ISDIGIT a2 0 [] ISDIGIT_zero
      have e3 := takeWhile_tail ISDIGIT (s :: a2) y Y hd
      have e4 := takeWhile_tail ISDIGIT (s :: a2) 0 [] ISDIGIT_zero
      simp only [List.cons_append] at e3 e4
      simp only [strtod_exponent, List.cons_append, hm, if_true, e1, e2, e3, e4]
    · simp [strtod_exponent, hm]

theorem strtod_mantissa_tail (isdig : Nat → Bool) (b k lo up : Nat) (a : List Nat) (y : Nat)
    (Y : List Nat) (hy : isspace y = true ∨ y = 0) (hdig : isdig y = false)
    (hdig0 : isdig 0 = false) (hlo : lo = 101 ∨ lo = 112) (hup : up = 69 ∨ up = 80) :
    strtod_mantissa isdig b k lo up (a ++ y :: Y) =
      strtod_mantissa isdig b k lo up (a ++ [0]) := by
  obtain ⟨_, _, _, _, h46, _⟩ := inert_char y hy
  unfold strtod_mantissa
  simp only [takeWhile_tail isdig a y Y hdig, takeWhile_tail isdig a 0 [] hdig0,
    dropWhile_tail isdig a y Y hdig, dropWhile_tail isdig a 0 [] hdig0]
  cases ha : a.dropWhile isdig with
  | nil =>
    have h1 : ¬ (y = 46) := h46
    have e := strtod_exponent_tail lo up [] y Y hy hlo hup
    simp only [List.nil_append] at e
    simp [h1, e]
  | cons x a2 =>
    by_cases hx : x = 46
    · subst hx
      have hdot : ((some 46 : Option Nat) = some '.'.toNat) = True := eq_true rfl
      simp only [List.cons_append, List.head?_cons, List.tail_cons, hdot, if_true,
        takeWhile_tail isdig a2 y Y hdig, takeWhile_tail isdig a2 0 [] hdig0,
        dropWhile_tail isdig a2 y Y hdig, dropWhile_tail isdig a2 0 [] hdig0,
        strtod_exponent_tail lo up (a2.dropWhile isdig) y Y hy hlo hup]
    · have e := strtod_exponent_tail lo up (x :: a2) y Y hy hlo hup
      simp only [List.cons_append] at e
      simp [hx, e]

/-- The library `libc` skips leading whitespace. -/
theorem strtod_skip_ws (w p : List Nat) (errno : Nat) (hw : ∀ x ∈ w, isspace x = true) :
    strtod (w ++ p) errno = strtod p errno := by
  have h : (w ++ p).dropWhile isspace = p.dropWhile isspace := by
    induction w with
    | nil => rfl
    | cons x w ih =>
      have hx : isspace x = true := hw x (List.mem_cons_self _ _)
      simp only [List.cons_append, List.dropWhile, hx]
      exact ih (fun z hz => hw z (List.mem_cons_of_mem _ hz))
  unfold strtod
  simp only [h]

/-- What the library `libc` converts from a text does not depend on what follows
the text, when that starts with a whitespace character or the NUL. -/
theorem strtod_tail (c0 : Nat) (a : List Nat) (y : Nat) (Y : List Nat) (errno : Nat)
    (hc0 : isspace c0 = false) (hy : isspace y = true ∨ y = 0) :
    strtod (c0 :: (a ++ y :: Y)) errno = strtod (c0 :: (a ++ [0])) errno := by
  obtain ⟨hd, hxd, h45, h43, h46, h101, h69, h112, h80, h48, h120, h88⟩ := inert_char y hy
  have hxd0 : isxdigit 0 = false := by decide
  have dec : ∀ p : List Nat,
      strtod_mantissa ISDIGIT 10 1 'e'.toNat 'E'.toNat (p ++ y :: Y) =
        strtod_mantissa ISDIGIT 10 1 'e'.toNat 'E'.toNat (p ++ [0]) :=
    fun p => strtod_mantissa_tail ISDIGIT 10 1 _ _ p y Y hy hd ISDIGIT_zero (Or.inl rfl) (Or.inl rfl)
  have hex : ∀ p : List Nat,
      strtod_mantissa isxdigit 16 4 'p'.toNat 'P'.toNat (p ++ y :: Y) =
        strtod_mantissa isxdigit 16 4 'p'.toNat 'P'.toNat (p ++ [0]) :=
    fun p => strtod_mantissa_tail isxdigit 16 4 _ _ p y Y hy hxd hxd0 (Or.inr rfl) (Or.inr rfl)
  unfold strtod
  simp only [List.dropWhile, hc0, List.head?_cons, List.tail_cons]
  by_cases hs : c0 = 45 ∨ c0 = 43
  · have hs2 : (some c0 = some '-'.toNat ∨ some c0 = some '+'.toNat) := by
      rcases hs with h | h <;> simp [h]
    simp only [hs2, if_true]
    match a with
    | [] =>
      have d := dec []
      simp only [List.nil_append] at d
      cases Y with
      | nil => simp only [List.nil_append, d]
      | cons x p1 =>
        have hz : ¬ (y = '0'.toNat ∧ (x = 'x'.toNat ∨ x = 'X'.toNat)) := by
          intro h
          exact h48 h.1
        simp only [List.nil_append, d, hz, if_false]
    | [z] =>
      have d := dec [z]
      simp only [List.cons_append, List.nil_append] at d
      have hz : ¬ (z = '0'.toNat ∧ (y = 'x'.toNat ∨ y = 'X'.toNat)) := by
        intro h
        rcases h.2 with h | h
        · exact h120 h
        · exact h88 h
      have hz0 : ¬ (z = '0'.toNat ∧ ((0 : Nat) = 'x'.toNat ∨ (0 : Nat) = 'X'.toNat)) := by
        intro h
        rcases h.2 with h | h <;> simp at h
      simp only [List.cons_append, List.nil_append, d, hz, hz0, if_false]
    | z :: x :: a3 =>
      have d := dec (z :: x :: a3)
      simp only [List.cons_append] at d
      simp only [List.cons_append, d, hex a3]
  · have hs2 : ¬ (some c0 = some '-'.toNat ∨ some c0 = some '+'.toNat) := by
      simpa using hs
    simp only [hs2, if_false]
    match a with
    | [] =>
      have d := dec [c0]
      simp only [List.cons_append, List.nil_append] at d
      have hz : ¬ (c0 = '0'.toNat ∧ (y = 'x'.toNat ∨ y = 'X'.toNat)) := by
        intro h
        rcases h.2 with h | h
        · exact h120 h
        · exact h88 h
      have hz0 : ¬ (c0 = '0'.toNat ∧ ((0 : Nat) = 'x'.toNat ∨ (0 : Nat) = 'X'.toNat)) := by
        intro h
        rcases h.2 with h | h <;> simp at h
      simp only [List.nil_append, d, hz, hz0, if_false]
    | x :: a3 =>
      have d := dec (c0 :: x :: a3)
      simp only [List.cons_append] at d
      simp only [List.cons_append, d, hex a3]

/-- The library `libc` converts a text to the same result whatever whitespace
follows it. -/
theorem strtod_ws_tail (s w2 : List Nat) (errno : Nat) (hw2 : ∀ x ∈ w2, isspace x = true) :
    strtod (cstr (s ++ w2)) errno = strtod (cstr s) errno := by
  have hw : ∀ x ∈ s.takeWhile isspace, isspace x = true :=
    fun x hx => List.mem_takeWhile_imp hx
  have hmem1 : cstr (s ++ w2) =
      s.takeWhile isspace ++ (s.dropWhile isspace ++ (w2 ++ [0])) := by
    simp only [cstr, List.append_assoc]
    rw [← List.append_assoc (s.takeWhile isspace), List.takeWhile_append_dropWhile]
  have hmem2 : cstr s = s.takeWhile isspace ++ (s.dropWhile isspace ++ [0]) := by
    simp only [cstr]
    rw [← List.append_assoc (s.takeWhile isspace), List.takeWhile_append_dropWhile]
  rw [hmem1, hmem2, strtod_skip_ws _ _ errno hw, strtod_skip_ws _ _ errno hw]
  rcases dropWhile_isspace_head s with hnil | ⟨c0, a, hca, hc0⟩
  · rw [hnil, List.nil_append, List.nil_append, strtod_skip_ws w2 _ errno hw2]
  · obtain ⟨y, Y, hyY, hy⟩ := inert_cstr_ws w2 hw2
    rw [hca, hyY]
    exact strtod_tail c0 a y Y errno hc0 hy

/-- The library `libc` converts a number of the grammar to the same result
whatever follows it after a whitespace character. -/
theorem strtod_number_tail (N t : List Nat) (errno : Nat) (hN : is_number N)
    (ht : ∀ c ∈ t.head?, isspace c = true) :
    strtod (cstr (N ++ t)) errno = strtod (cstr N) errno := by
  obtain ⟨d, N', rfl, hd⟩ := is_number_head N hN
  obtain ⟨hd0, _⟩ := number_head_other d hd
  cases t with
  | nil => simp
  | cons x t =>
    have hx : isspace x = true := ht x (by simp)
    have h := strtod_tail d N' x (t ++ [0]) errno hd0 (Or.inl hx)
    simpa [cstr] using h

/-- C11 with the library `libc`: there the conversion from the cursor is the
conversion of `N` alone, whatever `t` holds, and `lept_parse` on `w1 ++ N ++ t`
returns `LEPT_PARSE_NUMBER_TOO_BIG` if and only if the conversion of `N`
overflows. -/
theorem lept_parse_libc_too_big (v : lept_value Dbl) (errno : Nat)
    (w1 N t : List Nat) (hN : is_number N) (hw1 : ∀ x ∈ w1, isspace x = true)
    (ht : ∀ c ∈ t.head?, isspace c = true) :
    ∃ ret st, lept_parse libc v (cstr (w1 ++ N ++ t)) errno = .ok (ret, st) ∧
      (ret = LEPT_PARSE_NUMBER_TOO_BIG ↔ strtod_overflows libc (cstr N) = true) := by
  have hov : strtod_overflows libc (cstr N) = strtod_overflows libc (cstr (N ++ t)) := by
    have h := strtod_number_tail N t 0 hN ht
    simp only [strtod_overflows, libc, h]
  obtain ⟨y, Y, hyY, hy⟩ : ∃ y Y, t ++ [0] = y :: Y ∧ (isspace y = true ∨ y = 0) := by
    cases t with
    | nil => exact ⟨0, [], rfl, Or.inr rfl⟩
    | cons x t => exact ⟨x, t ++ [0], by simp, Or.inl (ht x (by simp))⟩
  have hmem : cstr (w1 ++ N ++ t) = w1 ++ (N ++ y :: Y) := by
    simp [cstr, ← hyY]
  have hmem2 : cstr (N ++ t) = N ++ y :: Y := by
    simp [cstr, ← hyY]
  have h0 : 0 ∈ y :: Y := by
    rw [← hyY]
    simp
  rw [hov, hmem, hmem2, parse_skip_ws libc v w1 _ errno hw1,
    parse_at_number libc v N y Y errno hN (number_stop_of_space y hy)]
  by_cases hb : strtod_overflows libc (N ++ y :: Y) = true
  · exact ⟨LEPT_PARSE_NUMBER_TOO_BIG,
      { c := { json := N ++ y :: Y }, v := { v with type := LEPT_NULL },
        errno := (libc.strtod (N ++ y :: Y) 0).2 }, by simp [hb], by simp [hb]⟩
  · obtain ⟨ret, st', htr, _, _, hcodes⟩ := trailing_total
      ({ c := { json := y :: Y },
         v := { n := (libc.strtod (N ++ y :: Y) 0).1, type := LEPT_NUMBER },
         errno := (libc.strtod (N ++ y :: Y) 0).2 } : State Dbl) h0
    have hne : ret ≠ LEPT_PARSE_NUMBER_TOO_BIG := by
      rcases hcodes with ⟨h1, _⟩ | ⟨h1, _⟩ <;> simp [h1]
    refine ⟨ret, st', by simp only [hb]; exact htr, ?_⟩
    constructor
    · intro h
      exact absurd h hne
    · intro h
      exact absurd h hb

/-- C13 with the library `libc`, whose conversion does not look at the
whitespace after a text: `lept_parse` on `w1 ++ s ++ w2` and on `s` return the
same code and the same value, for every text `s`. -/
theorem lept_parse_libc_whitespace_ignored (v : lept_value Dbl) (errno : Nat)
    (s w1 w2 : List Nat) (hw1 : ∀ x ∈ w1, isspace x = true)
    (hw2 : ∀ x ∈ w2, isspace x = true) :
    ∃ ret st st', lept_parse libc v (cstr (w1 ++ s ++ w2)) errno = .ok (ret, st) ∧
      lept_parse libc v (cstr s) errno = .ok (ret, st') ∧ st.v = st'.v := by
  have hL : libc.strtod (cstr (s.dropWhile isspace ++ w2)) 0 =
      libc.strtod (cstr (s.dropWhile isspace)) 0 :=
    strtod_ws_tail (s.dropWhile isspace) w2 0 hw2
  have hw : ∀ x ∈ s.takeWhile isspace, isspace x = true :=
    fun x hx => List.mem_takeWhile_imp hx
  have hmem1 : cstr (w1 ++ s ++ w2) =
      w1 ++ (s.takeWhile isspace ++ (s.dropWhile isspace ++ (w2 ++ [0]))) := by
    simp only [cstr, List.append_assoc]
    rw [← List.append_assoc (s.takeWhile isspace), List.takeWhile_append_dropWhile]
  have hmem2 : cstr s = s.takeWhile isspace ++ (s.dropWhile isspace ++ [0]) := by
    simp only [cstr]
    rw [← List.append_assoc (s.takeWhile isspace), List.takeWhile_append_dropWhile]
  rw [hmem1, hmem2, parse_skip_ws libc v w1 _ errno hw1, parse_skip_ws libc v _ _ errno hw,
    parse_skip_ws libc v _ _ errno hw]
  rcases dropWhile_isspace_head s with hnil | ⟨c0, a, hca, hc0⟩
  · rw [hnil, List.nil_append, List.nil_append, parse_skip_ws libc v w2 _ errno hw2]
    have h : lept_parse libc v [0] errno =
        .ok (LEPT_PARSE_EXPECT_VALUE,
          { c := { json := [0] }, v := { v with type := LEPT_NULL }, errno := errno }) := by
      rw [parse_at_value libc v 0 [] errno isspace_zero, value_of_nul libc _ [] rfl]
      simp
    exact ⟨_, _, _, h, h, rfl⟩
  · have hL2 : libc.strtod (c0 :: (a ++ (w2 ++ [0]))) 0 = libc.strtod (c0 :: (a ++ [0])) 0 := by
      rw [hca] at hL
      simpa [cstr] using hL
    obtain ⟨ret, b, v', e', hv1, hv2⟩ := value_tail libc { v with type := LEPT_NULL } errno c0 a
      [0] (w2 ++ [0]) ⟨0, [], rfl, Or.inr rfl⟩ (inert_cstr_ws w2 hw2) hL2
    rw [hca]
    simp only [List.cons_append] at hv1 hv2 ⊢
    rw [parse_at_value libc v c0 _ errno hc0, parse_at_value libc v c0 _ errno hc0, hv1, hv2]
    simp only
    by_cases hret : ret = LEPT_PARSE_OK
    · simp only [hret, if_true]
      obtain ⟨ret3, st, st', ht1, ht2, hvv, _⟩ := trailing_tail v' e' b w2 hw2
      exact ⟨ret3, st', st, ht2, ht1, hvv⟩
    · simp only [hret, if_false]
      exact ⟨ret, _, _, rfl, rfl, rfl⟩

end LeptJson
